import Mathlib

/-!
Aetherion Engine: the mesh-to-glTF encoder of `generate_meshes.js`.

A shallow embedding of `createGltf` and of the platform functions it calls
(`Math.min`, `Math.max`, `Math.sqrt`, number arithmetic, `Buffer.alloc`,
`Buffer.prototype.writeFloatLE`, `Buffer.prototype.writeUInt16LE`, `Buffer.concat`,
`Buffer.prototype.toString('base64')`), followed by theorems about the document
the function assembles.

Conventions of the embedding:
* a JavaScript number is a `JsNum`: NaN, the two infinities, negative zero, or a finite
  value carried as a rational (`fin 0` is positive zero); arithmetic rounds to binary64
  (round to nearest, ties to even);
* a `Buffer` is a list of bytes, each a natural number below 256;
* a thrown exception is the `error` branch of `Except JsError`;
* the file system is an explicit list of written files.
-/

namespace Aetherion

/-! ## JavaScript numbers -/

/-- A JavaScript number. `fin q` is the finite value `q` (`fin 0` is `+0`), `negZero` is `-0`. -/
inductive JsNum where
  | nan
  | posInf
  | negInf
  | negZero
  | fin (q : ℚ)
  deriving DecidableEq

namespace JsNum

/-- The number is neither NaN nor an infinity. -/
def isFinite : JsNum → Bool
  | nan => false
  | posInf => false
  | negInf => false
  | negZero => true
  | fin _ => true

/-- The number is NaN. -/
def isNaN : JsNum → Bool
  | nan => true
  | _ => false

/-- The number is `+0` or `-0`. -/
def isZero : JsNum → Bool
  | negZero => true
  | fin q => decide (q = 0)
  | _ => false

/-- Mathematical value of a finite number (`0` for the non-finite ones). -/
def toRat : JsNum → ℚ
  | fin q => q
  | _ => 0

/-- Sign bit: `true` for negative numbers, `-0` and `-Infinity`. -/
def signBit : JsNum → Bool
  | negInf => true
  | negZero => true
  | fin q => decide (q < 0)
  | _ => false

/-- The infinity of the given sign. -/
def infOf (neg : Bool) : JsNum := if neg then negInf else posInf

/-- The zero of the given sign. -/
def zeroOf (neg : Bool) : JsNum := if neg then negZero else fin 0

/-- The abstract relational comparison `a < b` of ECMAScript (false when either side is NaN). -/
def lt : JsNum → JsNum → Bool
  | nan, _ => false
  | _, nan => false
  | posInf, _ => false
  | _, posInf => true
  | _, negInf => false
  | negInf, _ => true
  | a, b => decide (a.toRat < b.toRat)

/-- The comparison `a <= b` of ECMAScript (false when either side is NaN). -/
def le : JsNum → JsNum → Bool
  | nan, _ => false
  | _, nan => false
  | a, b => !(lt b a)

/-- The strict equality `a === b` on numbers (NaN differs from itself, `+0 === -0`). -/
def strictEq : JsNum → JsNum → Bool
  | nan, _ => false
  | _, nan => false
  | posInf, posInf => true
  | negInf, negInf => true
  | posInf, _ => false
  | negInf, _ => false
  | _, posInf => false
  | _, negInf => false
  | a, b => decide (a.toRat = b.toRat)

/-- ToBoolean on a number: `+0`, `-0` and NaN are falsy. -/
def truthy : JsNum → Bool
  | nan => false
  | negZero => false
  | fin q => decide (q ≠ 0)
  | _ => true

/-! ### Rounding to a binary floating-point format -/

/-- Round a rational to the nearest integer, ties to even. -/
def roundHalfEven (x : ℚ) : ℤ :=
  let f := ⌊x⌋
  let r := x - f
  if r < 1 / 2 then f
  else if 1 / 2 < r then f + 1
  else if f % 2 = 0 then f else f + 1

/-- Exponent of the unit in the last place of the binade holding the positive rational `m`,
in a format with `prec` significand bits and least normal exponent `emin`. -/
def ulpExp (prec : ℕ) (emin : ℤ) (m : ℚ) : ℤ :=
  max (Int.log 2 m) emin - (prec - 1)

/-- Round the magnitude `m ≥ 0` to the format `(prec, emin, emax)`: `none` on overflow,
otherwise the rounded magnitude (possibly `0` on underflow). -/
def roundMag (prec : ℕ) (emin emax : ℤ) (m : ℚ) : Option ℚ :=
  if m = 0 then some 0
  else
    let e := ulpExp prec emin m
    let r : ℚ := (roundHalfEven (m / (2 : ℚ) ^ e) : ℚ) * (2 : ℚ) ^ e
    if (2 : ℚ) ^ (emax + 1) ≤ r then none else some r

/-- The number of the given sign and magnitude, rounded to the format. -/
def roundTo (prec : ℕ) (emin emax : ℤ) (neg : Bool) (m : ℚ) : JsNum :=
  match roundMag prec emin emax m with
  | none => infOf neg
  | some r => if r = 0 then zeroOf neg else fin (if neg then -r else r)

/-- Round a signed magnitude to binary64. -/
def round64 (neg : Bool) (m : ℚ) : JsNum := roundTo 53 (-1022) 1023 neg m

/-- The number denoted by a decimal literal of value `q`. -/
def ofRat (q : ℚ) : JsNum := round64 (decide (q < 0)) |q|

/-- Round a number to binary32, as storing into a `Float32Array` does. -/
def fround : JsNum → JsNum
  | fin q => roundTo 24 (-126) 127 (decide (q < 0)) |q|
  | x => x

/-! ### Arithmetic -/

/-- The product `a * b`. -/
def mul (a b : JsNum) : JsNum :=
  if a.isNaN || b.isNaN then nan
  else
    let s := xor a.signBit b.signBit
    if a.isFinite && b.isFinite then round64 s (|a.toRat| * |b.toRat|)
    else if a.isZero || b.isZero then nan
    else infOf s

/-- The sum `a + b`. -/
def add (a b : JsNum) : JsNum :=
  if a.isNaN || b.isNaN then nan
  else if a.isFinite && b.isFinite then
    let s := a.toRat + b.toRat
    if s = 0 then zeroOf (a.signBit && b.signBit)
    else round64 (decide (s < 0)) |s|
  else if !a.isFinite && !b.isFinite then
    (if a.signBit = b.signBit then a else nan)
  else if a.isFinite then b else a

/-- The quotient `a / b`. -/
def div (a b : JsNum) : JsNum :=
  if a.isNaN || b.isNaN then nan
  else
    let s := xor a.signBit b.signBit
    if !a.isFinite then (if b.isFinite then infOf s else nan)
    else if !b.isFinite then zeroOf s
    else if b.isZero then (if a.isZero then nan else infOf s)
    else round64 s (|a.toRat| / |b.toRat|)

/-- Round the square root of the positive rational `q` to the nearest multiple of `2 ^ e`,
ties to even, as a multiple count. -/
def sqrtRound (q : ℚ) (e : ℤ) : ℕ :=
  let r : ℚ := q / (2 : ℚ) ^ (2 * e)
  let f : ℕ := Nat.sqrt ⌊r⌋₊
  let mid : ℚ := (f : ℚ) * f + f + 1 / 4
  if r < mid then f
  else if mid < r then f + 1
  else if f % 2 = 0 then f else f + 1

/-- The correctly rounded `Math.sqrt`. -/
def sqrt : JsNum → JsNum
  | nan => nan
  | posInf => posInf
  | negInf => nan
  | negZero => negZero
  | fin q =>
    if q < 0 then nan
    else if q = 0 then fin 0
    else
      let e : ℤ := max (Int.log 2 q / 2) (-1022) - 52
      fin ((sqrtRound q e : ℚ) * (2 : ℚ) ^ e)

/-- `Math.min` of two numbers: NaN if either is NaN, and `-0` is smaller than `+0`. -/
def min (a b : JsNum) : JsNum :=
  if a.isNaN || b.isNaN then nan
  else if lt a b then a
  else if lt b a then b
  else if a.signBit then a else b

/-- `Math.max` of two numbers: NaN if either is NaN, and `+0` is larger than `-0`. -/
def max (a b : JsNum) : JsNum :=
  if a.isNaN || b.isNaN then nan
  else if lt b a then a
  else if lt a b then b
  else if a.signBit then b else a

end JsNum

/-! ## Buffers -/

/-- A Node.js `Buffer`: a sequence of bytes. -/
abbrev Buffer := List ℕ

/-- The exceptions the encoder can raise. -/
inductive JsError where
  | rangeError
  | typeError
  deriving DecidableEq, Repr

/-- `Buffer.alloc(size)`: a zero-filled buffer. -/
def Buffer.alloc (size : ℕ) : Buffer := List.replicate size 0

/-- `Buffer.concat(list)`: the buffers of the list, one after the other. -/
def Buffer.concat (list : List Buffer) : Buffer := list.foldr (· ++ ·) []

/-- The IEEE-754 binary32 bit pattern of a finite binary32 value `q`: sign bit, then the
subnormal encoding below `2 ^ (-126)` and the biased exponent and fraction above. -/
def f32BitsFin (q : ℚ) : ℕ :=
  if q = 0 then 0
  else if Int.log 2 |q| < -126 then
    (if q < 0 then 0x80000000 else 0) + ⌊|q| * (2 : ℚ) ^ (149 : ℕ)⌋₊
  else
    (if q < 0 then 0x80000000 else 0) + (Int.log 2 |q| + 127).toNat * 0x800000
      + (⌊|q| / (2 : ℚ) ^ (Int.log 2 |q| - 23)⌋₊ - 0x800000)

/-- The IEEE-754 binary32 bit pattern of a number that is already a binary32 value. -/
def f32Bits : JsNum → ℕ
  | JsNum.nan => 0x7FC00000
  | JsNum.posInf => 0x7F800000
  | JsNum.negInf => 0xFF800000
  | JsNum.negZero => 0x80000000
  | JsNum.fin q => f32BitsFin q

/-- The four bytes `Float32Array` stores for a number, least significant first. -/
def f32LE (value : JsNum) : List ℕ :=
  let b := f32Bits (JsNum.fround value)
  [b % 256, b / 0x100 % 256, b / 0x10000 % 256, b / 0x1000000 % 256]

/-- `buf.writeFloatLE(value, offset)`: bounds check, then four byte stores. -/
def writeFloatLE (buf : Buffer) (value : JsNum) (offset : ℕ) : Except JsError Buffer :=
  if buf.length < offset + 4 then Except.error JsError.rangeError
  else
    let b := f32Bits (JsNum.fround value)
    let buf := buf.set offset (b % 256)
    let buf := buf.set (offset + 1) (b / 0x100 % 256)
    let buf := buf.set (offset + 2) (b / 0x10000 % 256)
    let buf := buf.set (offset + 3) (b / 0x1000000 % 256)
    Except.ok buf

/-- `buf.writeUInt16LE(value, offset)` on an integer value: the range check of the value
(`0 .. 65535`), the bounds check, then two byte stores. -/
def writeUInt16LE (buf : Buffer) (value : ℤ) (offset : ℕ) : Except JsError Buffer :=
  if 65535 < value ∨ value < 0 then Except.error JsError.rangeError
  else if buf.length < offset + 2 then Except.error JsError.rangeError
  else
    let buf := buf.set offset (value % 256).toNat
    let buf := buf.set (offset + 1) (value / 256 % 256).toNat
    Except.ok buf

/-! ### Base64 (RFC 4648, with padding) -/

/-- The base64 alphabet. -/
def b64Alphabet : List Char :=
  "ABCDEFGHIJKLMNOPQRSTUVWXYZabcdefghijklmnopqrstuvwxyz0123456789+/".toList

/-- The character of a six-bit value. -/
def b64Char (n : ℕ) : Char := b64Alphabet.getD n 'A'

/-- The six-bit value of a base64 character. -/
def b64Val (c : Char) : Option ℕ :=
  if c ∈ b64Alphabet then some (b64Alphabet.indexOf c) else none

/-- The encoder behind `buf.toString('base64')`, on the characters of the result. -/
def base64Chars : List ℕ → List Char
  | a :: b :: c :: rest =>
    b64Char (a / 4) :: b64Char (a % 4 * 16 + b / 16) :: b64Char (b % 16 * 4 + c / 64)
      :: b64Char (c % 64) :: base64Chars rest
  | [a, b] => [b64Char (a / 4), b64Char (a % 4 * 16 + b / 16), b64Char (b % 16 * 4), '=']
  | [a] => [b64Char (a / 4), b64Char (a % 4 * 16), '=', '=']
  | [] => []

/-- `buf.toString('base64')`. -/
def Buffer.toBase64 (buf : Buffer) : String := String.mk (base64Chars buf)

/-- The standard base64 decoder, on characters: groups of four, padding only in the last. -/
def base64DecodeChars : List Char → Option (List ℕ)
  | [] => some []
  | [c0, c1, c2, c3] =>
    if c3 = '=' then
      if c2 = '=' then do
        let s0 ← b64Val c0
        let s1 ← b64Val c1
        pure [s0 * 4 + s1 / 16]
      else do
        let s0 ← b64Val c0
        let s1 ← b64Val c1
        let s2 ← b64Val c2
        pure [s0 * 4 + s1 / 16, s1 % 16 * 16 + s2 / 4]
    else do
      let s0 ← b64Val c0
      let s1 ← b64Val c1
      let s2 ← b64Val c2
      let s3 ← b64Val c3
      pure [s0 * 4 + s1 / 16, s1 % 16 * 16 + s2 / 4, s2 % 4 * 64 + s3]
  | c0 :: c1 :: c2 :: c3 :: rest => do
    let s0 ← b64Val c0
    let s1 ← b64Val c1
    let s2 ← b64Val c2
    let s3 ← b64Val c3
    let tail ← base64DecodeChars rest
    pure ((s0 * 4 + s1 / 16) :: (s1 % 16 * 16 + s2 / 4) :: (s2 % 4 * 64 + s3) :: tail)
  | _ => none

/-! ## The encoder -/

/-- A position `[x, y, z]`: `c0`, `c1`, `c2` are `p[0]`, `p[1]`, `p[2]`. -/
structure Vec3 where
  c0 : JsNum
  c1 : JsNum
  c2 : JsNum
  deriving DecidableEq

/-- A colour `[r, g, b, a]`: `c0` .. `c3` are `c[0]` .. `c[3]`. -/
structure Vec4 where
  c0 : JsNum
  c1 : JsNum
  c2 : JsNum
  c3 : JsNum
  deriving DecidableEq

/-- The literal `[1, 1, 1, 1]`. -/
def white : Vec4 := ⟨JsNum.fin 1, JsNum.fin 1, JsNum.fin 1, JsNum.fin 1⟩

/-- An entry of `accessors`; `max` and `min` are absent on all but the first. -/
structure Accessor where
  bufferView : ℕ
  componentType : ℕ
  count : ℕ
  type : String
  max : Option (List JsNum)
  min : Option (List JsNum)
  deriving DecidableEq

/-- An entry of `bufferViews`. -/
structure BufferView where
  buffer : ℕ
  byteOffset : ℕ
  byteLength : ℕ
  deriving DecidableEq

/-- An entry of `buffers`. -/
structure GltfBuffer where
  uri : String
  byteLength : ℕ
  deriving DecidableEq

/-- An entry of `meshes[k].primitives`; `attributes` lists the keys of the object in order. -/
structure Primitive where
  attributes : List (String × ℕ)
  indices : ℕ
  deriving DecidableEq

/-- An entry of `meshes`. -/
structure GltfMesh where
  name : String
  primitives : List Primitive
  deriving DecidableEq

/-- An entry of `nodes`. -/
structure GltfNode where
  mesh : ℕ
  name : String
  deriving DecidableEq

/-- An entry of `scenes`. -/
structure GltfScene where
  nodes : List ℕ
  deriving DecidableEq

/-- The `asset` object. -/
structure Asset where
  generator : String
  version : String
  deriving DecidableEq

/-- The document object `gltf` that `createGltf` assembles. -/
structure Gltf where
  asset : Asset
  scene : ℕ
  scenes : List GltfScene
  nodes : List GltfNode
  meshes : List GltfMesh
  accessors : List Accessor
  bufferViews : List BufferView
  buffers : List GltfBuffer
  deriving DecidableEq

/-- The loop `for (let i = 0; i < n; i++) body`, threading the state the body updates and
stopping at the first exception. -/
def forLoop {σ : Type} (n : ℕ) (body : ℕ → σ → Except JsError σ) (init : σ) :
    Except JsError σ :=
  (List.range n).foldlM (fun s i => body i s) init

/-- The element read `xs[i]` followed by a property access on it: a `TypeError` when the
element is `undefined`. -/
def elemAt {α : Type} (xs : List α) (i : ℕ) : Except JsError α :=
  match xs[i]? with
  | some x => Except.ok x
  | none => Except.error JsError.typeError

/-- Lines 8-13: the packed positions (float32 x 3). -/
def posBuffer (positions : List Vec3) : Except JsError Buffer :=
  forLoop positions.length
    (fun i buf => do
      let p ← elemAt positions i
      let buf ← writeFloatLE buf p.c0 (i * 12)
      let buf ← writeFloatLE buf p.c1 (i * 12 + 4)
      writeFloatLE buf p.c2 (i * 12 + 8))
    (Buffer.alloc (positions.length * 3 * 4))

/-- Line 19: `Math.sqrt(p[0]*p[0] + p[1]*p[1] + p[2]*p[2]) || 1`. -/
def normLen (p : Vec3) : JsNum :=
  let l := JsNum.sqrt (JsNum.add (JsNum.add (JsNum.mul p.c0 p.c0) (JsNum.mul p.c1 p.c1))
    (JsNum.mul p.c2 p.c2))
  if l.truthy then l else JsNum.fin 1

/-- Lines 19-22: the normal derived for a position, `p[k] / len`. -/
def normalOf (p : Vec3) : Vec3 :=
  ⟨JsNum.div p.c0 (normLen p), JsNum.div p.c1 (normLen p), JsNum.div p.c2 (normLen p)⟩

/-- Lines 16-23: the packed normals (float32 x 3). -/
def normBuffer (positions : List Vec3) : Except JsError Buffer :=
  forLoop positions.length
    (fun i buf => do
      let p ← elemAt positions i
      let len := normLen p
      let buf ← writeFloatLE buf (JsNum.div p.c0 len) (i * 12)
      let buf ← writeFloatLE buf (JsNum.div p.c1 len) (i * 12 + 4)
      writeFloatLE buf (JsNum.div p.c2 len) (i * 12 + 8))
    (Buffer.alloc (positions.length * 3 * 4))

/-- Line 28: `colors[i] || [1, 1, 1, 1]` (an array is truthy, `undefined` is not). -/
def colorAt (colors : List Vec4) (i : ℕ) : Vec4 :=
  match colors[i]? with
  | some c => c
  | none => white

/-- Lines 26-33: the packed colours (float32 x 4), one per position. -/
def colBuffer (positions : List Vec3) (colors : List Vec4) : Except JsError Buffer :=
  forLoop positions.length
    (fun i buf => do
      let c := colorAt colors i
      let buf ← writeFloatLE buf c.c0 (i * 16)
      let buf ← writeFloatLE buf c.c1 (i * 16 + 4)
      let buf ← writeFloatLE buf c.c2 (i * 16 + 8)
      writeFloatLE buf c.c3 (i * 16 + 12))
    (Buffer.alloc (positions.length * 4 * 4))

/-- Lines 36-39: the packed indices (uint16). An index read past the end cannot happen
inside the loop; it is given the value `0` here only to keep the function total. -/
def idxBuffer (indices : List ℤ) : Except JsError Buffer :=
  forLoop indices.length
    (fun i buf => writeUInt16LE buf (indices.getD i 0) (i * 2))
    (Buffer.alloc (indices.length * 2))

/-- The six running variables of the bounds loop. -/
structure Bounds where
  minX : JsNum
  minY : JsNum
  minZ : JsNum
  maxX : JsNum
  maxY : JsNum
  maxZ : JsNum
  deriving DecidableEq

/-- Lines 45-46: the initial sentinels. -/
def Bounds.init : Bounds :=
  ⟨JsNum.posInf, JsNum.posInf, JsNum.posInf, JsNum.negInf, JsNum.negInf, JsNum.negInf⟩

/-- Lines 48-50: one iteration of the bounds loop. -/
def Bounds.step (b : Bounds) (p : Vec3) : Bounds :=
  { minX := JsNum.min b.minX p.c0, maxX := JsNum.max b.maxX p.c0,
    minY := JsNum.min b.minY p.c1, maxY := JsNum.max b.maxY p.c1,
    minZ := JsNum.min b.minZ p.c2, maxZ := JsNum.max b.maxZ p.c2 }

/-- Lines 45-51: the bounds after `for (const p of positions)`. -/
def bounds (positions : List Vec3) : Bounds :=
  positions.foldl Bounds.step Bounds.init

/-- The fixed head of the data URI. -/
def uriHead : String := "data:application/octet-stream;base64,"

/-- Lines 41-76: from the four packed segments to the document `gltf`: concatenation,
base64 text, bounds, and the object literal. -/
def assemble (name : String) (positions : List Vec3) (indices : List ℤ)
    (posBuffer normBuffer colBuffer idxBuffer : Buffer) : Gltf :=
  let binary := Buffer.concat [posBuffer, normBuffer, colBuffer, idxBuffer]
  let b64 := binary.toBase64
  let b := bounds positions
  { asset := { generator := "Aetherion Engine", version := "2.0" }
    scene := 0
    scenes := [{ nodes := [0] }]
    nodes := [{ mesh := 0, name := name }]
    meshes := [{ name := name, primitives := [{
      attributes := [("POSITION", 0), ("NORMAL", 1), ("COLOR_0", 2)],
      indices := 3 }] }]
    accessors := [
      { bufferView := 0, componentType := 5126, count := positions.length, type := "VEC3",
        max := some [b.maxX, b.maxY, b.maxZ], min := some [b.minX, b.minY, b.minZ] },
      { bufferView := 1, componentType := 5126, count := positions.length, type := "VEC3",
        max := none, min := none },
      { bufferView := 2, componentType := 5126, count := positions.length, type := "VEC4",
        max := none, min := none },
      { bufferView := 3, componentType := 5123, count := indices.length, type := "SCALAR",
        max := none, min := none }]
    bufferViews := [
      { buffer := 0, byteOffset := 0, byteLength := posBuffer.length },
      { buffer := 0, byteOffset := posBuffer.length, byteLength := normBuffer.length },
      { buffer := 0, byteOffset := posBuffer.length + normBuffer.length,
        byteLength := colBuffer.length },
      { buffer := 0, byteOffset := posBuffer.length + normBuffer.length + colBuffer.length,
        byteLength := idxBuffer.length }]
    buffers := [{ uri := uriHead ++ b64, byteLength := binary.length }] }

/-- Lines 7-76: the document `gltf` built for a mesh, or the exception raised on the way. -/
def gltf (name : String) (positions : List Vec3) (indices : List ℤ) (colors : List Vec4) :
    Except JsError Gltf := do
  let posBuffer ← posBuffer positions
  let normBuffer ← normBuffer positions
  let colBuffer ← colBuffer positions colors
  let idxBuffer ← idxBuffer indices
  pure (assemble name positions indices posBuffer normBuffer colBuffer idxBuffer)

/-- The part of the outside world `createGltf` acts on: the files written under `outputDir`
(file name and the document handed to `JSON.stringify`), and the console lines. -/
structure World where
  files : List (String × Gltf)
  console : List String

/-- Lines 6-81: `createGltf`. The document is built first; the file is written and the line
logged only when that succeeded. -/
def createGltf (name : String) (positions : List Vec3) (indices : List ℤ)
    (colors : List Vec4) (w : World) : Except JsError Unit × World :=
  match gltf name positions indices colors with
  | Except.error e => (Except.error e, w)
  | Except.ok doc =>
    (Except.ok (),
      { files := w.files ++ [(name ++ ".gltf", doc)],
        console := w.console ++ [s!"Created {name}.gltf ({positions.length} vertices, {indices.length} indices)"] })

/-! ## Reading a document back

What a glTF reader does with the document: strip the head of the data URI, decode the
base64 payload, and cut the bytes at a buffer view. Used to state what the document holds. -/

/-- The bytes a data URI carries: `none` unless it starts with `uriHead` and the rest is
well-formed base64. -/
def decodeUri (uri : String) : Option (List ℕ) :=
  if uri.data.take uriHead.length = uriHead.data then
    base64DecodeChars (uri.data.drop uriHead.length)
  else none

/-- The bytes of `bufferViews[k]`, cut out of the decoded buffer the view refers to. -/
def segment (doc : Gltf) (k : ℕ) : Option (List ℕ) := do
  let v ← doc.bufferViews[k]?
  let b ← doc.buffers[v.buffer]?
  let bytes ← decodeUri b.uri
  pure ((bytes.drop v.byteOffset).take v.byteLength)

/-- The unsigned little-endian 16-bit integer at an offset of a byte sequence. -/
def readUInt16LE (bytes : List ℕ) (offset : ℕ) : Option ℕ := do
  let lo ← bytes[offset]?
  let hi ← bytes[offset + 1]?
  pure (lo + 256 * hi)

/-- The twelve bytes of a packed 3-component vector. -/
def packVec3 (p : Vec3) : List ℕ := f32LE p.c0 ++ f32LE p.c1 ++ f32LE p.c2

/-- The sixteen bytes of a packed 4-component vector. -/
def packVec4 (c : Vec4) : List ℕ := f32LE c.c0 ++ f32LE c.c1 ++ f32LE c.c2 ++ f32LE c.c3

/-- The two bytes of a packed index. -/
def packIndex (v : ℤ) : List ℕ := [(v % 256).toNat, (v / 256 % 256).toNat]

/-- The packed position segment of a mesh: twelve bytes per vertex. -/
def packPositions (positions : List Vec3) : List ℕ := positions.flatMap packVec3

/-- The packed normal segment of a mesh: the derived normal of each vertex, twelve bytes each. -/
def packNormals (positions : List Vec3) : List ℕ :=
  positions.flatMap (fun p => packVec3 (normalOf p))

/-- The packed colour segment of a mesh: the (defaulted) colour of each vertex, sixteen
bytes each. -/
def packColors (positions : List Vec3) (colors : List Vec4) : List ℕ :=
  (List.range positions.length).flatMap (fun i => packVec4 (colorAt colors i))

/-- The packed index segment of a mesh: two bytes per index. -/
def packIndices (indices : List ℤ) : List ℕ := indices.flatMap packIndex

/-- The document assembled from the four packed segments of a mesh. -/
def document (name : String) (positions : List Vec3) (indices : List ℤ) (colors : List Vec4) :
    Gltf :=
  assemble name positions indices (packPositions positions) (packNormals positions)
    (packColors positions colors) (packIndices indices)

/-- The sixteen bytes at colour slot `i` of a colour segment. -/
def colorSlot (seg : List ℕ) (i : ℕ) : List ℕ := (seg.drop (16 * i)).take 16

/-- The twelve bytes at vertex slot `i` of a position or normal segment. -/
def vertexSlot (seg : List ℕ) (i : ℕ) : List ℕ := (seg.drop (12 * i)).take 12

/-- The components of a position as the array `[p[0], p[1], p[2]]`. -/
def Vec3.toList (p : Vec3) : List JsNum := [p.c0, p.c1, p.c2]

/-- The component `p[i]` of a position, for `i < 3`. -/
def Vec3.comp (p : Vec3) : ℕ → JsNum
  | 0 => p.c0
  | 1 => p.c1
  | _ => p.c2

/-- All three components of the position are finite numbers. -/
def Vec3.isFinite (p : Vec3) : Bool := p.c0.isFinite && p.c1.isFinite && p.c2.isFinite

/-- The byte lengths of the entries of `buffers`. -/
def Gltf.bufferByteLengths (doc : Gltf) : List ℕ := doc.buffers.map GltfBuffer.byteLength

/-- The byte offsets of the entries of `bufferViews`. -/
def Gltf.viewOffsets (doc : Gltf) : List ℕ := doc.bufferViews.map BufferView.byteOffset

/-- The byte lengths of the entries of `bufferViews`. -/
def Gltf.viewLengths (doc : Gltf) : List ℕ := doc.bufferViews.map BufferView.byteLength

/-- The minimum corner `[minX, minY, minZ]` of the bounds. -/
def Bounds.lo (b : Bounds) : Vec3 := ⟨b.minX, b.minY, b.minZ⟩

/-- The maximum corner `[maxX, maxY, maxZ]` of the bounds. -/
def Bounds.hi (b : Bounds) : Vec3 := ⟨b.maxX, b.maxY, b.maxZ⟩

/-- The mesh of the spec's concrete scenario: positions `[[1,0,0],[0,1,0],[0,0,1]]`. -/
def unitTriangle : List Vec3 :=
  [⟨JsNum.fin 1, JsNum.fin 0, JsNum.fin 0⟩, ⟨JsNum.fin 0, JsNum.fin 1, JsNum.fin 0⟩,
    ⟨JsNum.fin 0, JsNum.fin 0, JsNum.fin 1⟩]

/-! ## The shipped meshes (lines 83-222) -/

/-- Unary minus on a number. -/
def JsNum.neg : JsNum → JsNum
  | JsNum.nan => JsNum.nan
  | JsNum.posInf => JsNum.negInf
  | JsNum.negInf => JsNum.posInf
  | JsNum.negZero => JsNum.fin 0
  | JsNum.fin q => if q = 0 then JsNum.negZero else JsNum.fin (-q)

/-- The number of a non-negative integer literal or array index. -/
def JsNum.ofNat (n : ℕ) : JsNum := JsNum.fin n

/-- `Math.PI`, the binary64 number nearest to the circle constant. -/
def mathPI : JsNum := JsNum.fin (884279719003555 / 281474976710656)

namespace Meshes

/-- Line 85. -/
def diamondTop : Vec3 := ⟨JsNum.fin 0, JsNum.ofRat (4 / 5), JsNum.fin 0⟩

/-- Line 86. -/
def diamondBottom : Vec3 := ⟨JsNum.fin 0, JsNum.neg (JsNum.ofRat (4 / 5)), JsNum.fin 0⟩

/-- Line 88: `diamondRing[0]`, on `+X`. -/
def diamondRing0 : Vec3 := ⟨JsNum.ofRat (11 / 20), JsNum.fin 0, JsNum.fin 0⟩

/-- Line 89: `diamondRing[1]`, on `+Z`. -/
def diamondRing1 : Vec3 := ⟨JsNum.fin 0, JsNum.fin 0, JsNum.ofRat (11 / 20)⟩

/-- Line 90: `diamondRing[2]`, on `-X`. -/
def diamondRing2 : Vec3 := ⟨JsNum.neg (JsNum.ofRat (11 / 20)), JsNum.fin 0, JsNum.fin 0⟩

/-- Line 91: `diamondRing[3]`, on `-Z`. -/
def diamondRing3 : Vec3 := ⟨JsNum.fin 0, JsNum.fin 0, JsNum.neg (JsNum.ofRat (11 / 20))⟩

/-- Lines 87-92. -/
def diamondRing : List Vec3 := [diamondRing0, diamondRing1, diamondRing2, diamondRing3]

/-- Lines 95-100: a face is the triple `[tri[0], tri[1], tri[2]]`. -/
def topFaces : List (Vec3 × Vec3 × Vec3) :=
  [(diamondTop, diamondRing0, diamondRing1), (diamondTop, diamondRing1, diamondRing2),
    (diamondTop, diamondRing2, diamondRing3), (diamondTop, diamondRing3, diamondRing0)]

/-- Lines 101-106. -/
def bottomFaces : List (Vec3 × Vec3 × Vec3) :=
  [(diamondBottom, diamondRing1, diamondRing0), (diamondBottom, diamondRing2, diamondRing1),
    (diamondBottom, diamondRing3, diamondRing2), (diamondBottom, diamondRing0, diamondRing3)]

/-- Lines 108-117. -/
def faceColors : List Vec4 :=
  [⟨JsNum.fin 1, JsNum.ofRat (1 / 5), JsNum.ofRat (1 / 5), JsNum.fin 1⟩,
    ⟨JsNum.ofRat (1 / 5), JsNum.fin 1, JsNum.ofRat (1 / 5), JsNum.fin 1⟩,
    ⟨JsNum.ofRat (1 / 5), JsNum.ofRat (2 / 5), JsNum.fin 1, JsNum.fin 1⟩,
    ⟨JsNum.fin 1, JsNum.fin 1, JsNum.ofRat (1 / 5), JsNum.fin 1⟩,
    ⟨JsNum.fin 1, JsNum.ofRat (1 / 5), JsNum.fin 1, JsNum.fin 1⟩,
    ⟨JsNum.ofRat (1 / 5), JsNum.fin 1, JsNum.fin 1, JsNum.fin 1⟩,
    ⟨JsNum.fin 1, JsNum.ofRat (3 / 5), JsNum.ofRat (1 / 5), JsNum.fin 1⟩,
    ⟨JsNum.ofRat (7 / 10), JsNum.ofRat (3 / 10), JsNum.fin 1, JsNum.fin 1⟩]

/-- Line 123. -/
def allFaces : List (Vec3 × Vec3 × Vec3) := topFaces ++ bottomFaces

/-- The three arrays the loop of lines 124-131 appends to. -/
structure DiamondArrays where
  diamondPos : List Vec3
  diamondIdx : List ℤ
  diamondCol : List Vec4

/-- Lines 125-130: one iteration of the loop, for face number `f`. -/
def diamondStep (st : DiamondArrays) (f : ℕ) : DiamondArrays :=
  match allFaces[f]? with
  | none => st
  | some tri =>
    let base : ℤ := st.diamondPos.length
    let c := colorAt faceColors f
    { diamondPos := st.diamondPos ++ [tri.1, tri.2.1, tri.2.2],
      diamondIdx := st.diamondIdx ++ [base, base + 1, base + 2],
      diamondCol := st.diamondCol ++ [c, c, c] }

/-- Lines 119-131: the arrays after the loop. -/
def diamondArrays : DiamondArrays :=
  (List.range allFaces.length).foldl diamondStep ⟨[], [], []⟩

/-- The array `diamondPos` at line 133. -/
def diamondPos : List Vec3 := diamondArrays.diamondPos

/-- The array `diamondIdx` at line 133. -/
def diamondIdx : List ℤ := diamondArrays.diamondIdx

/-- The array `diamondCol` at line 133. -/
def diamondCol : List Vec4 := diamondArrays.diamondCol

/-- Line 136. -/
def s : JsNum := JsNum.ofRat (2 / 5)

/-- Lines 137-140. -/
def cubePos : List Vec3 :=
  [⟨JsNum.neg s, JsNum.neg s, JsNum.neg s⟩, ⟨s, JsNum.neg s, JsNum.neg s⟩,
    ⟨s, s, JsNum.neg s⟩, ⟨JsNum.neg s, s, JsNum.neg s⟩,
    ⟨JsNum.neg s, JsNum.neg s, s⟩, ⟨s, JsNum.neg s, s⟩, ⟨s, s, s⟩, ⟨JsNum.neg s, s, s⟩]

/-- Lines 141-148. -/
def cubeIdx : List ℤ :=
  [0, 2, 1, 0, 3, 2,
    4, 5, 6, 4, 6, 7,
    0, 1, 5, 0, 5, 4,
    2, 3, 7, 2, 7, 6,
    0, 4, 7, 0, 7, 3,
    1, 2, 6, 1, 6, 5]

/-- Lines 149-152. -/
def cubeCol : List Vec4 :=
  [⟨JsNum.fin 1, JsNum.fin 0, JsNum.fin 0, JsNum.fin 1⟩,
    ⟨JsNum.fin 0, JsNum.fin 1, JsNum.fin 0, JsNum.fin 1⟩,
    ⟨JsNum.fin 0, JsNum.fin 0, JsNum.fin 1, JsNum.fin 1⟩,
    ⟨JsNum.fin 1, JsNum.fin 1, JsNum.fin 0, JsNum.fin 1⟩,
    ⟨JsNum.fin 1, JsNum.fin 0, JsNum.fin 1, JsNum.fin 1⟩,
    ⟨JsNum.fin 0, JsNum.fin 1, JsNum.fin 1, JsNum.fin 1⟩,
    ⟨JsNum.fin 1, JsNum.ofRat (1 / 2), JsNum.fin 0, JsNum.fin 1⟩,
    ⟨JsNum.ofRat (1 / 2), JsNum.fin 0, JsNum.fin 1, JsNum.fin 1⟩]

/-- Lines 156-162. -/
def pyPos : List Vec3 :=
  [⟨JsNum.fin 0, JsNum.ofRat (3 / 5), JsNum.fin 0⟩,
    ⟨JsNum.ofRat (1 / 2), JsNum.neg (JsNum.ofRat (3 / 10)), JsNum.ofRat (1 / 2)⟩,
    ⟨JsNum.neg (JsNum.ofRat (1 / 2)), JsNum.neg (JsNum.ofRat (3 / 10)), JsNum.ofRat (1 / 2)⟩,
    ⟨JsNum.neg (JsNum.ofRat (1 / 2)), JsNum.neg (JsNum.ofRat (3 / 10)),
      JsNum.neg (JsNum.ofRat (1 / 2))⟩,
    ⟨JsNum.ofRat (1 / 2), JsNum.neg (JsNum.ofRat (3 / 10)), JsNum.neg (JsNum.ofRat (1 / 2))⟩]

/-- Lines 163-166. -/
def pyIdx : List ℤ :=
  [0, 1, 2, 0, 2, 3, 0, 3, 4, 0, 4, 1,
    1, 3, 2, 1, 4, 3]

/-- Lines 167-173. -/
def pyCol : List Vec4 :=
  [⟨JsNum.fin 1, JsNum.fin 1, JsNum.fin 0, JsNum.fin 1⟩,
    ⟨JsNum.fin 1, JsNum.ofRat (1 / 2), JsNum.fin 0, JsNum.fin 1⟩,
    ⟨JsNum.fin 0, JsNum.fin 1, JsNum.fin 0, JsNum.fin 1⟩,
    ⟨JsNum.fin 0, JsNum.ofRat (1 / 2), JsNum.fin 1, JsNum.fin 1⟩,
    ⟨JsNum.fin 1, JsNum.fin 0, JsNum.ofRat (1 / 2), JsNum.fin 1⟩]

/-- Line 177. -/
def t : JsNum := JsNum.ofRat (1 / 2)

/-- Lines 178-183; the last component is `-t*1.2`, the product of `-t` and `1.2`. -/
def tetraPos : List Vec3 :=
  [⟨JsNum.fin 0, JsNum.ofRat (3 / 5), JsNum.fin 0⟩,
    ⟨t, JsNum.neg (JsNum.ofRat (3 / 10)), t⟩,
    ⟨JsNum.neg t, JsNum.neg (JsNum.ofRat (3 / 10)), t⟩,
    ⟨JsNum.fin 0, JsNum.neg (JsNum.ofRat (3 / 10)),
      JsNum.mul (JsNum.neg t) (JsNum.ofRat (6 / 5))⟩]

/-- Lines 184-189. -/
def tetraIdx : List ℤ :=
  [0, 1, 2,
    0, 2, 3,
    0, 3, 1,
    1, 3, 2]

/-- Lines 190-195. -/
def tetraCol : List Vec4 :=
  [⟨JsNum.fin 1, JsNum.fin 0, JsNum.fin 0, JsNum.fin 1⟩,
    ⟨JsNum.fin 0, JsNum.fin 1, JsNum.fin 0, JsNum.fin 1⟩,
    ⟨JsNum.fin 0, JsNum.fin 0, JsNum.fin 1, JsNum.fin 1⟩,
    ⟨JsNum.fin 1, JsNum.fin 1, JsNum.fin 0, JsNum.fin 1⟩]

/-- Line 199: `(1 + Math.sqrt(5)) / 2`. -/
def phi : JsNum := JsNum.div (JsNum.add (JsNum.fin 1) (JsNum.sqrt (JsNum.fin 5))) (JsNum.fin 2)

/-- Line 200. -/
def a : JsNum := JsNum.ofRat (3 / 10)

/-- Line 201. -/
def b : JsNum := JsNum.mul a phi

/-- Lines 202-206. -/
def icoPos : List Vec3 :=
  [⟨JsNum.neg a, b, JsNum.fin 0⟩, ⟨a, b, JsNum.fin 0⟩, ⟨JsNum.neg a, JsNum.neg b, JsNum.fin 0⟩,
    ⟨a, JsNum.neg b, JsNum.fin 0⟩,
    ⟨JsNum.fin 0, JsNum.neg a, b⟩, ⟨JsNum.fin 0, a, b⟩, ⟨JsNum.fin 0, JsNum.neg a, JsNum.neg b⟩,
    ⟨JsNum.fin 0, a, JsNum.neg b⟩,
    ⟨b, JsNum.fin 0, JsNum.neg a⟩, ⟨b, JsNum.fin 0, a⟩, ⟨JsNum.neg b, JsNum.fin 0, JsNum.neg a⟩,
    ⟨JsNum.neg b, JsNum.fin 0, a⟩]

/-- Lines 207-212. -/
def icoIdx : List ℤ :=
  [0, 11, 5, 0, 5, 1, 0, 1, 7, 0, 7, 10, 0, 10, 11,
    1, 5, 9, 5, 11, 4, 11, 10, 2, 10, 7, 6, 7, 1, 8,
    3, 9, 4, 3, 4, 2, 3, 2, 6, 3, 6, 8, 3, 8, 9,
    4, 9, 5, 2, 4, 11, 6, 2, 10, 8, 6, 7, 9, 8, 1]

/-- Lines 214-220: the colour computed for vertex number `i`. `Math.sin` is implementation
approximated, so it is a parameter. -/
def icoColor (sin : JsNum → JsNum) (i : ℕ) : Vec4 :=
  let hue := JsNum.div (JsNum.ofNat i) (JsNum.fin 12)
  let angle := JsNum.mul (JsNum.mul hue mathPI) (JsNum.fin 2)
  ⟨JsNum.add (JsNum.mul (sin angle) (JsNum.ofRat (1 / 2))) (JsNum.ofRat (1 / 2)),
    JsNum.add (JsNum.mul (sin (JsNum.add angle (JsNum.fin 2))) (JsNum.ofRat (1 / 2)))
      (JsNum.ofRat (1 / 2)),
    JsNum.add (JsNum.mul (sin (JsNum.add angle (JsNum.fin 4))) (JsNum.ofRat (1 / 2)))
      (JsNum.ofRat (1 / 2)),
    JsNum.fin 1⟩

/-- Lines 213-221: `icoPos.map((p, i) => ...)`. -/
def icoCol (sin : JsNum → JsNum) : List Vec4 :=
  (List.range icoPos.length).map (icoColor sin)

end Meshes

/-- A mesh handed to `createGltf`: name, positions, indices, colours. -/
structure MeshArgs where
  name : String
  positions : List Vec3
  indices : List ℤ
  colors : List Vec4

/-- The five calls of `createGltf` (lines 133, 153, 174, 196, 222), in order. -/
def shippedMeshes (sin : JsNum → JsNum) : List MeshArgs :=
  [⟨"Diamond", Meshes.diamondPos, Meshes.diamondIdx, Meshes.diamondCol⟩,
    ⟨"Cube", Meshes.cubePos, Meshes.cubeIdx, Meshes.cubeCol⟩,
    ⟨"Pyramid", Meshes.pyPos, Meshes.pyIdx, Meshes.pyCol⟩,
    ⟨"Tetrahedron", Meshes.tetraPos, Meshes.tetraIdx, Meshes.tetraCol⟩,
    ⟨"Icosphere", Meshes.icoPos, Meshes.icoIdx, Meshes.icoCol sin⟩]

/-- The mesh invariant: every index is a position number, the indices come in triples, and
there is one colour per position. -/
def MeshArgs.wellFormed (m : MeshArgs) : Prop :=
  (∀ v ∈ m.indices, 0 ≤ v ∧ v < (m.positions.length : ℤ)) ∧
    m.indices.length % 3 = 0 ∧ m.colors.length = m.positions.length

/-! ## Triangles of a mesh -/

/-- The consecutive triples of a list. -/
def chunk3 {α : Type} : List α → List (α × α × α)
  | x :: y :: z :: rest => (x, y, z) :: chunk3 rest
  | _ => []

/-- The position an index refers to, if any. -/
def vertexAt (positions : List Vec3) (i : ℤ) : Option Vec3 :=
  if 0 ≤ i then positions[i.toNat]? else none

/-- The triangles of a mesh as triples of positions (a triple with an index that refers to
no position is left out). -/
def triangles (positions : List Vec3) (indices : List ℤ) : List (Vec3 × Vec3 × Vec3) :=
  (chunk3 indices).filterMap (fun tr => do
    let p ← vertexAt positions tr.1
    let q ← vertexAt positions tr.2.1
    let r ← vertexAt positions tr.2.2
    pure (p, q, r))

/-- The three directed edges of a triangle. -/
def directedEdges {α : Type} (tr : α × α × α) : List (α × α) :=
  [(tr.1, tr.2.1), (tr.2.1, tr.2.2), (tr.2.2, tr.1)]

/-- The number of triangles having `e` as a directed edge. -/
def edgeCount {α : Type} [DecidableEq α] (ts : List (α × α × α)) (e : α × α) : ℕ :=
  (ts.filter (fun tr => decide (e ∈ directedEdges tr))).length

/-- Every directed edge of every triangle lies in exactly one triangle, and so does its
reverse. -/
def closedOriented {α : Type} [DecidableEq α] (ts : List (α × α × α)) : Prop :=
  ∀ tr ∈ ts, ∀ e ∈ directedEdges tr, edgeCount ts e = 1 ∧ edgeCount ts (e.2, e.1) = 1

/-- The three corners of every triangle are pairwise distinct. -/
def nondegenerate {α : Type} (ts : List (α × α × α)) : Prop :=
  ∀ tr ∈ ts, tr.1 ≠ tr.2.1 ∧ tr.2.1 ≠ tr.2.2 ∧ tr.2.2 ≠ tr.1

/-- The dot product of the face normal `(q - p) x (r - p)` with the centroid direction
`p + q + r`, on the exact values of the coordinates. -/
def winding (tr : Vec3 × Vec3 × Vec3) : ℚ :=
  let p := tr.1
  let q := tr.2.1
  let r := tr.2.2
  let ux := q.c0.toRat - p.c0.toRat
  let uy := q.c1.toRat - p.c1.toRat
  let uz := q.c2.toRat - p.c2.toRat
  let vx := r.c0.toRat - p.c0.toRat
  let vy := r.c1.toRat - p.c1.toRat
  let vz := r.c2.toRat - p.c2.toRat
  (uy * vz - uz * vy) * (p.c0.toRat + q.c0.toRat + r.c0.toRat)
    + (uz * vx - ux * vz) * (p.c1.toRat + q.c1.toRat + r.c1.toRat)
    + (ux * vy - uy * vx) * (p.c2.toRat + q.c2.toRat + r.c2.toRat)

/-- The squared magnitude of a vector with finite components, on their exact values. -/
def Vec3.normSq (p : Vec3) : ℚ := p.c0.toRat ^ 2 + p.c1.toRat ^ 2 + p.c2.toRat ^ 2

/-- The position `[0, 0, 0]`. -/
def Vec3.origin : Vec3 := ⟨JsNum.fin 0, JsNum.fin 0, JsNum.fin 0⟩

/-- The triangle whose corners are the vertices numbered `l` in a list of vertices. -/
def triangleAt (verts : List Vec3) (l : ℕ × ℕ × ℕ) : Vec3 × Vec3 × Vec3 :=
  (verts.getD l.1 Vec3.origin, verts.getD l.2.1 Vec3.origin, verts.getD l.2.2 Vec3.origin)

/-- The exact values of the three coordinates of a position. -/
def Vec3.coords (p : Vec3) : ℚ × ℚ × ℚ := (p.c0.toRat, p.c1.toRat, p.c2.toRat)

/-- The index triples of an index list, as vertex numbers. -/
def faces (indices : List ℤ) : List (ℕ × ℕ × ℕ) := chunk3 (indices.map Int.toNat)

/-- The six distinct points of the Diamond (lines 85-92): top, the ring, bottom. -/
def Meshes.diamondVerts : List Vec3 :=
  [Meshes.diamondTop, Meshes.diamondRing0, Meshes.diamondRing1, Meshes.diamondRing2,
    Meshes.diamondRing3, Meshes.diamondBottom]

/-- The eight faces of the Diamond (lines 95-106) over the numbering of `diamondVerts`. -/
def Meshes.diamondFaces : List (ℕ × ℕ × ℕ) :=
  [(0, 1, 2), (0, 2, 3), (0, 3, 4), (0, 4, 1), (5, 2, 1), (5, 3, 2), (5, 4, 3), (5, 1, 4)]

/-- The magnitude `m > 0` rounded to a multiple of its unit in the last place, before the
overflow test of `roundMag`. -/
def JsNum.roundedMag (prec : ℕ) (emin : ℤ) (m : ℚ) : ℚ :=
  (JsNum.roundHalfEven (m / (2 : ℚ) ^ JsNum.ulpExp prec emin m) : ℚ)
    * (2 : ℚ) ^ JsNum.ulpExp prec emin m

/-- The signed value a finite number of value `q` rounds to in binary32, before the
overflow test. -/
def JsNum.rounded32 (q : ℚ) : ℚ :=
  if q < 0 then -JsNum.roundedMag 24 (-126) |q| else JsNum.roundedMag 24 (-126) |q|

/-! ## Reading float32 values back -/

/-- The number a binary32 bit pattern denotes. -/
def f32Value (bits : ℕ) : JsNum :=
  let neg : Bool := decide (bits / 0x80000000 % 2 = 1)
  let e : ℕ := bits / 0x800000 % 256
  let m : ℕ := bits % 0x800000
  if e = 255 then (if m = 0 then JsNum.infOf neg else JsNum.nan)
  else if e = 0 then
    (if m = 0 then JsNum.zeroOf neg
     else JsNum.fin ((if neg then -1 else 1) * (m : ℚ) * (2 : ℚ) ^ (-149 : ℤ)))
  else JsNum.fin ((if neg then -1 else 1) * ((0x800000 + m : ℕ) : ℚ) * (2 : ℚ) ^ ((e : ℤ) - 150))

/-- `buf.readFloatLE(offset)` on a byte sequence. -/
def readFloatLE (bytes : List ℕ) (offset : ℕ) : Option JsNum := do
  let b0 ← bytes[offset]?
  let b1 ← bytes[offset + 1]?
  let b2 ← bytes[offset + 2]?
  let b3 ← bytes[offset + 3]?
  pure (f32Value (b0 + 0x100 * b1 + 0x10000 * b2 + 0x1000000 * b3))

/-- The vector a `Float32Array` holds after storing the three components of `p`. -/
def Vec3.fround (p : Vec3) : Vec3 := ⟨JsNum.fround p.c0, JsNum.fround p.c1, JsNum.fround p.c2⟩

/-! ## Element sizes of accessors -/

/-- The size in bytes of one component of an accessor: 4 for 5126 (float), 2 for 5123
(unsigned short). -/
def Accessor.componentSize (a : Accessor) : ℕ :=
  if a.componentType = 5126 then 4 else if a.componentType = 5123 then 2 else 0

/-- The number of components of one element of an accessor. -/
def Accessor.componentCount (a : Accessor) : ℕ :=
  if a.type = "VEC3" then 3 else if a.type = "VEC4" then 4 else if a.type = "SCALAR" then 1 else 0

/-- The size in bytes of one element of an accessor. -/
def Accessor.elementSize (a : Accessor) : ℕ := a.componentCount * a.componentSize

/-! ## Lemmas on the platform functions -/

theorem forLoop_zero {σ : Type} (body : ℕ → σ → Except JsError σ) (init : σ) :
    forLoop 0 body init = Except.ok init := rfl

theorem forLoop_succ {σ : Type} (n : ℕ) (body : ℕ → σ → Except JsError σ) (init : σ) :
    forLoop (n + 1) body init = forLoop n body init >>= body n := by
  simp [forLoop, List.range_succ, List.foldlM_append]

theorem f32LE_length (v : JsNum) : (f32LE v).length = 4 := rfl

theorem f32LE_lt (v : JsNum) : ∀ b ∈ f32LE v, b < 256 := by
  intro b hb
  simp only [f32LE, List.mem_cons, List.mem_singleton, List.not_mem_nil, or_false] at hb
  rcases hb with h | h | h | h <;> subst h <;> exact Nat.mod_lt _ (by norm_num)

theorem writeFloatLE_append (pre post : List ℕ) (a b c d : ℕ) (v : JsNum) (off : ℕ)
    (hoff : pre.length = off) :
    writeFloatLE (pre ++ a :: b :: c :: d :: post) v off = Except.ok (pre ++ (f32LE v ++ post)) := by
  subst hoff
  simp [writeFloatLE, f32LE, List.set_append]

theorem packIndex_length (v : ℤ) : (packIndex v).length = 2 := rfl

theorem packIndex_lt (v : ℤ) : ∀ b ∈ packIndex v, b < 256 := by
  intro b hb
  simp only [packIndex, List.mem_cons, List.mem_singleton, List.not_mem_nil, or_false] at hb
  rcases hb with h | h <;> subst h <;> omega

theorem writeUInt16LE_append (pre post : List ℕ) (a b : ℕ) (v : ℤ) (off : ℕ)
    (hoff : pre.length = off) (hv : 0 ≤ v ∧ v ≤ 65535) :
    writeUInt16LE (pre ++ a :: b :: post) v off = Except.ok (pre ++ (packIndex v ++ post)) := by
  subst hoff
  have h1 : ¬ (65535 < v ∨ v < 0) := by omega
  simp [writeUInt16LE, packIndex, List.set_append, h1]

theorem writeUInt16LE_range (buf : List ℕ) (v : ℤ) (off : ℕ) (hv : ¬ (0 ≤ v ∧ v ≤ 65535)) :
    writeUInt16LE buf v off = Except.error JsError.rangeError := by
  have h1 : 65535 < v ∨ v < 0 := by omega
  simp [writeUInt16LE, h1]

/-! ### Loops that fill a zeroed buffer chunk by chunk -/

theorem range_flatMap_length (w : ℕ) (chunk : ℕ → List ℕ) (hlen : ∀ i, (chunk i).length = w)
    (k : ℕ) : ((List.range k).flatMap chunk).length = k * w := by
  induction k with
  | zero => simp
  | succ k ih =>
    rw [List.range_succ, List.flatMap_append, List.length_append, ih]
    simp [hlen, Nat.succ_mul]

theorem forLoop_fill_ok (w n : ℕ) (chunk : ℕ → List ℕ) (good : ℕ → Prop)
    (body : ℕ → Buffer → Except JsError Buffer)
    (hlen : ∀ i, (chunk i).length = w)
    (hok : ∀ i, i < n → good i → ∀ pre post : List ℕ, pre.length = i * w →
      body i (pre ++ (List.replicate w 0 ++ post)) = Except.ok (pre ++ (chunk i ++ post))) :
    ∀ k, k ≤ n → (∀ i, i < k → good i) →
      forLoop k body (Buffer.alloc (n * w)) =
        Except.ok ((List.range k).flatMap chunk ++ List.replicate ((n - k) * w) 0) := by
  intro k
  induction k with
  | zero => intro _ _; simp [forLoop_zero, Buffer.alloc]
  | succ k ih =>
    intro hk hgood
    rw [forLoop_succ, ih (by omega) (fun i hi => hgood i (by omega))]
    have hsplit : (n - k) * w = w + (n - (k + 1)) * w := by
      have : n - k = (n - (k + 1)) + 1 := by omega
      rw [this, Nat.succ_mul]; omega
    rw [hsplit, List.replicate_add]
    show body k _ = _
    rw [hok k (by omega) (hgood k (by omega)) _ _ (range_flatMap_length w chunk hlen k)]
    simp [List.range_succ, List.flatMap_append]

theorem forLoop_fill_error (w n : ℕ) (chunk : ℕ → List ℕ) (good : ℕ → Prop) (e : JsError)
    (body : ℕ → Buffer → Except JsError Buffer)
    (hlen : ∀ i, (chunk i).length = w)
    (hok : ∀ i, i < n → good i → ∀ pre post : List ℕ, pre.length = i * w →
      body i (pre ++ (List.replicate w 0 ++ post)) = Except.ok (pre ++ (chunk i ++ post)))
    (hbad : ∀ i, i < n → ¬ good i → ∀ buf, body i buf = Except.error e) :
    ∀ k, k ≤ n → (∃ i, i < k ∧ ¬ good i) →
      forLoop k body (Buffer.alloc (n * w)) = Except.error e := by
  intro k
  induction k with
  | zero => rintro _ ⟨i, hi, _⟩; omega
  | succ k ih =>
    intro hk hex
    rw [forLoop_succ]
    by_cases hprev : ∃ i, i < k ∧ ¬ good i
    · rw [ih (by omega) hprev]; rfl
    · have hall : ∀ i, i < k → good i := by
        intro i hi
        by_contra hg
        exact hprev ⟨i, hi, hg⟩
      have hk_bad : ¬ good k := by
        obtain ⟨i, hi, hg⟩ := hex
        have : i = k := by
          by_contra hne
          exact hg (hall i (by omega))
        exact this ▸ hg
      rw [forLoop_fill_ok w n chunk good body hlen hok k (by omega) hall]
      exact hbad k (by omega) hk_bad _

theorem range_flatMap_slice (w : ℕ) (chunk : ℕ → List ℕ) (hlen : ∀ i, (chunk i).length = w)
    (n i : ℕ) (hi : i < n) :
    (((List.range n).flatMap chunk).drop (i * w)).take w = chunk i := by
  induction n with
  | zero => omega
  | succ n ih =>
    rw [List.range_succ, List.flatMap_append]
    by_cases h : i < n
    · have hle : i * w + w ≤ ((List.range n).flatMap chunk).length := by
        rw [range_flatMap_length w chunk hlen n]
        calc i * w + w = (i + 1) * w := by rw [Nat.succ_mul]
          _ ≤ n * w := Nat.mul_le_mul_right w (by omega)
      rw [List.drop_append_of_le_length (by omega), List.take_append_of_le_length
        (by rw [List.length_drop]; omega)]
      exact ih h
    · have hin : i = n := by omega
      subst hin
      rw [List.drop_left' (range_flatMap_length w chunk hlen i)]
      simp [hlen]

theorem range_flatMap_lt (chunk : ℕ → List ℕ) (hlt : ∀ i, ∀ b ∈ chunk i, b < 256) (n : ℕ) :
    ∀ b ∈ (List.range n).flatMap chunk, b < 256 := by
  intro b hb
  rw [List.mem_flatMap] at hb
  obtain ⟨i, _, hbi⟩ := hb
  exact hlt i b hbi

theorem range_flatMap_getElem {α : Type} (xs : List α) (f : α → List ℕ) (d : List ℕ) :
    (List.range xs.length).flatMap (fun i => ((xs[i]?).map f).getD d) = xs.flatMap f := by
  induction xs using List.reverseRecOn with
  | nil => simp
  | append_singleton ys y ih =>
    rw [List.length_append, List.length_singleton, List.range_succ, List.flatMap_append,
      List.flatMap_append, ← ih]
    congr 1
    · apply List.flatMap_congr
      intro i hi
      rw [List.mem_range] at hi
      simp [List.getElem?_append_left hi]
    · simp

theorem write3_fill (pre post : List ℕ) (a b c : JsNum) (off : ℕ) (h : pre.length = off) :
    (do
      let buf ← writeFloatLE (pre ++ (List.replicate 12 0 ++ post)) a off
      let buf ← writeFloatLE buf b (off + 4)
      writeFloatLE buf c (off + 8)) =
      Except.ok (pre ++ ((f32LE a ++ f32LE b ++ f32LE c) ++ post)) := by
  have e : List.replicate 12 0 = [0, 0, 0, 0, 0, 0, 0, 0, 0, 0, 0, 0] := rfl
  rw [e]
  simp only [List.cons_append, List.nil_append]
  rw [writeFloatLE_append _ _ _ _ _ _ _ _ h]
  show (do
      let buf ← writeFloatLE (pre ++ (f32LE a ++ _)) b (off + 4)
      writeFloatLE buf c (off + 8)) = _
  rw [← List.append_assoc, writeFloatLE_append _ _ _ _ _ _ _ _ (by simp [h, f32LE_length])]
  show writeFloatLE (pre ++ f32LE a ++ (f32LE b ++ _)) c (off + 8) = _
  rw [← List.append_assoc, writeFloatLE_append _ _ _ _ _ _ _ _ (by simp [h, f32LE_length])]
  simp

theorem write4_fill (pre post : List ℕ) (a b c d : JsNum) (off : ℕ) (h : pre.length = off) :
    (do
      let buf ← writeFloatLE (pre ++ (List.replicate 16 0 ++ post)) a off
      let buf ← writeFloatLE buf b (off + 4)
      let buf ← writeFloatLE buf c (off + 8)
      writeFloatLE buf d (off + 12)) =
      Except.ok (pre ++ ((f32LE a ++ f32LE b ++ f32LE c ++ f32LE d) ++ post)) := by
  have e : List.replicate 16 0 = [0, 0, 0, 0, 0, 0, 0, 0, 0, 0, 0, 0, 0, 0, 0, 0] := rfl
  rw [e]
  simp only [List.cons_append, List.nil_append]
  rw [writeFloatLE_append _ _ _ _ _ _ _ _ h]
  show (do
      let buf ← writeFloatLE (pre ++ (f32LE a ++ _)) b (off + 4)
      let buf ← writeFloatLE buf c (off + 8)
      writeFloatLE buf d (off + 12)) = _
  rw [← List.append_assoc, writeFloatLE_append _ _ _ _ _ _ _ _ (by simp [h, f32LE_length])]
  show (do
      let buf ← writeFloatLE (pre ++ f32LE a ++ (f32LE b ++ _)) c (off + 8)
      writeFloatLE buf d (off + 12)) = _
  rw [← List.append_assoc, writeFloatLE_append _ _ _ _ _ _ _ _ (by simp [h, f32LE_length])]
  show writeFloatLE (pre ++ f32LE a ++ f32LE b ++ (f32LE c ++ _)) d (off + 12) = _
  rw [← List.append_assoc, writeFloatLE_append _ _ _ _ _ _ _ _ (by simp [h, f32LE_length])]
  simp

/-! ### The four packed segments -/

theorem posBuffer_eq (positions : List Vec3) :
    posBuffer positions = Except.ok (positions.flatMap packVec3) := by
  have h := forLoop_fill_ok 12 positions.length
    (fun i => ((positions[i]?).map packVec3).getD (List.replicate 12 0)) (fun _ => True)
    (fun i buf => do
      let p ← elemAt positions i
      let buf ← writeFloatLE buf p.c0 (i * 12)
      let buf ← writeFloatLE buf p.c1 (i * 12 + 4)
      writeFloatLE buf p.c2 (i * 12 + 8))
    (by
      intro i
      show List.length (Option.getD (Option.map _ positions[i]?) _) = 12
      cases positions[i]? <;> simp [packVec3, f32LE_length])
    (by
      intro i hi _ pre post hpre
      have hp : positions[i]? = some positions[i] := List.getElem?_eq_getElem hi
      simp only [elemAt, hp, Option.map_some', Option.getD_some]
      exact write3_fill pre post _ _ _ _ hpre)
    positions.length le_rfl (fun _ _ => trivial)
  rw [range_flatMap_getElem] at h
  simpa [posBuffer, Nat.mul_assoc] using h

theorem normBuffer_eq (positions : List Vec3) :
    normBuffer positions = Except.ok (positions.flatMap (fun p => packVec3 (normalOf p))) := by
  have h := forLoop_fill_ok 12 positions.length
    (fun i => ((positions[i]?).map (fun p => packVec3 (normalOf p))).getD (List.replicate 12 0))
    (fun _ => True)
    (fun i buf => do
      let p ← elemAt positions i
      let len := normLen p
      let buf ← writeFloatLE buf (JsNum.div p.c0 len) (i * 12)
      let buf ← writeFloatLE buf (JsNum.div p.c1 len) (i * 12 + 4)
      writeFloatLE buf (JsNum.div p.c2 len) (i * 12 + 8))
    (by
      intro i
      show List.length (Option.getD (Option.map _ positions[i]?) _) = 12
      cases positions[i]? <;> simp [packVec3, f32LE_length])
    (by
      intro i hi _ pre post hpre
      have hp : positions[i]? = some positions[i] := List.getElem?_eq_getElem hi
      simp only [elemAt, hp, Option.map_some', Option.getD_some]
      exact write3_fill pre post _ _ _ _ hpre)
    positions.length le_rfl (fun _ _ => trivial)
  rw [range_flatMap_getElem] at h
  simpa [normBuffer, Nat.mul_assoc] using h

theorem colBuffer_eq (positions : List Vec3) (colors : List Vec4) :
    colBuffer positions colors =
      Except.ok ((List.range positions.length).flatMap (fun i => packVec4 (colorAt colors i))) := by
  have h := forLoop_fill_ok 16 positions.length
    (fun i => packVec4 (colorAt colors i)) (fun _ => True)
    (fun i buf => do
      let c := colorAt colors i
      let buf ← writeFloatLE buf c.c0 (i * 16)
      let buf ← writeFloatLE buf c.c1 (i * 16 + 4)
      let buf ← writeFloatLE buf c.c2 (i * 16 + 8)
      writeFloatLE buf c.c3 (i * 16 + 12))
    (by intro i; simp [packVec4, f32LE_length])
    (by
      intro i hi _ pre post hpre
      exact write4_fill pre post _ _ _ _ _ hpre)
    positions.length le_rfl (fun _ _ => trivial)
  simpa [colBuffer, Nat.mul_assoc] using h

theorem idxBuffer_body (indices : List ℤ) (i : ℕ) (hi : i < indices.length)
    (hg : 0 ≤ indices.getD i 0 ∧ indices.getD i 0 ≤ 65535) (pre post : List ℕ)
    (hpre : pre.length = i * 2) :
    writeUInt16LE (pre ++ (List.replicate 2 0 ++ post)) (indices.getD i 0) (i * 2) =
      Except.ok (pre ++ (((indices[i]?).map packIndex).getD (List.replicate 2 0) ++ post)) := by
  have hp : indices[i]? = some indices[i] := List.getElem?_eq_getElem hi
  have hd : indices.getD i 0 = indices[i] := by simp [List.getD, hp]
  have e : List.replicate 2 0 = [0, 0] := rfl
  rw [hp, e]
  simp only [List.cons_append, List.nil_append, Option.map_some', Option.getD_some]
  rw [writeUInt16LE_append _ _ _ _ _ _ hpre hg, hd]

theorem idxBuffer_ok (indices : List ℤ) (h : ∀ v ∈ indices, 0 ≤ v ∧ v ≤ 65535) :
    idxBuffer indices = Except.ok (indices.flatMap packIndex) := by
  have h1 := forLoop_fill_ok 2 indices.length
    (fun i => ((indices[i]?).map packIndex).getD (List.replicate 2 0))
    (fun i => 0 ≤ indices.getD i 0 ∧ indices.getD i 0 ≤ 65535)
    (fun i buf => writeUInt16LE buf (indices.getD i 0) (i * 2))
    (by
      intro i
      show List.length (Option.getD (Option.map _ indices[i]?) _) = 2
      cases indices[i]? <;> simp [packIndex_length])
    (fun i hi hg pre post hpre => idxBuffer_body indices i hi hg pre post hpre)
    indices.length le_rfl
    (by
      intro i hi
      have hp : indices[i]? = some indices[i] := List.getElem?_eq_getElem hi
      have hd : indices.getD i 0 = indices[i] := by simp [List.getD, hp]
      rw [hd]
      exact h _ (List.getElem_mem hi))
  rw [range_flatMap_getElem] at h1
  simpa [idxBuffer] using h1

theorem idxBuffer_error (indices : List ℤ) (h : ∃ v ∈ indices, ¬ (0 ≤ v ∧ v ≤ 65535)) :
    idxBuffer indices = Except.error JsError.rangeError := by
  obtain ⟨v, hv, hbad⟩ := h
  obtain ⟨i, hi, hiv⟩ := List.getElem_of_mem hv
  have hp : indices[i]? = some indices[i] := List.getElem?_eq_getElem hi
  have hd : indices.getD i 0 = v := by simp [List.getD, hp, hiv]
  exact forLoop_fill_error 2 indices.length
    (fun i => ((indices[i]?).map packIndex).getD (List.replicate 2 0))
    (fun i => 0 ≤ indices.getD i 0 ∧ indices.getD i 0 ≤ 65535) JsError.rangeError
    (fun i buf => writeUInt16LE buf (indices.getD i 0) (i * 2))
    (by
      intro i
      show List.length (Option.getD (Option.map _ indices[i]?) _) = 2
      cases indices[i]? <;> simp [packIndex_length])
    (fun i hi hg pre post hpre => idxBuffer_body indices i hi hg pre post hpre)
    (fun i _ hg buf => writeUInt16LE_range buf _ _ hg)
    indices.length le_rfl ⟨i, hi, by
      show ¬ (0 ≤ indices.getD i 0 ∧ indices.getD i 0 ≤ 65535)
      rw [hd]; exact hbad⟩

/-! ### Base64 round trip -/

theorem b64Val_b64Char (n : ℕ) (h : n < 64) : b64Val (b64Char n) = some n := by
  interval_cases n <;> decide

theorem b64Char_ne_pad (n : ℕ) (h : n < 64) : b64Char n ≠ '=' := by
  interval_cases n <;> decide

theorem base64_roundtrip (bytes : List ℕ) (h : ∀ b ∈ bytes, b < 256) :
    base64DecodeChars (base64Chars bytes) = some bytes := by
  induction bytes using base64Chars.induct with
  | case1 a b c rest ih =>
    have ha : a < 256 := h a (by simp)
    have hb : b < 256 := h b (by simp)
    have hc : c < 256 := h c (by simp)
    have hrest : ∀ x ∈ rest, x < 256 := fun x hx => h x (by simp [hx])
    have h0 : a / 4 < 64 := by omega
    have h1 : a % 4 * 16 + b / 16 < 64 := by omega
    have h2 : b % 16 * 4 + c / 64 < 64 := by omega
    have h3 : c % 64 < 64 := by omega
    have e0 : (a / 4) * 4 + (a % 4 * 16 + b / 16) / 16 = a := by omega
    have e1 : (a % 4 * 16 + b / 16) % 16 * 16 + (b % 16 * 4 + c / 64) / 4 = b := by omega
    have e2 : (b % 16 * 4 + c / 64) % 4 * 64 + c % 64 = c := by omega
    rw [base64Chars]
    cases hr : base64Chars rest with
    | nil =>
      have hrn : rest = [] := by
        cases rest with
        | nil => rfl
        | cons x xs =>
          cases xs with
          | nil => simp [base64Chars] at hr
          | cons y ys =>
            cases ys with
            | nil => simp [base64Chars] at hr
            | cons z zs => simp [base64Chars] at hr
      subst hrn
      simp [base64DecodeChars, b64Char_ne_pad _ h3, b64Val_b64Char _ h0, b64Val_b64Char _ h1,
        b64Val_b64Char _ h2, b64Val_b64Char _ h3, e0, e1, e2]
    | cons x xs =>
      have ih1 := ih hrest
      rw [hr] at ih1
      rw [base64DecodeChars]
      · simp [b64Val_b64Char _ h0, b64Val_b64Char _ h1,
          b64Val_b64Char _ h2, b64Val_b64Char _ h3, e0, e1, e2, ih1]
      · simp
  | case2 a b =>
    have ha : a < 256 := h a (by simp)
    have hb : b < 256 := h b (by simp)
    have h0 : a / 4 < 64 := by omega
    have h1 : a % 4 * 16 + b / 16 < 64 := by omega
    have h2 : b % 16 * 4 < 64 := by omega
    have e0 : (a / 4) * 4 + (a % 4 * 16 + b / 16) / 16 = a := by omega
    have e1 : (a % 4 * 16 + b / 16) % 16 * 16 + (b % 16 * 4) / 4 = b := by omega
    simp [base64Chars, base64DecodeChars, b64Char_ne_pad _ h2, b64Val_b64Char _ h0,
      b64Val_b64Char _ h1, b64Val_b64Char _ h2, e0]
    omega
  | case3 a =>
    have ha : a < 256 := h a (by simp)
    have h0 : a / 4 < 64 := by omega
    have h1 : a % 4 * 16 < 64 := by omega
    have e0 : (a / 4) * 4 + (a % 4 * 16) / 16 = a := by omega
    simp [base64Chars, base64DecodeChars, b64Val_b64Char _ h0, b64Val_b64Char _ h1]
    omega
  | case4 => simp [base64Chars, base64DecodeChars]

theorem decodeUri_toBase64 (bytes : List ℕ) (h : ∀ b ∈ bytes, b < 256) :
    decodeUri (uriHead ++ Buffer.toBase64 bytes) = some bytes := by
  have hlen : uriHead.data.length = uriHead.length := rfl
  simp only [decodeUri, String.data_append, Buffer.toBase64, List.take_left' hlen,
    List.drop_left' hlen, if_true]
  exact base64_roundtrip bytes h

/-! ### The document as a function of the mesh -/

theorem gltf_ok (name : String) (positions : List Vec3) (indices : List ℤ)
    (colors : List Vec4) (h : ∀ v ∈ indices, 0 ≤ v ∧ v ≤ 65535) :
    gltf name positions indices colors = Except.ok (document name positions indices colors) := by
  simp only [gltf, posBuffer_eq, normBuffer_eq, colBuffer_eq, idxBuffer_ok indices h]
  rfl

theorem gltf_error (name : String) (positions : List Vec3) (indices : List ℤ)
    (colors : List Vec4) (h : ∃ v ∈ indices, ¬ (0 ≤ v ∧ v ≤ 65535)) :
    gltf name positions indices colors = Except.error JsError.rangeError := by
  simp only [gltf, posBuffer_eq, normBuffer_eq, colBuffer_eq, idxBuffer_error indices h]
  rfl

theorem gltf_inv (name : String) (positions : List Vec3) (indices : List ℤ)
    (colors : List Vec4) (doc : Gltf) (h : gltf name positions indices colors = Except.ok doc) :
    (∀ v ∈ indices, 0 ≤ v ∧ v ≤ 65535) ∧ doc = document name positions indices colors := by
  by_cases hr : ∀ v ∈ indices, 0 ≤ v ∧ v ≤ 65535
  · refine ⟨hr, ?_⟩
    rw [gltf_ok name positions indices colors hr] at h
    exact (Except.ok.inj h).symm
  · have hex : ∃ v ∈ indices, ¬ (0 ≤ v ∧ v ≤ 65535) := by
      by_contra hne
      apply hr
      intro v hv
      by_contra hv2
      exact hne ⟨v, hv, hv2⟩
    rw [gltf_error name positions indices colors hex] at h
    cases h

theorem packVec3_length (p : Vec3) : (packVec3 p).length = 12 := rfl

theorem packVec4_length (c : Vec4) : (packVec4 c).length = 16 := rfl

theorem flatMap_length_const {α : Type} (xs : List α) (f : α → List ℕ) (w : ℕ)
    (hf : ∀ x, (f x).length = w) : (xs.flatMap f).length = xs.length * w := by
  induction xs with
  | nil => simp
  | cons x xs ih => simp [List.flatMap_cons, hf, ih, Nat.succ_mul, Nat.add_comm]

theorem flatMap_lt {α : Type} (xs : List α) (f : α → List ℕ)
    (hf : ∀ x, ∀ b ∈ f x, b < 256) : ∀ b ∈ xs.flatMap f, b < 256 := by
  intro b hb
  rw [List.mem_flatMap] at hb
  obtain ⟨x, _, hbx⟩ := hb
  exact hf x b hbx

theorem packVec3_lt (p : Vec3) : ∀ b ∈ packVec3 p, b < 256 := by
  intro b hb
  simp only [packVec3, List.mem_append] at hb
  rcases hb with (h | h) | h <;> exact f32LE_lt _ b h

theorem packVec4_lt (c : Vec4) : ∀ b ∈ packVec4 c, b < 256 := by
  intro b hb
  simp only [packVec4, List.mem_append] at hb
  rcases hb with ((h | h) | h) | h <;> exact f32LE_lt _ b h

/-- The four segments read back from an assembled document are the four packed buffers. -/
theorem segment_assemble (name : String) (positions : List Vec3) (indices : List ℤ)
    (pb nb cb ib : List ℕ) (hpb : ∀ b ∈ pb, b < 256) (hnb : ∀ b ∈ nb, b < 256)
    (hcb : ∀ b ∈ cb, b < 256) (hib : ∀ b ∈ ib, b < 256) :
    segment (assemble name positions indices pb nb cb ib) 0 = some pb ∧
    segment (assemble name positions indices pb nb cb ib) 1 = some nb ∧
    segment (assemble name positions indices pb nb cb ib) 2 = some cb ∧
    segment (assemble name positions indices pb nb cb ib) 3 = some ib := by
  have hall : ∀ b ∈ pb ++ (nb ++ (cb ++ ib)), b < 256 := by
    intro b hb
    simp only [List.mem_append] at hb
    rcases hb with h | h | h | h
    · exact hpb b h
    · exact hnb b h
    · exact hcb b h
    · exact hib b h
  have hdec := decodeUri_toBase64 _ hall
  have h3 : List.drop (pb.length + nb.length + cb.length) (pb ++ (nb ++ (cb ++ ib))) = ib := by
    have e : pb ++ (nb ++ (cb ++ ib)) = (pb ++ nb ++ cb) ++ ib := by simp
    rw [e]
    exact List.drop_left' (by simp only [List.length_append])
  refine ⟨?_, ?_, ?_, ?_⟩ <;>
    simp [segment, assemble, Buffer.concat, hdec, List.drop_append, List.take_append, h3]

/-! ### Order lemmas on numbers, and the bounds loop -/

theorem JsNum.min_posInf (y : JsNum) (hy : y.isFinite = true) : JsNum.min JsNum.posInf y = y := by
  cases y <;> simp_all [JsNum.min, JsNum.isNaN, JsNum.lt, JsNum.isFinite]

theorem JsNum.max_negInf (y : JsNum) (hy : y.isFinite = true) : JsNum.max JsNum.negInf y = y := by
  cases y <;> simp_all [JsNum.max, JsNum.isNaN, JsNum.lt, JsNum.isFinite]

theorem JsNum.le_iff (a b : JsNum) (ha : a.isFinite = true) (hb : b.isFinite = true) :
    JsNum.le a b = true ↔ a.toRat ≤ b.toRat := by
  cases a <;> cases b <;> simp_all [JsNum.le, JsNum.lt, JsNum.isFinite, JsNum.toRat]

theorem JsNum.lt_iff (a b : JsNum) (ha : a.isFinite = true) (hb : b.isFinite = true) :
    JsNum.lt a b = true ↔ a.toRat < b.toRat := by
  cases a <;> cases b <;> simp_all [JsNum.lt, JsNum.isFinite, JsNum.toRat]

theorem JsNum.isNaN_of_isFinite (a : JsNum) (ha : a.isFinite = true) : a.isNaN = false := by
  cases a <;> simp_all [JsNum.isFinite, JsNum.isNaN]

theorem JsNum.min_spec (a b : JsNum) (ha : a.isFinite = true) (hb : b.isFinite = true) :
    (JsNum.min a b = a ∨ JsNum.min a b = b) ∧
      (JsNum.min a b).toRat ≤ a.toRat ∧ (JsNum.min a b).toRat ≤ b.toRat := by
  have hna := JsNum.isNaN_of_isFinite a ha
  have hnb := JsNum.isNaN_of_isFinite b hb
  simp only [JsNum.min, hna, hnb, Bool.or_self, Bool.false_eq_true, if_false]
  by_cases h1 : JsNum.lt a b = true
  · rw [if_pos h1]
    exact ⟨Or.inl rfl, le_refl _, le_of_lt ((JsNum.lt_iff a b ha hb).1 h1)⟩
  · rw [if_neg h1]
    by_cases h2 : JsNum.lt b a = true
    · rw [if_pos h2]
      exact ⟨Or.inr rfl, le_of_lt ((JsNum.lt_iff b a hb ha).1 h2), le_refl _⟩
    · rw [if_neg h2]
      have e1 : ¬ a.toRat < b.toRat := fun h => h1 ((JsNum.lt_iff a b ha hb).2 h)
      have e2 : ¬ b.toRat < a.toRat := fun h => h2 ((JsNum.lt_iff b a hb ha).2 h)
      have e : a.toRat = b.toRat := le_antisymm (not_lt.1 e2) (not_lt.1 e1)
      by_cases hs : a.signBit = true
      · rw [if_pos hs]; exact ⟨Or.inl rfl, le_refl _, le_of_eq e⟩
      · rw [if_neg hs]; exact ⟨Or.inr rfl, le_of_eq e.symm, le_refl _⟩

theorem JsNum.max_spec (a b : JsNum) (ha : a.isFinite = true) (hb : b.isFinite = true) :
    (JsNum.max a b = a ∨ JsNum.max a b = b) ∧
      a.toRat ≤ (JsNum.max a b).toRat ∧ b.toRat ≤ (JsNum.max a b).toRat := by
  have hna := JsNum.isNaN_of_isFinite a ha
  have hnb := JsNum.isNaN_of_isFinite b hb
  simp only [JsNum.max, hna, hnb, Bool.or_self, Bool.false_eq_true, if_false]
  by_cases h1 : JsNum.lt b a = true
  · rw [if_pos h1]
    exact ⟨Or.inl rfl, le_refl _, le_of_lt ((JsNum.lt_iff b a hb ha).1 h1)⟩
  · rw [if_neg h1]
    by_cases h2 : JsNum.lt a b = true
    · rw [if_pos h2]
      exact ⟨Or.inr rfl, le_of_lt ((JsNum.lt_iff a b ha hb).1 h2), le_refl _⟩
    · rw [if_neg h2]
      have e1 : ¬ b.toRat < a.toRat := fun h => h1 ((JsNum.lt_iff b a hb ha).2 h)
      have e2 : ¬ a.toRat < b.toRat := fun h => h2 ((JsNum.lt_iff a b ha hb).2 h)
      have e : a.toRat = b.toRat := le_antisymm (not_lt.1 e1) (not_lt.1 e2)
      by_cases hs : a.signBit = true
      · rw [if_pos hs]; exact ⟨Or.inr rfl, le_of_eq e, le_refl _⟩
      · rw [if_neg hs]; exact ⟨Or.inl rfl, le_refl _, le_of_eq e.symm⟩

/-- The running minimum over a non-empty list of finite numbers is one of them and is below
all of them. -/
theorem foldl_min_spec (xs : List JsNum) (hfin : ∀ x ∈ xs, x.isFinite = true) (hne : xs ≠ []) :
    xs.foldl JsNum.min JsNum.posInf ∈ xs ∧
      ∀ x ∈ xs, (xs.foldl JsNum.min JsNum.posInf).toRat ≤ x.toRat := by
  induction xs using List.reverseRecOn with
  | nil => exact absurd rfl hne
  | append_singleton ys y ih =>
    have hy : y.isFinite = true := hfin y (by simp)
    rw [List.foldl_append]
    simp only [List.foldl_cons, List.foldl_nil]
    by_cases hys : ys = []
    · subst hys
      simp [JsNum.min_posInf y hy]
    · obtain ⟨hmem, hle⟩ := ih (fun x hx => hfin x (by simp [hx])) hys
      have hm : (ys.foldl JsNum.min JsNum.posInf).isFinite = true := hfin _ (by simp [hmem])
      obtain ⟨hsel, h1, h2⟩ := JsNum.min_spec _ y hm hy
      refine ⟨?_, ?_⟩
      · rcases hsel with h | h <;> rw [h] <;> simp [hmem]
      · intro x hx
        rw [List.mem_append, List.mem_singleton] at hx
        rcases hx with hx | hx
        · exact le_trans h1 (hle x hx)
        · rw [hx]; exact h2

/-- The running maximum over a non-empty list of finite numbers is one of them and is above
all of them. -/
theorem foldl_max_spec (xs : List JsNum) (hfin : ∀ x ∈ xs, x.isFinite = true) (hne : xs ≠ []) :
    xs.foldl JsNum.max JsNum.negInf ∈ xs ∧
      ∀ x ∈ xs, x.toRat ≤ (xs.foldl JsNum.max JsNum.negInf).toRat := by
  induction xs using List.reverseRecOn with
  | nil => exact absurd rfl hne
  | append_singleton ys y ih =>
    have hy : y.isFinite = true := hfin y (by simp)
    rw [List.foldl_append]
    simp only [List.foldl_cons, List.foldl_nil]
    by_cases hys : ys = []
    · subst hys
      simp [JsNum.max_negInf y hy]
    · obtain ⟨hmem, hle⟩ := ih (fun x hx => hfin x (by simp [hx])) hys
      have hm : (ys.foldl JsNum.max JsNum.negInf).isFinite = true := hfin _ (by simp [hmem])
      obtain ⟨hsel, h1, h2⟩ := JsNum.max_spec _ y hm hy
      refine ⟨?_, ?_⟩
      · rcases hsel with h | h <;> rw [h] <;> simp [hmem]
      · intro x hx
        rw [List.mem_append, List.mem_singleton] at hx
        rcases hx with hx | hx
        · exact le_trans (hle x hx) h1
        · rw [hx]; exact h2

theorem foldl_step_eq (positions : List Vec3) (b : Bounds) :
    positions.foldl Bounds.step b =
      { minX := (positions.map Vec3.c0).foldl JsNum.min b.minX,
        minY := (positions.map Vec3.c1).foldl JsNum.min b.minY,
        minZ := (positions.map Vec3.c2).foldl JsNum.min b.minZ,
        maxX := (positions.map Vec3.c0).foldl JsNum.max b.maxX,
        maxY := (positions.map Vec3.c1).foldl JsNum.max b.maxY,
        maxZ := (positions.map Vec3.c2).foldl JsNum.max b.maxZ } := by
  induction positions generalizing b with
  | nil => rfl
  | cons p ps ih => simp only [List.foldl_cons, List.map_cons, ih, Bounds.step]

theorem bounds_lo_comp (positions : List Vec3) (i : ℕ) :
    (bounds positions).lo.comp i =
      (positions.map (fun p => p.comp i)).foldl JsNum.min JsNum.posInf := by
  rw [bounds, foldl_step_eq]
  rcases i with _ | _ | i <;> rfl

theorem bounds_hi_comp (positions : List Vec3) (i : ℕ) :
    (bounds positions).hi.comp i =
      (positions.map (fun p => p.comp i)).foldl JsNum.max JsNum.negInf := by
  rw [bounds, foldl_step_eq]
  rcases i with _ | _ | i <;> rfl

theorem Vec3.comp_isFinite (p : Vec3) (h : p.isFinite = true) (i : ℕ) :
    (p.comp i).isFinite = true := by
  simp only [Vec3.isFinite, Bool.and_eq_true] at h
  rcases i with _ | _ | i
  · exact h.1.1
  · exact h.1.2
  · exact h.2

/-! ### Concrete values of the number model -/

theorem roundHalfEven_intCast (z : ℤ) : JsNum.roundHalfEven (z : ℚ) = z := by
  simp [JsNum.roundHalfEven]

theorem fround_one : JsNum.fround (JsNum.fin 1) = JsNum.fin 1 := by
  have h0 : JsNum.roundHalfEven (8388608 : ℚ) = 8388608 := by
    have := roundHalfEven_intCast 8388608
    simpa using this
  simp only [JsNum.fround, JsNum.roundTo, JsNum.roundMag, JsNum.ulpExp, abs_one,
    Int.log_one_right]
  norm_num
  rw [h0]
  norm_num

theorem f32Bits_one : f32Bits (JsNum.fin 1) = 1065353216 := by
  have h2 : Int.log 2 |(1 : ℚ)| = 0 := by rw [abs_one, Int.log_one_right]
  have h1 : ⌊|(1 : ℚ)| / (2 : ℚ) ^ (Int.log 2 |(1 : ℚ)| - 23)⌋₊ = 8388608 := by
    rw [h2, abs_one]
    have h : ((1 : ℚ) / (2 : ℚ) ^ ((0 : ℤ) - 23)) = ((8388608 : ℕ) : ℚ) := by norm_num
    rw [h, Nat.floor_natCast]
  rw [f32Bits, f32BitsFin, if_neg one_ne_zero, if_neg (by rw [h2]; norm_num),
    if_neg (by norm_num), h1, h2]
  rfl

theorem f32LE_one : f32LE (JsNum.fin 1) = [0, 0, 128, 63] := by
  simp only [f32LE, fround_one, f32Bits_one]

theorem fround_zero : JsNum.fround (JsNum.fin 0) = JsNum.fin 0 := by
  simp [JsNum.fround, JsNum.roundTo, JsNum.roundMag, JsNum.zeroOf]

theorem f32LE_zero : f32LE (JsNum.fin 0) = [0, 0, 0, 0] := by
  simp [f32LE, fround_zero, f32Bits, f32BitsFin]

theorem f32LE_negZero : f32LE JsNum.negZero = [0, 0, 0, 128] := by
  simp [f32LE, JsNum.fround, f32Bits]

theorem packVec4_white :
    packVec4 white = [0, 0, 128, 63, 0, 0, 128, 63, 0, 0, 128, 63, 0, 0, 128, 63] := by
  simp [packVec4, white, f32LE_one]

theorem mul_self_of_isZero (a : JsNum) (ha : a.isZero = true) :
    JsNum.mul a a = JsNum.fin 0 := by
  cases a <;> simp_all [JsNum.mul, JsNum.isZero, JsNum.isNaN, JsNum.isFinite, JsNum.toRat,
    JsNum.signBit, JsNum.round64, JsNum.roundTo, JsNum.roundMag, JsNum.zeroOf]

theorem div_one_of_isZero (a : JsNum) (ha : a.isZero = true) :
    JsNum.div a (JsNum.fin 1) = a := by
  cases a <;> simp_all [JsNum.div, JsNum.isZero, JsNum.isNaN, JsNum.isFinite, JsNum.toRat,
    JsNum.signBit, JsNum.round64, JsNum.roundTo, JsNum.roundMag, JsNum.zeroOf]

theorem normLen_of_isZero (p : Vec3) (h0 : p.c0.isZero = true) (h1 : p.c1.isZero = true)
    (h2 : p.c2.isZero = true) : normLen p = JsNum.fin 1 := by
  simp [normLen, mul_self_of_isZero _ h0, mul_self_of_isZero _ h1, mul_self_of_isZero _ h2,
    JsNum.add, JsNum.isNaN, JsNum.isFinite, JsNum.toRat, JsNum.zeroOf, JsNum.signBit,
    JsNum.sqrt, JsNum.truthy]

theorem normalOf_of_isZero (p : Vec3) (h0 : p.c0.isZero = true) (h1 : p.c1.isZero = true)
    (h2 : p.c2.isZero = true) : normalOf p = p := by
  simp [normalOf, normLen_of_isZero p h0 h1 h2, div_one_of_isZero _ h0,
    div_one_of_isZero _ h1, div_one_of_isZero _ h2]

theorem isNaN_of_isZero (a : JsNum) (ha : a.isZero = true) : a.isNaN = false := by
  cases a <;> simp_all [JsNum.isZero, JsNum.isNaN]

/-! ### Facts about the assembled document -/

theorem packPositions_length (positions : List Vec3) :
    (packPositions positions).length = 12 * positions.length := by
  rw [packPositions, flatMap_length_const positions packVec3 12 packVec3_length, Nat.mul_comm]

theorem packNormals_length (positions : List Vec3) :
    (packNormals positions).length = 12 * positions.length := by
  rw [packNormals, flatMap_length_const positions _ 12 (fun p => packVec3_length (normalOf p)),
    Nat.mul_comm]

theorem packColors_length (positions : List Vec3) (colors : List Vec4) :
    (packColors positions colors).length = 16 * positions.length := by
  rw [packColors, range_flatMap_length 16 _ (fun i => packVec4_length (colorAt colors i)),
    Nat.mul_comm]

theorem packIndices_length (indices : List ℤ) :
    (packIndices indices).length = 2 * indices.length := by
  rw [packIndices, flatMap_length_const indices packIndex 2 packIndex_length, Nat.mul_comm]

theorem document_segments (name : String) (positions : List Vec3) (indices : List ℤ)
    (colors : List Vec4) :
    segment (document name positions indices colors) 0 = some (packPositions positions) ∧
    segment (document name positions indices colors) 1 = some (packNormals positions) ∧
    segment (document name positions indices colors) 2 = some (packColors positions colors) ∧
    segment (document name positions indices colors) 3 = some (packIndices indices) :=
  segment_assemble name positions indices _ _ _ _
    (flatMap_lt positions packVec3 packVec3_lt)
    (flatMap_lt positions _ (fun p => packVec3_lt (normalOf p)))
    (range_flatMap_lt _ (fun i => packVec4_lt (colorAt colors i)) positions.length)
    (flatMap_lt indices packIndex packIndex_lt)

theorem document_bufferByteLengths (name : String) (positions : List Vec3) (indices : List ℤ)
    (colors : List Vec4) :
    (document name positions indices colors).bufferByteLengths =
      [12 * positions.length + 12 * positions.length + 16 * positions.length
        + 2 * indices.length] := by
  simp [document, assemble, Gltf.bufferByteLengths, Buffer.concat, packPositions_length,
    packNormals_length, packColors_length, packIndices_length, Nat.add_assoc]

theorem document_viewLengths (name : String) (positions : List Vec3) (indices : List ℤ)
    (colors : List Vec4) :
    (document name positions indices colors).viewLengths =
      [12 * positions.length, 12 * positions.length, 16 * positions.length,
        2 * indices.length] := by
  simp [document, assemble, Gltf.viewLengths, packPositions_length,
    packNormals_length, packColors_length, packIndices_length]

theorem document_viewOffsets (name : String) (positions : List Vec3) (indices : List ℤ)
    (colors : List Vec4) :
    (document name positions indices colors).viewOffsets =
      [0, 12 * positions.length, 12 * positions.length + 12 * positions.length,
        12 * positions.length + 12 * positions.length + 16 * positions.length] := by
  simp [document, assemble, Gltf.viewOffsets, packPositions_length,
    packNormals_length, packColors_length]

/-! ### Further helper lemmas -/

theorem colorSlot_packColors (positions : List Vec3) (colors : List Vec4) (i : ℕ)
    (hi : i < positions.length) :
    colorSlot (packColors positions colors) i = packVec4 (colorAt colors i) := by
  rw [colorSlot, packColors, Nat.mul_comm]
  exact range_flatMap_slice 16 _ (fun j => packVec4_length (colorAt colors j)) _ i hi

theorem vertexSlot_packNormals (positions : List Vec3) (i : ℕ) (p : Vec3)
    (hp : positions[i]? = some p) :
    vertexSlot (packNormals positions) i = packVec3 (normalOf p) := by
  have hi : i < positions.length := (List.getElem?_eq_some_iff.1 hp).1
  rw [vertexSlot, packNormals, Nat.mul_comm,
    ← range_flatMap_getElem positions (fun p => packVec3 (normalOf p)) (List.replicate 12 0),
    range_flatMap_slice 12 _ _ _ i hi, hp]
  · rfl
  · intro j
    show List.length (Option.getD (Option.map _ positions[j]?) _) = 12
    cases positions[j]? <;> simp [packVec3_length]

theorem slice_packIndices (indices : List ℤ) (k : ℕ) (hk : k < indices.length) :
    ((packIndices indices).drop (2 * k)).take 2 = packIndex (indices.getD k 0) := by
  have hp : indices[k]? = some indices[k] := List.getElem?_eq_getElem hk
  rw [Nat.mul_comm, packIndices,
    ← range_flatMap_getElem indices packIndex (List.replicate 2 0),
    range_flatMap_slice 2 _ _ _ k hk]
  · simp [List.getD, hp]
  · intro j
    show List.length (Option.getD (Option.map _ indices[j]?) _) = 2
    cases indices[j]? <;> simp [packIndex_length]

theorem readUInt16LE_packIndices (indices : List ℤ) (k : ℕ) (hk : k < indices.length)
    (hv : 0 ≤ indices.getD k 0 ∧ indices.getD k 0 ≤ 65535) :
    readUInt16LE (packIndices indices) (2 * k) = some (indices.getD k 0).toNat := by
  have h := slice_packIndices indices k hk
  generalize indices.getD k 0 = v at h hv ⊢
  have h0 := congrArg (fun l => l[0]?) h
  have h1 := congrArg (fun l => l[1]?) h
  simp only [List.getElem?_take, List.getElem?_drop, packIndex] at h0 h1
  simp at h0 h1
  simp only [readUInt16LE, h0, h1]
  simp
  omega

theorem createGltf_ok (name : String) (positions : List Vec3) (indices : List ℤ)
    (colors : List Vec4) (w : World) (h : ∀ v ∈ indices, 0 ≤ v ∧ v ≤ 65535) :
    (createGltf name positions indices colors w).1 = Except.ok () ∧
      (createGltf name positions indices colors w).2.files =
        w.files ++ [(name ++ ".gltf", document name positions indices colors)] := by
  simp [createGltf, gltf_ok name positions indices colors h]

theorem createGltf_error (name : String) (positions : List Vec3) (indices : List ℤ)
    (colors : List Vec4) (w : World) (h : ∃ v ∈ indices, ¬ (0 ≤ v ∧ v ≤ 65535)) :
    createGltf name positions indices colors w = (Except.error JsError.rangeError, w) := by
  simp [createGltf, gltf_error name positions indices colors h]

theorem document_accessor0 (name : String) (positions : List Vec3) (indices : List ℤ)
    (colors : List Vec4) :
    (document name positions indices colors).accessors[0]? =
      some { bufferView := 0, componentType := 5126, count := positions.length, type := "VEC3",
             max := some (bounds positions).hi.toList, min := some (bounds positions).lo.toList } :=
  rfl

theorem bounds_spec (positions : List Vec3) (hne : positions ≠ [])
    (hfin : ∀ p ∈ positions, p.isFinite = true) (i : ℕ) :
    (∀ p ∈ positions, JsNum.le ((bounds positions).lo.comp i) (p.comp i) = true ∧
        JsNum.le (p.comp i) ((bounds positions).hi.comp i) = true) ∧
      (∃ p ∈ positions, p.comp i = (bounds positions).lo.comp i) ∧
      (∃ p ∈ positions, p.comp i = (bounds positions).hi.comp i) := by
  have hfin2 : ∀ x ∈ positions.map (fun p => p.comp i), x.isFinite = true := by
    intro x hx
    rw [List.mem_map] at hx
    obtain ⟨p, hp, rfl⟩ := hx
    exact Vec3.comp_isFinite p (hfin p hp) i
  have hne2 : positions.map (fun p => p.comp i) ≠ [] := by simpa using hne
  obtain ⟨hmin_mem, hmin_le⟩ := foldl_min_spec _ hfin2 hne2
  obtain ⟨hmax_mem, hmax_le⟩ := foldl_max_spec _ hfin2 hne2
  rw [← bounds_lo_comp] at hmin_mem hmin_le
  rw [← bounds_hi_comp] at hmax_mem hmax_le
  refine ⟨?_, ?_, ?_⟩
  · intro p hp
    have hpm : p.comp i ∈ positions.map (fun p => p.comp i) := List.mem_map.2 ⟨p, hp, rfl⟩
    exact ⟨(JsNum.le_iff _ _ (hfin2 _ hmin_mem) (hfin2 _ hpm)).2 (hmin_le _ hpm),
      (JsNum.le_iff _ _ (hfin2 _ hpm) (hfin2 _ hmax_mem)).2 (hmax_le _ hpm)⟩
  · obtain ⟨p, hp, he⟩ := List.mem_map.1 hmin_mem
    exact ⟨p, hp, he⟩
  · obtain ⟨p, hp, he⟩ := List.mem_map.1 hmax_mem
    exact ⟨p, hp, he⟩

theorem unitTriangle_finite : ∀ p ∈ unitTriangle, p.isFinite = true := by
  intro p hp
  simp only [unitTriangle, List.mem_cons, List.mem_singleton, List.not_mem_nil, or_false] at hp
  rcases hp with h | h | h <;> subst h <;> rfl

/-! ## The claims -/

/-- C1 (amended). For every mesh with V positions and I indices on which `createGltf`
succeeds, the single entry of `buffers` has `byteLength = 12*V + 12*V + 16*V + 2*I`, which is
`40*V + 2*I`; for V = 3 and I = 3 that is 126. -/
theorem C1_buffer_byteLength (name : String) (positions : List Vec3) (indices : List ℤ)
    (colors : List Vec4) (doc : Gltf)
    (h : gltf name positions indices colors = Except.ok doc) :
    doc.bufferByteLengths =
        [12 * positions.length + 12 * positions.length + 16 * positions.length
          + 2 * indices.length] ∧
      12 * positions.length + 12 * positions.length + 16 * positions.length
          + 2 * indices.length = 40 * positions.length + 2 * indices.length ∧
      (positions.length = 3 → indices.length = 3 → doc.bufferByteLengths = [126]) := by
  obtain ⟨_, hdoc⟩ := gltf_inv name positions indices colors doc h
  subst hdoc
  refine ⟨document_bufferByteLengths name positions indices colors, by omega, ?_⟩
  intro hV hI
  rw [document_bufferByteLengths, hV, hI]

/-- The instance of C1 at the mesh of the spec's scenario: the document is produced and the
formula gives its buffer length. -/
theorem C1_buffer_byteLength_witness :
    gltf "Triangle" unitTriangle [0, 1, 2] []
        = Except.ok (document "Triangle" unitTriangle [0, 1, 2] []) ∧
      (document "Triangle" unitTriangle [0, 1, 2] []).bufferByteLengths =
        [12 * 3 + 12 * 3 + 16 * 3 + 2 * 3] :=
  ⟨gltf_ok "Triangle" unitTriangle [0, 1, 2] [] (by decide),
    (C1_buffer_byteLength "Triangle" unitTriangle [0, 1, 2] [] _
      (gltf_ok "Triangle" unitTriangle [0, 1, 2] [] (by decide))).1⟩

/-- C1 as stated fails on its own example: for the mesh with positions
`[[1,0,0],[0,1,0],[0,0,1]]` and indices `[0,1,2]` (V = 3, I = 3) the document is produced and
its buffer `byteLength` is 126, not 138. -/
theorem C1_counterexample :
    gltf "Triangle" unitTriangle [0, 1, 2] [] =
        Except.ok (document "Triangle" unitTriangle [0, 1, 2] []) ∧
      unitTriangle.length = 3 ∧ ([0, 1, 2] : List ℤ).length = 3 ∧
      (document "Triangle" unitTriangle [0, 1, 2] []).bufferByteLengths = [126] ∧
      (document "Triangle" unitTriangle [0, 1, 2] []).bufferByteLengths ≠ [138] := by
  refine ⟨gltf_ok _ _ _ _ (by decide), rfl, rfl, ?_, ?_⟩ <;>
    simp [document_bufferByteLengths, unitTriangle]

/-- C2. In the document `createGltf` produces there are four buffer views, the first at byte
offset 0 and each later one at the sum of the byte lengths of the views before it; read back,
they hold the packed positions, normals, colours and indices, in that order. -/
theorem C2_view_offsets (name : String) (positions : List Vec3) (indices : List ℤ)
    (colors : List Vec4) (doc : Gltf)
    (h : gltf name positions indices colors = Except.ok doc) :
    doc.bufferViews.length = 4 ∧ doc.viewOffsets[0]? = some 0 ∧
      (∀ k, 1 ≤ k → k ≤ 3 → doc.viewOffsets[k]? = some (doc.viewLengths.take k).sum) ∧
      segment doc 0 = some (packPositions positions) ∧
      segment doc 1 = some (packNormals positions) ∧
      segment doc 2 = some (packColors positions colors) ∧
      segment doc 3 = some (packIndices indices) := by
  obtain ⟨_, hdoc⟩ := gltf_inv name positions indices colors doc h
  subst hdoc
  refine ⟨rfl, ?_, ?_, document_segments name positions indices colors⟩
  · simp [document_viewOffsets]
  · intro k h1 h3
    rw [document_viewOffsets, document_viewLengths]
    interval_cases k <;> simp [Nat.add_assoc]

/-- The instance of C2 at the mesh of the spec's scenario. -/
theorem C2_view_offsets_witness :
    gltf "Triangle" unitTriangle [0, 1, 2] []
        = Except.ok (document "Triangle" unitTriangle [0, 1, 2] []) ∧
      (document "Triangle" unitTriangle [0, 1, 2] []).viewOffsets[0]? = some 0 ∧
      (document "Triangle" unitTriangle [0, 1, 2] []).viewOffsets[3]? =
        some (((document "Triangle" unitTriangle [0, 1, 2] []).viewLengths.take 3).sum) :=
  ⟨gltf_ok "Triangle" unitTriangle [0, 1, 2] [] (by decide),
    (C2_view_offsets "Triangle" unitTriangle [0, 1, 2] [] _
      (gltf_ok "Triangle" unitTriangle [0, 1, 2] [] (by decide))).2.1,
    (C2_view_offsets "Triangle" unitTriangle [0, 1, 2] [] _
      (gltf_ok "Triangle" unitTriangle [0, 1, 2] [] (by decide))).2.2.1 3 (by decide)
        (by decide)⟩

/-- C3. For a non-empty list of positions with finite components, `accessors[0].min` and
`accessors[0].max` of the document `createGltf` produces are the component-wise minimum and
maximum: on every axis `i`, `min[i] <= p[i] <= max[i]` for every vertex `p`, and `min[i]` and
`max[i]` are each the `i`-th component of some vertex. -/
theorem C3_bounds_min_max (name : String) (positions : List Vec3) (indices : List ℤ)
    (colors : List Vec4) (doc : Gltf)
    (h : gltf name positions indices colors = Except.ok doc)
    (hne : positions ≠ []) (hfin : ∀ p ∈ positions, p.isFinite = true) :
    ∃ acc lo hi, doc.accessors[0]? = some acc ∧ acc.min = some (Vec3.toList lo) ∧
      acc.max = some (Vec3.toList hi) ∧
      ∀ i, i < 3 →
        (∀ p ∈ positions, JsNum.le (lo.comp i) (p.comp i) = true ∧
          JsNum.le (p.comp i) (hi.comp i) = true) ∧
        (∃ p ∈ positions, p.comp i = lo.comp i) ∧
        (∃ p ∈ positions, p.comp i = hi.comp i) := by
  obtain ⟨_, hdoc⟩ := gltf_inv name positions indices colors doc h
  subst hdoc
  exact ⟨_, (bounds positions).lo, (bounds positions).hi,
    document_accessor0 name positions indices colors, rfl, rfl,
    fun i _ => bounds_spec positions hne hfin i⟩

/-- The instance of C3 at the mesh of the spec's scenario. -/
theorem C3_bounds_min_max_witness :
    gltf "Triangle" unitTriangle [0, 1, 2] []
        = Except.ok (document "Triangle" unitTriangle [0, 1, 2] []) ∧
      unitTriangle ≠ [] ∧ (∀ p ∈ unitTriangle, p.isFinite = true) ∧
      ∃ acc lo hi, (document "Triangle" unitTriangle [0, 1, 2] []).accessors[0]? = some acc ∧
        acc.min = some (Vec3.toList lo) ∧ acc.max = some (Vec3.toList hi) ∧
        ∀ i, i < 3 →
          (∀ p ∈ unitTriangle, JsNum.le (lo.comp i) (p.comp i) = true ∧
            JsNum.le (p.comp i) (hi.comp i) = true) ∧
          (∃ p ∈ unitTriangle, p.comp i = lo.comp i) ∧
          (∃ p ∈ unitTriangle, p.comp i = hi.comp i) :=
  ⟨gltf_ok _ _ _ _ (by decide), by simp [unitTriangle], unitTriangle_finite,
    C3_bounds_min_max "Triangle" unitTriangle [0, 1, 2] [] _
      (gltf_ok _ _ _ _ (by decide)) (by simp [unitTriangle]) unitTriangle_finite⟩

/-- C4. Decoding the base64 payload behind the head `data:application/octet-stream;base64,`
of `buffers[0].uri` gives exactly `buffers[0].byteLength` bytes, namely the concatenation of
the four packed buffers, and cutting them at each `bufferViews[k]` returns the packed
position, normal, colour and index buffer for `k = 0..3`. -/
theorem C4_base64_roundtrip (name : String) (positions : List Vec3) (indices : List ℤ)
    (colors : List Vec4) (doc : Gltf)
    (h : gltf name positions indices colors = Except.ok doc) :
    ∃ pb nb cb ib buf, posBuffer positions = Except.ok pb ∧
      normBuffer positions = Except.ok nb ∧ colBuffer positions colors = Except.ok cb ∧
      idxBuffer indices = Except.ok ib ∧ doc.buffers = [buf] ∧
      decodeUri buf.uri = some (Buffer.concat [pb, nb, cb, ib]) ∧
      (Buffer.concat [pb, nb, cb, ib]).length = buf.byteLength ∧
      segment doc 0 = some pb ∧ segment doc 1 = some nb ∧
      segment doc 2 = some cb ∧ segment doc 3 = some ib := by
  obtain ⟨hr, hdoc⟩ := gltf_inv name positions indices colors doc h
  subst hdoc
  obtain ⟨s0, s1, s2, s3⟩ := document_segments name positions indices colors
  refine ⟨packPositions positions, packNormals positions, packColors positions colors,
    packIndices indices, _, posBuffer_eq positions, normBuffer_eq positions,
    colBuffer_eq positions colors, idxBuffer_ok indices hr, rfl, ?_, rfl, s0, s1, s2, s3⟩
  apply decodeUri_toBase64
  intro b hb
  simp only [Buffer.concat, List.foldr_cons, List.foldr_nil, List.append_nil,
    List.mem_append] at hb
  rcases hb with hb | hb | hb | hb
  · exact flatMap_lt positions packVec3 packVec3_lt b hb
  · exact flatMap_lt positions _ (fun p => packVec3_lt (normalOf p)) b hb
  · exact range_flatMap_lt _ (fun i => packVec4_lt (colorAt colors i)) positions.length b hb
  · exact flatMap_lt indices packIndex packIndex_lt b hb

/-- The instance of C4 at the mesh of the spec's scenario. -/
theorem C4_base64_roundtrip_witness :
    gltf "Triangle" unitTriangle [0, 1, 2] []
        = Except.ok (document "Triangle" unitTriangle [0, 1, 2] []) ∧
      ∃ pb nb cb ib buf, posBuffer unitTriangle = Except.ok pb ∧
        normBuffer unitTriangle = Except.ok nb ∧ colBuffer unitTriangle [] = Except.ok cb ∧
        idxBuffer [0, 1, 2] = Except.ok ib ∧
        (document "Triangle" unitTriangle [0, 1, 2] []).buffers = [buf] ∧
        decodeUri buf.uri = some (Buffer.concat [pb, nb, cb, ib]) ∧
        (Buffer.concat [pb, nb, cb, ib]).length = buf.byteLength ∧
        segment (document "Triangle" unitTriangle [0, 1, 2] []) 0 = some pb ∧
        segment (document "Triangle" unitTriangle [0, 1, 2] []) 1 = some nb ∧
        segment (document "Triangle" unitTriangle [0, 1, 2] []) 2 = some cb ∧
        segment (document "Triangle" unitTriangle [0, 1, 2] []) 3 = some ib :=
  ⟨gltf_ok "Triangle" unitTriangle [0, 1, 2] [] (by decide),
    C4_base64_roundtrip "Triangle" unitTriangle [0, 1, 2] [] _
      (gltf_ok "Triangle" unitTriangle [0, 1, 2] [] (by decide))⟩

/-- C5. For a mesh with V positions and a colour list of length C < V, the colour segment of
the document holds, at every vertex slot `i` with `C <= i < V`, the sixteen bytes of
`(1,1,1,1)` (four times the float32 `1.0`, bytes `00 00 80 3F`), and at every slot `i < C`
the bytes of the supplied `colors[i]`; with `colors = []` every vertex is opaque white. -/
theorem C5_color_default (name : String) (positions : List Vec3) (indices : List ℤ)
    (colors : List Vec4) (doc : Gltf)
    (h : gltf name positions indices colors = Except.ok doc)
    (hC : colors.length < positions.length) :
    ∃ cb, segment doc 2 = some cb ∧
      (∀ i, colors.length ≤ i → i < positions.length → colorSlot cb i = packVec4 white) ∧
      (∀ i c, colors[i]? = some c → colorSlot cb i = packVec4 c) ∧
      (colors = [] → ∀ i, i < positions.length → colorSlot cb i = packVec4 white) ∧
      packVec4 white = [0, 0, 128, 63, 0, 0, 128, 63, 0, 0, 128, 63, 0, 0, 128, 63] := by
  obtain ⟨_, hdoc⟩ := gltf_inv name positions indices colors doc h
  subst hdoc
  have hwhite : ∀ i, colors.length ≤ i → i < positions.length →
      colorSlot (packColors positions colors) i = packVec4 white := by
    intro i h1 h2
    rw [colorSlot_packColors positions colors i h2, colorAt, List.getElem?_eq_none h1]
  refine ⟨_, (document_segments name positions indices colors).2.2.1, hwhite, ?_, ?_,
    packVec4_white⟩
  · intro i c hc
    have hi : i < colors.length := (List.getElem?_eq_some_iff.1 hc).1
    rw [colorSlot_packColors positions colors i (by omega), colorAt, hc]
  · intro hnil i hi
    exact hwhite i (by simp [hnil]) hi

/-- The instance of C5 at the mesh of the spec's scenario, which supplies no colours. -/
theorem C5_color_default_witness :
    gltf "Triangle" unitTriangle [0, 1, 2] []
        = Except.ok (document "Triangle" unitTriangle [0, 1, 2] []) ∧
      ([] : List Vec4).length < unitTriangle.length ∧
      ∃ cb, segment (document "Triangle" unitTriangle [0, 1, 2] []) 2 = some cb ∧
        colorSlot cb 2 = packVec4 white :=
  ⟨gltf_ok "Triangle" unitTriangle [0, 1, 2] [] (by decide), by decide,
    (C5_color_default "Triangle" unitTriangle [0, 1, 2] [] _
      (gltf_ok "Triangle" unitTriangle [0, 1, 2] [] (by decide)) (by decide)).elim
      (fun cb hcb => ⟨cb, hcb.1, hcb.2.1 2 (by decide) (by decide)⟩)⟩

/-- C6 as stated fails: with an empty position list and an empty index list `createGltf`
raises nothing; it builds a document whose `accessors[0]` has count 0, `min` the `+Infinity`
sentinels and `max` the `-Infinity` sentinels, and writes it to `Empty.gltf`. -/
theorem C6_counterexample :
    gltf "Empty" [] [] [] = Except.ok (document "Empty" [] [] []) ∧
      (document "Empty" [] [] []).accessors[0]? =
        some { bufferView := 0, componentType := 5126, count := 0, type := "VEC3",
               max := some [JsNum.negInf, JsNum.negInf, JsNum.negInf],
               min := some [JsNum.posInf, JsNum.posInf, JsNum.posInf] } ∧
      (createGltf "Empty" [] [] [] ⟨[], []⟩).1 = Except.ok () ∧
      (createGltf "Empty" [] [] [] ⟨[], []⟩).2.files =
        [("Empty.gltf", document "Empty" [] [] [])] := by
  have h : ∀ v ∈ ([] : List ℤ), 0 ≤ v ∧ v ≤ 65535 := by simp
  obtain ⟨h1, h2⟩ := createGltf_ok "Empty" [] [] [] ⟨[], []⟩ h
  exact ⟨gltf_ok _ _ _ _ h, rfl, h1, by simpa using h2⟩

/-- C6 (amended). `createGltf` does not validate its input. With an empty position list (and
indices the 16-bit writer accepts) it produces a document whose `accessors[0]` has count 0,
`min = [+Infinity, +Infinity, +Infinity]` and `max = [-Infinity, -Infinity, -Infinity]`; with
an empty index list it produces a document whose index accessor has count 0 and whose index
segment is empty. -/
theorem C6_empty_inputs (name : String) (colors : List Vec4) :
    (∀ indices : List ℤ, (∀ v ∈ indices, 0 ≤ v ∧ v ≤ 65535) →
      ∃ doc acc, gltf name [] indices colors = Except.ok doc ∧
        doc.accessors[0]? = some acc ∧ acc.count = 0 ∧
        acc.min = some [JsNum.posInf, JsNum.posInf, JsNum.posInf] ∧
        acc.max = some [JsNum.negInf, JsNum.negInf, JsNum.negInf]) ∧
    (∀ positions : List Vec3,
      ∃ doc acc, gltf name positions [] colors = Except.ok doc ∧
        doc.accessors[3]? = some acc ∧ acc.count = 0 ∧ segment doc 3 = some []) := by
  refine ⟨?_, ?_⟩
  · intro indices hr
    exact ⟨_, _, gltf_ok name [] indices colors hr, rfl, rfl, rfl, rfl⟩
  · intro positions
    exact ⟨_, _, gltf_ok name positions [] colors (by simp), rfl, rfl,
      (document_segments name positions [] colors).2.2.2⟩

/-- The instance of C6 (amended) at an empty position list with one index. -/
theorem C6_empty_inputs_witness :
    (∀ v ∈ ([7] : List ℤ), 0 ≤ v ∧ v ≤ 65535) ∧
      ∃ doc acc, gltf "Empty" [] [7] [] = Except.ok doc ∧
        doc.accessors[0]? = some acc ∧ acc.count = 0 ∧
        acc.min = some [JsNum.posInf, JsNum.posInf, JsNum.posInf] ∧
        acc.max = some [JsNum.negInf, JsNum.negInf, JsNum.negInf] :=
  ⟨by decide, (C6_empty_inputs "Empty" []).1 [7] (by decide)⟩

/-- C7 as stated fails: with three positions and the index list `[0, 1, 5]` the index 5 is
outside `[0, positions.length)`, yet the document is produced, its `accessors[0].count` is 3
and the value stored third in its index segment is 5. -/
theorem C7_counterexample :
    gltf "Triangle" unitTriangle [0, 1, 5] [] =
        Except.ok (document "Triangle" unitTriangle [0, 1, 5] []) ∧
      ¬ ((5 : ℤ) < (unitTriangle.length : ℤ)) ∧
      (document "Triangle" unitTriangle [0, 1, 5] []).accessors[0]?.map Accessor.count
        = some 3 ∧
      segment (document "Triangle" unitTriangle [0, 1, 5] []) 3 = some (packIndices [0, 1, 5]) ∧
      readUInt16LE (packIndices [0, 1, 5]) 4 = some 5 := by
  refine ⟨gltf_ok _ _ _ _ (by decide), by decide, rfl,
    (document_segments _ _ _ _).2.2.2, by decide⟩

/-- C7 (amended). For every mesh in which some index is outside `[0, 65535]`, `createGltf`
fails with the `RangeError` of the 16-bit writer and writes no file; in every document it
produces, every index is in `[0, 65535]` and the index segment holds, as unsigned
little-endian 16-bit values, exactly the indices supplied (each below 65536, whether or not
below `accessors[0].count`). -/
theorem C7_index_range (name : String) (positions : List Vec3) (indices : List ℤ)
    (colors : List Vec4) :
    ((∃ v ∈ indices, v < 0 ∨ 65535 < v) →
      gltf name positions indices colors = Except.error JsError.rangeError ∧
      ∀ w, createGltf name positions indices colors w = (Except.error JsError.rangeError, w)) ∧
    (∀ doc, gltf name positions indices colors = Except.ok doc →
      (∀ v ∈ indices, 0 ≤ v ∧ v < 65536) ∧
      ∃ ib, segment doc 3 = some ib ∧
        ∀ k, k < indices.length →
          ∃ n : ℕ, readUInt16LE ib (2 * k) = some n ∧ (n : ℤ) = indices.getD k 0 ∧
            n < 65536) := by
  refine ⟨?_, ?_⟩
  · rintro ⟨v, hv, hbad⟩
    have hex : ∃ v ∈ indices, ¬ (0 ≤ v ∧ v ≤ 65535) := ⟨v, hv, by omega⟩
    exact ⟨gltf_error name positions indices colors hex,
      fun w => createGltf_error name positions indices colors w hex⟩
  · intro doc h
    obtain ⟨hr, hdoc⟩ := gltf_inv name positions indices colors doc h
    subst hdoc
    refine ⟨fun v hv => ⟨(hr v hv).1, by have := (hr v hv).2; omega⟩, _,
      (document_segments name positions indices colors).2.2.2, ?_⟩
    intro k hk
    have hp : indices[k]? = some indices[k] := List.getElem?_eq_getElem hk
    have hd : indices.getD k 0 = indices[k] := by simp [List.getD, hp]
    have hv : 0 ≤ indices.getD k 0 ∧ indices.getD k 0 ≤ 65535 := by
      rw [hd]; exact hr _ (List.getElem_mem hk)
    refine ⟨(indices.getD k 0).toNat, readUInt16LE_packIndices indices k hk hv, ?_, ?_⟩
    · exact Int.toNat_of_nonneg hv.1
    · omega

/-- The instance of C7 (amended) at an index list holding 70000. -/
theorem C7_index_range_witness :
    (∃ v ∈ ([0, 1, 70000] : List ℤ), v < 0 ∨ 65535 < v) ∧
      gltf "Triangle" unitTriangle [0, 1, 70000] [] = Except.error JsError.rangeError ∧
      ∀ w, createGltf "Triangle" unitTriangle [0, 1, 70000] [] w
        = (Except.error JsError.rangeError, w) :=
  ⟨by decide, (C7_index_range "Triangle" unitTriangle [0, 1, 70000] []).1 (by decide)⟩

/-- C8. The `accessors` array of the document has exactly four entries: accessor 0 is
(bufferView 0, componentType 5126, count V, VEC3, with `max` and `min`), accessor 1 is
(5126, VEC3, count V), accessor 2 is (5126, VEC4, count V), accessor 3 is (5123, SCALAR,
count I); accessor 0 is the only one carrying `min`/`max`. -/
theorem C8_accessors (name : String) (positions : List Vec3) (indices : List ℤ)
    (colors : List Vec4) (doc : Gltf)
    (h : gltf name positions indices colors = Except.ok doc) :
    doc.accessors =
      [{ bufferView := 0, componentType := 5126, count := positions.length, type := "VEC3",
         max := some (bounds positions).hi.toList, min := some (bounds positions).lo.toList },
       { bufferView := 1, componentType := 5126, count := positions.length, type := "VEC3",
         max := none, min := none },
       { bufferView := 2, componentType := 5126, count := positions.length, type := "VEC4",
         max := none, min := none },
       { bufferView := 3, componentType := 5123, count := indices.length, type := "SCALAR",
         max := none, min := none }] ∧
      doc.accessors.length = 4 ∧
      doc.accessors.map (fun a => (a.min.isSome, a.max.isSome)) =
        [(true, true), (false, false), (false, false), (false, false)] := by
  obtain ⟨_, hdoc⟩ := gltf_inv name positions indices colors doc h
  subst hdoc
  exact ⟨rfl, rfl, rfl⟩

/-- The instance of C8 at the mesh of the spec's scenario. -/
theorem C8_accessors_witness :
    gltf "Triangle" unitTriangle [0, 1, 2] []
        = Except.ok (document "Triangle" unitTriangle [0, 1, 2] []) ∧
      (document "Triangle" unitTriangle [0, 1, 2] []).accessors.length = 4 :=
  ⟨gltf_ok "Triangle" unitTriangle [0, 1, 2] [] (by decide),
    (C8_accessors "Triangle" unitTriangle [0, 1, 2] [] _
      (gltf_ok "Triangle" unitTriangle [0, 1, 2] [] (by decide))).2.1⟩

/-- C9. Every cross-reference of the document resolves inside its target array: `scene` is 0
and there is one scene, `scenes[0].nodes = [0]` with one node, `nodes[0].mesh = 0` with one
mesh and one primitive, whose attributes are exactly `POSITION: 0, NORMAL: 1, COLOR_0: 2` with
`indices = 3`; accessor `k` references buffer view `k`, every buffer view references buffer 0,
there is one buffer, and the mesh name is carried in `nodes[0].name` and `meshes[0].name`. -/
theorem C9_cross_references (name : String) (positions : List Vec3) (indices : List ℤ)
    (colors : List Vec4) (doc : Gltf)
    (h : gltf name positions indices colors = Except.ok doc) :
    (doc.scene = 0 ∧ doc.scenes = [{ nodes := [0] }] ∧
      doc.nodes = [{ mesh := 0, name := name }] ∧
      doc.meshes = [{ name := name, primitives :=
        [{ attributes := [("POSITION", 0), ("NORMAL", 1), ("COLOR_0", 2)], indices := 3 }] }] ∧
      doc.accessors.map Accessor.bufferView = [0, 1, 2, 3] ∧
      doc.bufferViews.map BufferView.buffer = [0, 0, 0, 0] ∧
      doc.buffers.length = 1) ∧
    (doc.scene < doc.scenes.length ∧
      (∀ s ∈ doc.scenes, ∀ n ∈ s.nodes, n < doc.nodes.length) ∧
      (∀ n ∈ doc.nodes, n.mesh < doc.meshes.length) ∧
      (∀ m ∈ doc.meshes, ∀ pr ∈ m.primitives,
        pr.indices < doc.accessors.length ∧
        ∀ kv ∈ pr.attributes, kv.2 < doc.accessors.length) ∧
      (∀ a ∈ doc.accessors, a.bufferView < doc.bufferViews.length) ∧
      (∀ v ∈ doc.bufferViews, v.buffer < doc.buffers.length)) := by
  obtain ⟨_, hdoc⟩ := gltf_inv name positions indices colors doc h
  subst hdoc
  refine ⟨⟨rfl, rfl, rfl, rfl, rfl, rfl, rfl⟩, ?_⟩
  simp only [document, assemble]
  simp
  intro a b hab
  rcases hab with ⟨_, hb⟩ | ⟨_, hb⟩ | ⟨_, hb⟩ <;> omega

/-- The instance of C9 at the mesh of the spec's scenario. -/
theorem C9_cross_references_witness :
    gltf "Triangle" unitTriangle [0, 1, 2] []
        = Except.ok (document "Triangle" unitTriangle [0, 1, 2] []) ∧
      (document "Triangle" unitTriangle [0, 1, 2] []).nodes = [{ mesh := 0, name := "Triangle" }] ∧
      (document "Triangle" unitTriangle [0, 1, 2] []).buffers.length = 1 :=
  ⟨gltf_ok "Triangle" unitTriangle [0, 1, 2] [] (by decide),
    (C9_cross_references "Triangle" unitTriangle [0, 1, 2] [] _
      (gltf_ok "Triangle" unitTriangle [0, 1, 2] [] (by decide))).1.2.2.1,
    (C9_cross_references "Triangle" unitTriangle [0, 1, 2] [] _
      (gltf_ok "Triangle" unitTriangle [0, 1, 2] [] (by decide))).1.2.2.2.2.2.2⟩

/-- C10. For a vertex whose position is `(0,0,0)` (each component `+0` or `-0`), the length
guard yields 1, the normal `createGltf` derives is the position itself, a zero vector with no
NaN component, and the normal segment holds its twelve bytes at that vertex; for `(+0,+0,+0)`
these are twelve zero bytes. -/
theorem C10_zero_normal (name : String) (positions : List Vec3) (indices : List ℤ)
    (colors : List Vec4) (doc : Gltf) (i : ℕ) (p : Vec3)
    (h : gltf name positions indices colors = Except.ok doc)
    (hp : positions[i]? = some p)
    (hz : p.c0.isZero = true ∧ p.c1.isZero = true ∧ p.c2.isZero = true) :
    normLen p = JsNum.fin 1 ∧ normalOf p = p ∧
      ((normalOf p).c0.isZero = true ∧ (normalOf p).c1.isZero = true ∧
        (normalOf p).c2.isZero = true) ∧
      ((normalOf p).c0.isNaN = false ∧ (normalOf p).c1.isNaN = false ∧
        (normalOf p).c2.isNaN = false) ∧
      ∃ nb, segment doc 1 = some nb ∧ vertexSlot nb i = packVec3 p ∧
        (p = ⟨JsNum.fin 0, JsNum.fin 0, JsNum.fin 0⟩ →
          vertexSlot nb i = [0, 0, 0, 0, 0, 0, 0, 0, 0, 0, 0, 0]) := by
  obtain ⟨_, hdoc⟩ := gltf_inv name positions indices colors doc h
  subst hdoc
  obtain ⟨h0, h1, h2⟩ := hz
  have hn : normalOf p = p := normalOf_of_isZero p h0 h1 h2
  have hslot : vertexSlot (packNormals positions) i = packVec3 p := by
    rw [vertexSlot_packNormals positions i p hp, hn]
  refine ⟨normLen_of_isZero p h0 h1 h2, hn, ?_, ?_, _,
    (document_segments name positions indices colors).2.1, hslot, ?_⟩
  · rw [hn]; exact ⟨h0, h1, h2⟩
  · rw [hn]; exact ⟨isNaN_of_isZero _ h0, isNaN_of_isZero _ h1, isNaN_of_isZero _ h2⟩
  · intro hpz
    rw [hslot, hpz]
    simp [packVec3, f32LE_zero]

/-- The instance of C10 at a mesh whose first vertex is the origin. -/
theorem C10_zero_normal_witness :
    gltf "Origin" (⟨JsNum.fin 0, JsNum.fin 0, JsNum.fin 0⟩ :: unitTriangle) [0, 1, 2] []
        = Except.ok
          (document "Origin" (⟨JsNum.fin 0, JsNum.fin 0, JsNum.fin 0⟩ :: unitTriangle)
            [0, 1, 2] []) ∧
      normalOf ⟨JsNum.fin 0, JsNum.fin 0, JsNum.fin 0⟩
        = ⟨JsNum.fin 0, JsNum.fin 0, JsNum.fin 0⟩ :=
  ⟨gltf_ok _ _ _ _ (by decide),
    (C10_zero_normal "Origin" (⟨JsNum.fin 0, JsNum.fin 0, JsNum.fin 0⟩ :: unitTriangle)
      [0, 1, 2] [] _ 0 ⟨JsNum.fin 0, JsNum.fin 0, JsNum.fin 0⟩
      (gltf_ok _ _ _ _ (by decide)) rfl ⟨by decide, by decide, by decide⟩).2.1⟩

/-! ### Lemmas for the index bytes, the views and the shipped meshes -/

theorem document_decode (name : String) (positions : List Vec3) (indices : List ℤ)
    (colors : List Vec4) :
    ∃ buf, (document name positions indices colors).buffers = [buf] ∧
      decodeUri buf.uri = some (packPositions positions ++ (packNormals positions ++
        (packColors positions colors ++ packIndices indices))) := by
  have hall : ∀ b ∈ packPositions positions ++ (packNormals positions ++
      (packColors positions colors ++ packIndices indices)), b < 256 := by
    intro b hb
    simp only [List.mem_append] at hb
    rcases hb with hb | hb | hb | hb
    · exact flatMap_lt positions packVec3 packVec3_lt b hb
    · exact flatMap_lt positions _ (fun p => packVec3_lt (normalOf p)) b hb
    · exact range_flatMap_lt _ (fun i => packVec4_lt (colorAt colors i)) positions.length b hb
    · exact flatMap_lt indices packIndex packIndex_lt b hb
  have hc : Buffer.concat [packPositions positions, packNormals positions,
      packColors positions colors, packIndices indices] =
      packPositions positions ++ (packNormals positions ++
        (packColors positions colors ++ packIndices indices)) := by
    simp [Buffer.concat]
  refine ⟨_, rfl, ?_⟩
  show decodeUri (uriHead ++ Buffer.toBase64 (Buffer.concat _)) = _
  rw [hc]
  exact decodeUri_toBase64 _ hall

theorem getElem?_index_bytes (positions : List Vec3) (indices : List ℤ) (colors : List Vec4)
    (j : ℕ) :
    (packPositions positions ++ (packNormals positions ++
        (packColors positions colors ++ packIndices indices)))[40 * positions.length + j]? =
      (packIndices indices)[j]? := by
  have e : packPositions positions ++ (packNormals positions ++
        (packColors positions colors ++ packIndices indices)) =
      (packPositions positions ++ packNormals positions ++ packColors positions colors)
        ++ packIndices indices := by simp
  have hl : (packPositions positions ++ packNormals positions
      ++ packColors positions colors).length = 40 * positions.length := by
    simp only [List.length_append, packPositions_length, packNormals_length,
      packColors_length]
    omega
  rw [e, List.getElem?_append_right (by omega), hl]
  congr 1
  omega

theorem packIndices_bytes (indices : List ℤ) (k : ℕ) (hk : k < indices.length) :
    (packIndices indices)[2 * k]? = some (indices.getD k 0 % 256).toNat ∧
      (packIndices indices)[2 * k + 1]? = some (indices.getD k 0 / 256 % 256).toNat := by
  have h := slice_packIndices indices k hk
  generalize indices.getD k 0 = v at h ⊢
  have h0 := congrArg (fun l => l[0]?) h
  have h1 := congrArg (fun l => l[1]?) h
  simp only [List.getElem?_take, List.getElem?_drop, packIndex] at h0 h1
  simp at h0 h1
  exact ⟨h0, h1⟩

theorem document_bufferViews (name : String) (positions : List Vec3) (indices : List ℤ)
    (colors : List Vec4) :
    (document name positions indices colors).bufferViews =
      [⟨0, 0, 12 * positions.length⟩, ⟨0, 12 * positions.length, 12 * positions.length⟩,
        ⟨0, 12 * positions.length + 12 * positions.length, 16 * positions.length⟩,
        ⟨0, 12 * positions.length + 12 * positions.length + 16 * positions.length,
          2 * indices.length⟩] := by
  simp [document, assemble, packPositions_length,
    packNormals_length, packColors_length, packIndices_length]

theorem document_buffers (name : String) (positions : List Vec3) (indices : List ℤ)
    (colors : List Vec4) :
    (document name positions indices colors).buffers =
      [{ uri := uriHead ++ Buffer.toBase64 (Buffer.concat [packPositions positions,
          packNormals positions, packColors positions colors, packIndices indices]),
         byteLength := 12 * positions.length + 12 * positions.length + 16 * positions.length
          + 2 * indices.length }] := by
  simp [document, assemble, Buffer.concat, packPositions_length,
    packNormals_length, packColors_length, packIndices_length, Nat.add_assoc]

theorem document_accessors (name : String) (positions : List Vec3) (indices : List ℤ)
    (colors : List Vec4) :
    (document name positions indices colors).accessors =
      [{ bufferView := 0, componentType := 5126, count := positions.length, type := "VEC3",
         max := some (bounds positions).hi.toList, min := some (bounds positions).lo.toList },
       { bufferView := 1, componentType := 5126, count := positions.length, type := "VEC3",
         max := none, min := none },
       { bufferView := 2, componentType := 5126, count := positions.length, type := "VEC4",
         max := none, min := none },
       { bufferView := 3, componentType := 5123, count := indices.length, type := "SCALAR",
         max := none, min := none }] := rfl

theorem diamondIdx_eq : Meshes.diamondIdx =
    [0, 1, 2, 3, 4, 5, 6, 7, 8, 9, 10, 11, 12, 13, 14, 15, 16, 17, 18, 19, 20, 21, 22, 23] := rfl

theorem diamondPos_eq : Meshes.diamondPos =
    Meshes.allFaces.flatMap (fun tri => [tri.1, tri.2.1, tri.2.2]) := rfl

theorem diamondCol_eq : Meshes.diamondCol =
    Meshes.faceColors.flatMap (fun c => [c, c, c]) := rfl

theorem shipped_lengths :
    (Meshes.diamondPos.length = 24 ∧ Meshes.diamondIdx.length = 24) ∧
      (Meshes.cubePos.length = 8 ∧ Meshes.cubeIdx.length = 36) ∧
      (Meshes.pyPos.length = 5 ∧ Meshes.pyIdx.length = 18) ∧
      (Meshes.tetraPos.length = 4 ∧ Meshes.tetraIdx.length = 12) ∧
      (Meshes.icoPos.length = 12 ∧ Meshes.icoIdx.length = 60) :=
  ⟨⟨rfl, rfl⟩, ⟨rfl, rfl⟩, ⟨rfl, rfl⟩, ⟨rfl, rfl⟩, ⟨rfl, rfl⟩⟩

/-- C12. For every mesh with V positions and every index list whose values are integers in
`[0, 65535]`, the document is produced and, in the bytes decoded from its buffer, index `k`
occupies offsets `40*V + 2*k` and `40*V + 2*k + 1`: the first byte is `indices[k] mod 256`,
the second is `indices[k] div 256`, and the pair read as an unsigned little-endian 16-bit
integer is `indices[k]`. -/
theorem C12_index_bytes_little_endian (name : String) (positions : List Vec3)
    (indices : List ℤ) (colors : List Vec4)
    (hr : ∀ v ∈ indices, 0 ≤ v ∧ v ≤ 65535) :
    ∃ doc buf bytes, gltf name positions indices colors = Except.ok doc ∧
      doc.buffers = [buf] ∧ decodeUri buf.uri = some bytes ∧
      ∀ k, k < indices.length →
        bytes[40 * positions.length + 2 * k]? = some (indices.getD k 0 % 256).toNat ∧
        bytes[40 * positions.length + 2 * k + 1]? = some (indices.getD k 0 / 256).toNat ∧
        ((readUInt16LE bytes (40 * positions.length + 2 * k)).map (fun n => (n : ℤ)))
          = some (indices.getD k 0) := by
  obtain ⟨buf, hbuf, hdec⟩ := document_decode name positions indices colors
  refine ⟨_, buf, _, gltf_ok name positions indices colors hr, hbuf, hdec, ?_⟩
  intro k hk
  have hv : 0 ≤ indices.getD k 0 ∧ indices.getD k 0 ≤ 65535 := by
    have hp : indices[k]? = some indices[k] := List.getElem?_eq_getElem hk
    have hd : indices.getD k 0 = indices[k] := by simp [List.getD, hp]
    rw [hd]; exact hr _ (List.getElem_mem hk)
  obtain ⟨b0, b1⟩ := packIndices_bytes indices k hk
  have g0 := getElem?_index_bytes positions indices colors (2 * k)
  have g1 := getElem?_index_bytes positions indices colors (2 * k + 1)
  rw [← Nat.add_assoc] at g1
  rw [b0] at g0
  rw [b1] at g1
  generalize indices.getD k 0 = v at hv g0 g1 ⊢
  have e1 : v / 256 % 256 = v / 256 := by omega
  rw [e1] at g1
  refine ⟨g0, g1, ?_⟩
  simp only [readUInt16LE, g0, g1, Option.bind_eq_bind, Option.some_bind, Option.pure_def,
    Option.map_some', Option.some.injEq]
  have t0 : ((v % 256).toNat : ℤ) = v % 256 := Int.toNat_of_nonneg (by omega)
  have t1 : ((v / 256).toNat : ℤ) = v / 256 := Int.toNat_of_nonneg (by omega)
  rw [Nat.cast_add, Nat.cast_mul, t0, t1]
  push_cast
  omega

/-- The instance of C12 at the mesh of the spec's scenario with a two-byte index. -/
theorem C12_index_bytes_little_endian_witness :
    (∀ v ∈ ([0, 1, 258] : List ℤ), 0 ≤ v ∧ v ≤ 65535) ∧
      ∃ doc buf bytes, gltf "Triangle" unitTriangle [0, 1, 258] [] = Except.ok doc ∧
        doc.buffers = [buf] ∧ decodeUri buf.uri = some bytes ∧
        bytes[40 * unitTriangle.length + 2 * 2]? = some 2 ∧
        bytes[40 * unitTriangle.length + 2 * 2 + 1]? = some 1 :=
  ⟨by decide,
    (C12_index_bytes_little_endian "Triangle" unitTriangle [0, 1, 258] [] (by decide)).elim
      (fun doc hd => hd.elim (fun buf hb => hb.elim (fun bytes hx =>
        ⟨doc, buf, bytes, hx.1, hx.2.1, hx.2.2.1, (hx.2.2.2 2 (by decide)).1,
          (hx.2.2.2 2 (by decide)).2.1⟩)))⟩

/-- C13. `createGltf` is all-or-nothing: whenever building the document raises an exception
(in particular when an index is outside `0..65535`), `createGltf` raises the same exception
and leaves the files and the console unchanged; when building succeeds, it appends exactly
the file `<name>.gltf` holding the complete document. -/
theorem C13_all_or_nothing (name : String) (positions : List Vec3) (indices : List ℤ)
    (colors : List Vec4) (w : World) :
    (∀ e, gltf name positions indices colors = Except.error e →
      createGltf name positions indices colors w = (Except.error e, w)) ∧
    (∀ e, (createGltf name positions indices colors w).1 = Except.error e →
      (createGltf name positions indices colors w).2 = w) ∧
    ((∃ v ∈ indices, v < 0 ∨ 65535 < v) →
      createGltf name positions indices colors w = (Except.error JsError.rangeError, w)) ∧
    (∀ doc, gltf name positions indices colors = Except.ok doc →
      (createGltf name positions indices colors w).1 = Except.ok () ∧
      (createGltf name positions indices colors w).2.files =
        w.files ++ [(name ++ ".gltf", doc)]) := by
  refine ⟨?_, ?_, ?_, ?_⟩
  · intro e he
    simp [createGltf, he]
  · intro e he
    cases hg : gltf name positions indices colors with
    | error e2 => simp [createGltf, hg]
    | ok doc => simp [createGltf, hg] at he
  · rintro ⟨v, hv, hbad⟩
    exact createGltf_error name positions indices colors w ⟨v, hv, by omega⟩
  · intro doc hdoc
    simp [createGltf, hdoc]

/-- The instance of C13 at an index list holding 70000. -/
theorem C13_all_or_nothing_witness :
    (∃ v ∈ ([0, 1, 70000] : List ℤ), v < 0 ∨ 65535 < v) ∧
      createGltf "Triangle" unitTriangle [0, 1, 70000] [] ⟨[], []⟩
        = (Except.error JsError.rangeError, ⟨[], []⟩) :=
  ⟨by decide, (C13_all_or_nothing "Triangle" unitTriangle [0, 1, 70000] [] ⟨[], []⟩).2.2.1
    (by decide)⟩

/-- C14. Each of the five shipped meshes satisfies the mesh invariant (every index is below
the number of positions, the indices come in triples, one colour per position), whatever
`Math.sin` returns, and has its documented size: Diamond 24 vertices / 8 triangles, Cube
8 / 12 (36 indices), Pyramid 5 / 6, Tetrahedron 4 / 4, Icosphere 12 / 20. The Diamond has
three fresh vertices per face, index `k` equal to `k`, and one colour shared by the three
vertices of each face. -/
theorem C14_shipped_meshes (sin : JsNum → JsNum) :
    (∀ m ∈ shippedMeshes sin, m.wellFormed) ∧
      (shippedMeshes sin).map (fun m => (m.name, m.positions.length, m.indices.length / 3)) =
        [("Diamond", 24, 8), ("Cube", 8, 12), ("Pyramid", 5, 6), ("Tetrahedron", 4, 4),
          ("Icosphere", 12, 20)] ∧
      Meshes.cubeIdx.length = 36 ∧
      Meshes.diamondPos = Meshes.allFaces.flatMap (fun tri => [tri.1, tri.2.1, tri.2.2]) ∧
      Meshes.allFaces.length = 8 ∧
      (∀ k : ℕ, k < 24 → Meshes.diamondIdx[k]? = some (k : ℤ)) ∧
      (∀ f : ℕ, f < 8 → ∃ c, Meshes.faceColors[f]? = some c ∧
        Meshes.diamondCol[3 * f]? = some c ∧ Meshes.diamondCol[3 * f + 1]? = some c ∧
        Meshes.diamondCol[3 * f + 2]? = some c) := by
  obtain ⟨⟨d1, d2⟩, ⟨c1, c2⟩, ⟨p1, p2⟩, ⟨t1, t2⟩, ⟨i1, i2⟩⟩ := shipped_lengths
  refine ⟨?_, ?_, rfl, rfl, rfl, ?_, ?_⟩
  · intro m hm
    simp only [shippedMeshes, List.mem_cons, List.mem_singleton, List.not_mem_nil,
      or_false] at hm
    rcases hm with h | h | h | h | h <;> subst h
    · exact ⟨by rw [diamondIdx_eq]; decide, by rw [d2], rfl⟩
    · exact ⟨by decide, by rw [c2], rfl⟩
    · exact ⟨by decide, by rw [p2], rfl⟩
    · exact ⟨by decide, by rw [t2], rfl⟩
    · refine ⟨?_, by rw [i2], rfl⟩
      show ∀ v ∈ Meshes.icoIdx, 0 ≤ v ∧ v < (Meshes.icoPos.length : ℤ)
      decide
  · simp only [shippedMeshes, List.map_cons, List.map_nil, d1, d2, c1, c2, p1, p2, t1, t2, i1,
      i2]
  · intro k hk
    rw [diamondIdx_eq]
    interval_cases k <;> rfl
  · intro f hf
    rw [diamondCol_eq]
    interval_cases f <;> exact ⟨_, rfl, rfl, rfl, rfl⟩

/-- The instance of C14 with the identity in place of `Math.sin`. -/
theorem C14_shipped_meshes_witness :
    (∀ m ∈ shippedMeshes id, m.wellFormed) ∧ Meshes.cubeIdx.length = 36 :=
  ⟨(C14_shipped_meshes id).1, (C14_shipped_meshes id).2.2.1⟩

/-- C15. Each buffer view of the document has exactly the size its accessor needs (count
times element size: `12*V`, `12*V`, `16*V`, `2*I`), each view starts where the one before it
ends, the last view ends at `buffers[0].byteLength`, and no view extends past the buffer. -/
theorem C15_views_tile_buffer (name : String) (positions : List Vec3) (indices : List ℤ)
    (colors : List Vec4) (doc : Gltf)
    (h : gltf name positions indices colors = Except.ok doc) :
    doc.viewLengths =
        [12 * positions.length, 12 * positions.length, 16 * positions.length,
          2 * indices.length] ∧
      (∀ (k : ℕ) (acc : Accessor) (v : BufferView), doc.accessors[k]? = some acc → doc.bufferViews[acc.bufferView]? = some v →
        v.byteLength = acc.count * acc.elementSize) ∧
      (∀ k, k < 3 → ∃ v v2, doc.bufferViews[k]? = some v ∧ doc.bufferViews[k + 1]? = some v2 ∧
        v2.byteOffset = v.byteOffset + v.byteLength) ∧
      (∃ v b, doc.bufferViews[3]? = some v ∧ doc.buffers[0]? = some b ∧
        v.byteOffset + v.byteLength = b.byteLength) ∧
      (∀ (k : ℕ) (v : BufferView) (b : GltfBuffer), doc.bufferViews[k]? = some v → doc.buffers[v.buffer]? = some b →
        v.byteOffset + v.byteLength ≤ b.byteLength) := by
  obtain ⟨_, hdoc⟩ := gltf_inv name positions indices colors doc h
  subst hdoc
  have hb := document_buffers name positions indices colors
  have hv := document_bufferViews name positions indices colors
  have ha := document_accessors name positions indices colors
  refine ⟨document_viewLengths name positions indices colors, ?_, ?_, ?_, ?_⟩
  · intro k acc v hk hvk
    rw [ha] at hk
    rw [hv] at hvk
    rcases k with _ | _ | _ | _ | k
    all_goals simp at hk
    all_goals subst hk
    all_goals simp at hvk
    all_goals subst hvk
    all_goals simp [Accessor.elementSize, Accessor.componentCount, Accessor.componentSize]
    all_goals omega
  · intro k hk
    rw [hv]
    interval_cases k <;> simp
  · rw [hv, hb]
    simp
  · intro k v b hk hbk
    rw [hv] at hk
    rcases k with _ | _ | _ | _ | k
    all_goals simp at hk
    all_goals subst hk
    all_goals rw [hb] at hbk
    all_goals simp at hbk
    all_goals subst hbk
    all_goals simp
    all_goals omega

/-- The instance of C15 at the mesh of the spec's scenario. -/
theorem C15_views_tile_buffer_witness :
    gltf "Triangle" unitTriangle [0, 1, 2] []
        = Except.ok (document "Triangle" unitTriangle [0, 1, 2] []) ∧
      (document "Triangle" unitTriangle [0, 1, 2] []).viewLengths = [12 * 3, 12 * 3, 16 * 3, 2 * 3] :=
  ⟨gltf_ok "Triangle" unitTriangle [0, 1, 2] [] (by decide),
    (C15_views_tile_buffer "Triangle" unitTriangle [0, 1, 2] [] _
      (gltf_ok "Triangle" unitTriangle [0, 1, 2] [] (by decide))).1⟩

/-- C16. Every buffer view of the document starts at a multiple of its accessor's component
size: the offsets are `0`, `12*V`, `24*V`, `40*V`; the three float views start at multiples
of 4 and the index view at `40*V`, a multiple of 2. -/
theorem C16_view_alignment (name : String) (positions : List Vec3) (indices : List ℤ)
    (colors : List Vec4) (doc : Gltf)
    (h : gltf name positions indices colors = Except.ok doc) :
    doc.viewOffsets =
        [0, 12 * positions.length, 24 * positions.length, 40 * positions.length] ∧
      (∀ (k : ℕ) (acc : Accessor) (v : BufferView), doc.accessors[k]? = some acc →
        doc.bufferViews[acc.bufferView]? = some v →
        0 < acc.componentSize ∧ v.byteOffset % acc.componentSize = 0) ∧
      (∀ k, k < 3 → ∃ o, doc.viewOffsets[k]? = some o ∧ o % 4 = 0) ∧
      (∃ o, doc.viewOffsets[3]? = some o ∧ o = 40 * positions.length ∧ o % 2 = 0) := by
  obtain ⟨_, hdoc⟩ := gltf_inv name positions indices colors doc h
  subst hdoc
  have ho : (document name positions indices colors).viewOffsets =
      [0, 12 * positions.length, 24 * positions.length, 40 * positions.length] := by
    have e1 : 12 * positions.length + 12 * positions.length = 24 * positions.length := by
      omega
    have e2 : 24 * positions.length + 16 * positions.length = 40 * positions.length := by
      omega
    rw [document_viewOffsets, e1, e2]
  have hv := document_bufferViews name positions indices colors
  have ha := document_accessors name positions indices colors
  refine ⟨ho, ?_, ?_, ?_⟩
  · intro k acc v hk hvk
    rw [ha] at hk
    rw [hv] at hvk
    rcases k with _ | _ | _ | _ | k
    all_goals simp at hk
    all_goals subst hk
    all_goals simp at hvk
    all_goals subst hvk
    all_goals simp [Accessor.componentSize]
    all_goals omega
  · intro k hk
    rw [ho]
    interval_cases k
    · exact ⟨0, rfl, rfl⟩
    · exact ⟨12 * positions.length, rfl, by omega⟩
    · exact ⟨24 * positions.length, rfl, by omega⟩
  · rw [ho]
    exact ⟨40 * positions.length, rfl, rfl, by omega⟩

/-- The instance of C16 at the mesh of the spec's scenario. -/
theorem C16_view_alignment_witness :
    gltf "Triangle" unitTriangle [0, 1, 2] []
        = Except.ok (document "Triangle" unitTriangle [0, 1, 2] []) ∧
      (document "Triangle" unitTriangle [0, 1, 2] []).viewOffsets = [0, 12 * 3, 24 * 3, 40 * 3] :=
  ⟨gltf_ok "Triangle" unitTriangle [0, 1, 2] [] (by decide),
    (C16_view_alignment "Triangle" unitTriangle [0, 1, 2] [] _
      (gltf_ok "Triangle" unitTriangle [0, 1, 2] [] (by decide))).1⟩

/-! ### Rounding lemmas and the values of the literals -/

section Values

open JsNum

theorem roundHalfEven_spec (x : ℚ) :
    (roundHalfEven x : ℚ) - 1 / 2 ≤ x ∧ x ≤ (roundHalfEven x : ℚ) + 1 / 2 := by
  have h1 : ((⌊x⌋ : ℤ) : ℚ) ≤ x := Int.floor_le x
  have h2 : x < ((⌊x⌋ : ℤ) : ℚ) + 1 := Int.lt_floor_add_one x
  unfold roundHalfEven
  simp only []
  split_ifs with c1 c2 c3
  · constructor <;> linarith
  · push_cast; constructor <;> linarith
  · have : x - ⌊x⌋ = 1 / 2 := le_antisymm (not_lt.1 c2) (not_lt.1 c1)
    constructor <;> linarith
  · have : x - ⌊x⌋ = 1 / 2 := le_antisymm (not_lt.1 c2) (not_lt.1 c1)
    push_cast; constructor <;> linarith

theorem roundHalfEven_mono {x y : ℚ} (h : x ≤ y) : roundHalfEven x ≤ roundHalfEven y := by
  by_contra hlt
  push_neg at hlt
  have hx := roundHalfEven_spec x
  have hy := roundHalfEven_spec y
  have h1 : roundHalfEven y + 1 ≤ roundHalfEven x := hlt
  have h1q : (roundHalfEven y : ℚ) + 1 ≤ roundHalfEven x := by exact_mod_cast h1
  have hxy : x = y := by linarith [hx.1, hy.2]
  subst hxy
  exact absurd hlt (lt_irrefl _)

theorem roundHalfEven_eq_of_lt (x : ℚ) (k : ℤ) (h1 : (k : ℚ) - 1 / 2 < x)
    (h2 : x < (k : ℚ) + 1 / 2) : roundHalfEven x = k := by
  have hx := roundHalfEven_spec x
  have a1 : (roundHalfEven x : ℚ) < k + 1 := by linarith [hx.1]
  have a2 : (k : ℚ) - 1 < roundHalfEven x := by linarith [hx.2]
  have b1 : roundHalfEven x < k + 1 := by exact_mod_cast a1
  have b2 : k - 1 < roundHalfEven x := by exact_mod_cast a2
  omega

theorem log2_eq {m : ℚ} {E : ℤ} (hm : 0 < m) (hlo : (2 : ℚ) ^ E ≤ m)
    (hhi : m < (2 : ℚ) ^ (E + 1)) : Int.log 2 m = E := by
  have h1 : E ≤ Int.log 2 m := by
    rw [← Int.zpow_le_iff_le_log (by norm_num) hm]
    exact_mod_cast hlo
  have h2 : Int.log 2 m < E + 1 := by
    rw [← Int.lt_zpow_iff_log_lt (by norm_num) hm]
    exact_mod_cast hhi
  omega

theorem log2_bounds {m : ℚ} (hm : 0 < m) :
    (2 : ℚ) ^ Int.log 2 m ≤ m ∧ m < (2 : ℚ) ^ (Int.log 2 m + 1) := by
  have h1 := Int.zpow_log_le_self (b := 2) (r := m) (by norm_num) hm
  have h2 := Int.lt_zpow_succ_log_self (b := 2) (R := ℚ) (by norm_num) m
  exact ⟨by exact_mod_cast h1, by exact_mod_cast h2⟩

theorem roundMag_eval (prec : ℕ) (emin emax : ℤ) (m : ℚ) (E k : ℤ) (hm : 0 < m)
    (hlo : (2 : ℚ) ^ E ≤ m) (hhi : m < (2 : ℚ) ^ (E + 1)) (hE : emin ≤ E)
    (hk1 : (k : ℚ) - 1 / 2 < m / (2 : ℚ) ^ (E - ((prec : ℤ) - 1)))
    (hk2 : m / (2 : ℚ) ^ (E - ((prec : ℤ) - 1)) < (k : ℚ) + 1 / 2)
    (hov : (k : ℚ) * (2 : ℚ) ^ (E - ((prec : ℤ) - 1)) < (2 : ℚ) ^ (emax + 1)) :
    roundMag prec emin emax m = some ((k : ℚ) * (2 : ℚ) ^ (E - ((prec : ℤ) - 1))) := by
  have hlog := log2_eq hm hlo hhi
  unfold roundMag ulpExp
  rw [if_neg (ne_of_gt hm), hlog, max_eq_left hE]
  simp only []
  rw [roundHalfEven_eq_of_lt _ k hk1 hk2, if_neg (not_le.2 hov)]

theorem ofRat_eval (q : ℚ) (E k : ℤ) (hq : 0 < q)
    (hlo : (2 : ℚ) ^ E ≤ q) (hhi : q < (2 : ℚ) ^ (E + 1)) (hE : -1022 ≤ E)
    (hk1 : (k : ℚ) - 1 / 2 < q / (2 : ℚ) ^ (E - 52))
    (hk2 : q / (2 : ℚ) ^ (E - 52) < (k : ℚ) + 1 / 2)
    (hov : (k : ℚ) * (2 : ℚ) ^ (E - 52) < (2 : ℚ) ^ (1024 : ℤ)) (hk : 0 < k) :
    ofRat q = fin ((k : ℚ) * (2 : ℚ) ^ (E - 52)) := by
  have h := roundMag_eval 53 (-1022) 1023 q E k hq hlo hhi hE (by simpa using hk1)
    (by simpa using hk2) (by simpa using hov)
  have hpos : (0 : ℚ) < (k : ℚ) * (2 : ℚ) ^ (E - 52) := by positivity
  simp only [ofRat, round64, roundTo, abs_of_pos hq]
  simp at h
  rw [h]
  simp [ne_of_gt hpos, not_lt.2 (le_of_lt hq)]

theorem round64_eval (neg : Bool) (m : ℚ) (E k : ℤ) (hm : 0 < m)
    (hlo : (2 : ℚ) ^ E ≤ m) (hhi : m < (2 : ℚ) ^ (E + 1)) (hE : -1022 ≤ E)
    (hk1 : (k : ℚ) - 1 / 2 < m / (2 : ℚ) ^ (E - 52))
    (hk2 : m / (2 : ℚ) ^ (E - 52) < (k : ℚ) + 1 / 2)
    (hov : (k : ℚ) * (2 : ℚ) ^ (E - 52) < (2 : ℚ) ^ (1024 : ℤ)) (hk : 0 < k) :
    round64 neg m = fin (if neg = true then -((k : ℚ) * (2 : ℚ) ^ (E - 52))
      else (k : ℚ) * (2 : ℚ) ^ (E - 52)) := by
  have h := roundMag_eval 53 (-1022) 1023 m E k hm hlo hhi hE (by simpa using hk1)
    (by simpa using hk2) (by simpa using hov)
  have hpos : (0 : ℚ) < (k : ℚ) * (2 : ℚ) ^ (E - 52) := by positivity
  simp only [round64, roundTo]
  simp at h
  rw [h]
  simp [ne_of_gt hpos]

theorem ofRat_four_fifths : ofRat (4 / 5) = fin (3602879701896397 / 4503599627370496) := by
  rw [ofRat_eval (4 / 5) (-1) 7205759403792794 (by norm_num) (by norm_num) (by norm_num)
    (by norm_num) (by norm_num) (by norm_num) (by norm_num) (by norm_num)]
  norm_num

theorem ofRat_eleven_twentieths :
    ofRat (11 / 20) = fin (2476979795053773 / 4503599627370496) := by
  rw [ofRat_eval (11 / 20) (-1) 4953959590107546 (by norm_num) (by norm_num) (by norm_num)
    (by norm_num) (by norm_num) (by norm_num) (by norm_num) (by norm_num)]
  norm_num

theorem ofRat_two_fifths : ofRat (2 / 5) = fin (3602879701896397 / 9007199254740992) := by
  rw [ofRat_eval (2 / 5) (-2) 7205759403792794 (by norm_num) (by norm_num) (by norm_num)
    (by norm_num) (by norm_num) (by norm_num) (by norm_num) (by norm_num)]
  norm_num

theorem ofRat_three_fifths : ofRat (3 / 5) = fin (5404319552844595 / 9007199254740992) := by
  rw [ofRat_eval (3 / 5) (-1) 5404319552844595 (by norm_num) (by norm_num) (by norm_num)
    (by norm_num) (by norm_num) (by norm_num) (by norm_num) (by norm_num)]
  norm_num

theorem ofRat_one_half : ofRat (1 / 2) = fin (1 / 2) := by
  rw [ofRat_eval (1 / 2) (-1) 4503599627370496 (by norm_num) (by norm_num) (by norm_num)
    (by norm_num) (by norm_num) (by norm_num) (by norm_num) (by norm_num)]
  norm_num

theorem ofRat_three_tenths : ofRat (3 / 10) = fin (5404319552844595 / 18014398509481984) := by
  rw [ofRat_eval (3 / 10) (-2) 5404319552844595 (by norm_num) (by norm_num) (by norm_num)
    (by norm_num) (by norm_num) (by norm_num) (by norm_num) (by norm_num)]
  norm_num

theorem ofRat_six_fifths : ofRat (6 / 5) = fin (5404319552844595 / 4503599627370496) := by
  rw [ofRat_eval (6 / 5) 0 5404319552844595 (by norm_num) (by norm_num) (by norm_num)
    (by norm_num) (by norm_num) (by norm_num) (by norm_num) (by norm_num)]
  norm_num

theorem toRat_fin (q : ℚ) : (JsNum.fin q).toRat = q := rfl

theorem toRat_neg (x : JsNum) : (JsNum.neg x).toRat = -x.toRat := by
  cases x with
  | fin q =>
    by_cases h : q = 0
    · simp [JsNum.neg, toRat, h]
    · simp [JsNum.neg, toRat, h]
  | _ => simp [JsNum.neg, toRat]

theorem tetra_back_z : JsNum.mul (JsNum.neg Meshes.t) (ofRat (6 / 5)) =
    fin (-(5404319552844595 / 9007199254740992)) := by
  have h := round64_eval true ((1 / 2) * (5404319552844595 / 4503599627370496)) (-1)
    5404319552844595 (by norm_num) (by norm_num) (by norm_num) (by norm_num) (by norm_num)
    (by norm_num) (by norm_num) (by norm_num)
  have e : JsNum.mul (JsNum.neg Meshes.t) (ofRat (6 / 5)) =
      round64 true ((1 / 2) * (5404319552844595 / 4503599627370496)) := by
    rw [Meshes.t, ofRat_one_half, ofRat_six_fifths]
    simp [JsNum.neg, JsNum.mul, isNaN, isFinite, signBit, toRat]
    norm_num [abs_of_pos]
  rw [e, h]
  norm_num

theorem sqrt_five_scaled :
    ⌊((5 : ℚ) / (2 : ℚ) ^ (2 * (-51 : ℤ)))⌋₊ = 25353012004564588029934064107520 := by
  have h : ((5 : ℚ) / (2 : ℚ) ^ (2 * (-51 : ℤ))) =
      ((25353012004564588029934064107520 : ℕ) : ℚ) := by norm_num
  rw [h, Nat.floor_natCast]

theorem sqrt_five_floor :
    Nat.sqrt 25353012004564588029934064107520 = 5035177455121575 := by
  symm
  rw [Nat.eq_sqrt]
  constructor <;> norm_num

theorem sqrtRound_five : sqrtRound 5 (-51) = 5035177455121576 := by
  unfold sqrtRound
  simp only []
  rw [sqrt_five_scaled, sqrt_five_floor]
  norm_num

theorem log2_five : Int.log 2 (5 : ℚ) = 2 :=
  log2_eq (by norm_num) (by norm_num) (by norm_num)

theorem sqrt_five_raw :
    JsNum.sqrt (fin 5) = fin (((5035177455121576 : ℕ) : ℚ) * (2 : ℚ) ^ (-51 : ℤ)) := by
  rw [JsNum.sqrt, if_neg (by norm_num), if_neg (by norm_num), log2_five]
  simp only []
  have he : max ((2 : ℤ) / 2) (-1022) - 52 = -51 := by norm_num
  rw [he, sqrtRound_five]

theorem sqrt_five : JsNum.sqrt (fin 5) = fin (629397181890197 / 281474976710656) := by
  rw [sqrt_five_raw]
  norm_num

theorem phi_eval : Meshes.phi = fin (910872158600853 / 562949953421312) := by
  have h1 := round64_eval false (1 + 629397181890197 / 281474976710656) 1
    7286977268806824 (by norm_num) (by norm_num) (by norm_num) (by norm_num) (by norm_num)
    (by norm_num) (by norm_num) (by norm_num)
  have e1 : JsNum.add (fin 1) (fin (629397181890197 / 281474976710656)) =
      fin (910872158600853 / 281474976710656) := by
    have : JsNum.add (fin 1) (fin (629397181890197 / 281474976710656)) =
        round64 false (1 + 629397181890197 / 281474976710656) := by
      simp [JsNum.add, isNaN, isFinite, toRat]
      norm_num [abs_of_pos]
    rw [this, h1]
    norm_num
  have h2 := round64_eval false ((910872158600853 / 281474976710656) / 2) 0
    7286977268806824 (by norm_num) (by norm_num) (by norm_num) (by norm_num) (by norm_num)
    (by norm_num) (by norm_num) (by norm_num)
  have e2 : JsNum.div (fin (910872158600853 / 281474976710656)) (fin 2) =
      round64 false ((910872158600853 / 281474976710656) / 2) := by
    simp [JsNum.div, isNaN, isFinite, isZero, signBit, toRat]
    norm_num [abs_of_pos]
  rw [Meshes.phi, sqrt_five, e1, e2, h2]
  norm_num

theorem b_eval : Meshes.b = fin (2186093180642047 / 4503599627370496) := by
  have h := round64_eval false
    ((5404319552844595 / 18014398509481984) * (910872158600853 / 562949953421312)) (-2)
    8744372722568188 (by norm_num) (by norm_num) (by norm_num) (by norm_num) (by norm_num)
    (by norm_num) (by norm_num) (by norm_num)
  have e : JsNum.mul (fin (5404319552844595 / 18014398509481984))
      (fin (910872158600853 / 562949953421312)) =
      round64 false
        ((5404319552844595 / 18014398509481984) * (910872158600853 / 562949953421312)) := by
    simp [JsNum.mul, isNaN, isFinite, signBit, toRat]
    norm_num [abs_of_pos]
  rw [Meshes.b, Meshes.a, ofRat_three_tenths, phi_eval, e, h]
  norm_num

end Values

/-! ### Closed oriented surfaces -/

theorem edge_mem_map {α β : Type} (f : α → β) (S : α → Prop)
    (hinj : ∀ x y, S x → S y → f x = f y → x = y) (tr : α × α × α)
    (htr : S tr.1 ∧ S tr.2.1 ∧ S tr.2.2) (x y : α) (hx : S x) (hy : S y) :
    (f x, f y) ∈ directedEdges (f tr.1, f tr.2.1, f tr.2.2) ↔ (x, y) ∈ directedEdges tr := by
  obtain ⟨h1, h2, h3⟩ := htr
  simp only [directedEdges, List.mem_cons, List.mem_singleton, List.not_mem_nil, or_false,
    Prod.mk.injEq]
  constructor
  · rintro (⟨a, b⟩ | ⟨a, b⟩ | ⟨a, b⟩)
    · exact Or.inl ⟨hinj _ _ hx h1 a, hinj _ _ hy h2 b⟩
    · exact Or.inr (Or.inl ⟨hinj _ _ hx h2 a, hinj _ _ hy h3 b⟩)
    · exact Or.inr (Or.inr ⟨hinj _ _ hx h3 a, hinj _ _ hy h1 b⟩)
  · rintro (⟨a, b⟩ | ⟨a, b⟩ | ⟨a, b⟩) <;> subst a <;> subst b <;> simp

theorem edgeCount_map {α β : Type} [DecidableEq α] [DecidableEq β] (f : α → β) (S : α → Prop)
    (hinj : ∀ x y, S x → S y → f x = f y → x = y) (ts : List (α × α × α))
    (hS : ∀ tr ∈ ts, S tr.1 ∧ S tr.2.1 ∧ S tr.2.2) (x y : α) (hx : S x) (hy : S y) :
    edgeCount (ts.map (fun tr => (f tr.1, f tr.2.1, f tr.2.2))) (f x, f y) =
      edgeCount ts (x, y) := by
  induction ts with
  | nil => rfl
  | cons tr rest ih =>
    have hrest : ∀ tr ∈ rest, S tr.1 ∧ S tr.2.1 ∧ S tr.2.2 :=
      fun t ht => hS t (List.mem_cons_of_mem _ ht)
    have htr := hS tr (List.mem_cons_self _ _)
    have hiff := edge_mem_map f S hinj tr htr x y hx hy
    have ih' := ih hrest
    unfold edgeCount at ih' ⊢
    rw [List.map_cons, List.filter_cons, List.filter_cons]
    by_cases hmem : (x, y) ∈ directedEdges tr
    · have hmem' := hiff.2 hmem
      simp only [hmem, hmem', decide_True, if_true, List.length_cons, ih']
    · have hmem' : ¬ (f x, f y) ∈ directedEdges (f tr.1, f tr.2.1, f tr.2.2) :=
        fun h => hmem (hiff.1 h)
      simp only [hmem, hmem', decide_False, Bool.false_eq_true, if_false, ih']

theorem closedOriented_map {α β : Type} [DecidableEq α] [DecidableEq β] (f : α → β)
    (S : α → Prop) (hinj : ∀ x y, S x → S y → f x = f y → x = y) (ts : List (α × α × α))
    (hS : ∀ tr ∈ ts, S tr.1 ∧ S tr.2.1 ∧ S tr.2.2) (h : closedOriented ts) :
    closedOriented (ts.map (fun tr => (f tr.1, f tr.2.1, f tr.2.2))) := by
  intro tr' htr' e he
  obtain ⟨tr, htr, rfl⟩ := List.mem_map.1 htr'
  obtain ⟨h1, h2, h3⟩ := hS tr htr
  simp only [directedEdges, List.mem_cons, List.mem_singleton, List.not_mem_nil,
    or_false] at he
  rcases he with rfl | rfl | rfl
  · have := h tr htr (tr.1, tr.2.1) (by simp [directedEdges])
    exact ⟨by rw [edgeCount_map f S hinj ts hS _ _ h1 h2]; exact this.1,
      by rw [edgeCount_map f S hinj ts hS _ _ h2 h1]; exact this.2⟩
  · have := h tr htr (tr.2.1, tr.2.2) (by simp [directedEdges])
    exact ⟨by rw [edgeCount_map f S hinj ts hS _ _ h2 h3]; exact this.1,
      by rw [edgeCount_map f S hinj ts hS _ _ h3 h2]; exact this.2⟩
  · have := h tr htr (tr.2.2, tr.1) (by simp [directedEdges])
    exact ⟨by rw [edgeCount_map f S hinj ts hS _ _ h3 h1]; exact this.1,
      by rw [edgeCount_map f S hinj ts hS _ _ h1 h3]; exact this.2⟩

theorem nondegenerate_map {α β : Type} (f : α → β)
    (S : α → Prop) (hinj : ∀ x y, S x → S y → f x = f y → x = y) (ts : List (α × α × α))
    (hS : ∀ tr ∈ ts, S tr.1 ∧ S tr.2.1 ∧ S tr.2.2) (h : nondegenerate ts) :
    nondegenerate (ts.map (fun tr => (f tr.1, f tr.2.1, f tr.2.2))) := by
  intro tr' htr'
  obtain ⟨tr, htr, rfl⟩ := List.mem_map.1 htr'
  obtain ⟨h1, h2, h3⟩ := hS tr htr
  obtain ⟨n1, n2, n3⟩ := h tr htr
  exact ⟨fun e => n1 (hinj _ _ h1 h2 e), fun e => n2 (hinj _ _ h2 h3 e),
    fun e => n3 (hinj _ _ h3 h1 e)⟩

theorem getD_injOn (verts : List Vec3) (hnd : verts.Nodup) (x y : ℕ)
    (hx : x < verts.length) (hy : y < verts.length)
    (h : verts.getD x Vec3.origin = verts.getD y Vec3.origin) : x = y := by
  rw [List.getD_eq_getElem _ _ hx, List.getD_eq_getElem _ _ hy] at h
  exact (List.Nodup.getElem_inj_iff hnd).1 h

/-- A mesh whose triangles are the label triples `ls` over pairwise distinct vertices is a
closed, consistently oriented, non-degenerate surface as soon as the label triples are. -/
theorem surface_of_labels (verts : List Vec3) (ls : List (ℕ × ℕ × ℕ)) (hnd : verts.Nodup)
    (hlt : ∀ l ∈ ls, l.1 < verts.length ∧ l.2.1 < verts.length ∧ l.2.2 < verts.length)
    (hc : closedOriented ls) (hn : nondegenerate ls) :
    closedOriented (ls.map (triangleAt verts)) ∧ nondegenerate (ls.map (triangleAt verts)) :=
  ⟨closedOriented_map (fun i => verts.getD i Vec3.origin) (fun i => i < verts.length)
      (fun x y hx hy h => getD_injOn verts hnd x y hx hy h) ls hlt hc,
    nondegenerate_map (fun i => verts.getD i Vec3.origin) (fun i => i < verts.length)
      (fun x y hx hy h => getD_injOn verts hnd x y hx hy h) ls hlt hn⟩

section Shipped

open JsNum

theorem diamond_triangles : triangles Meshes.diamondPos Meshes.diamondIdx =
    Meshes.diamondFaces.map (triangleAt Meshes.diamondVerts) := rfl

theorem cube_triangles : triangles Meshes.cubePos Meshes.cubeIdx =
    (faces Meshes.cubeIdx).map (triangleAt Meshes.cubePos) := rfl

theorem py_triangles : triangles Meshes.pyPos Meshes.pyIdx =
    (faces Meshes.pyIdx).map (triangleAt Meshes.pyPos) := rfl

theorem tetra_triangles : triangles Meshes.tetraPos Meshes.tetraIdx =
    (faces Meshes.tetraIdx).map (triangleAt Meshes.tetraPos) := rfl

theorem ico_triangles : triangles Meshes.icoPos Meshes.icoIdx =
    (faces Meshes.icoIdx).map (triangleAt Meshes.icoPos) := rfl

theorem cube_faces : faces Meshes.cubeIdx =
    [(0, 2, 1), (0, 3, 2), (4, 5, 6), (4, 6, 7), (0, 1, 5), (0, 5, 4), (2, 3, 7), (2, 7, 6),
      (0, 4, 7), (0, 7, 3), (1, 2, 6), (1, 6, 5)] := rfl

theorem py_faces : faces Meshes.pyIdx =
    [(0, 1, 2), (0, 2, 3), (0, 3, 4), (0, 4, 1), (1, 3, 2), (1, 4, 3)] := rfl

theorem tetra_faces : faces Meshes.tetraIdx =
    [(0, 1, 2), (0, 2, 3), (0, 3, 1), (1, 3, 2)] := rfl

theorem ico_faces : faces Meshes.icoIdx =
    [(0, 11, 5), (0, 5, 1), (0, 1, 7), (0, 7, 10), (0, 10, 11),
      (1, 5, 9), (5, 11, 4), (11, 10, 2), (10, 7, 6), (7, 1, 8),
      (3, 9, 4), (3, 4, 2), (3, 2, 6), (3, 6, 8), (3, 8, 9),
      (4, 9, 5), (2, 4, 11), (6, 2, 10), (8, 6, 7), (9, 8, 1)] := rfl

theorem diamond_winding :
    ∀ l ∈ Meshes.diamondFaces, winding (triangleAt Meshes.diamondVerts l) < 0 := by
  simp only [Meshes.diamondFaces, List.forall_mem_cons, List.not_mem_nil, triangleAt,
    Meshes.diamondVerts, Meshes.diamondTop, Meshes.diamondBottom, Meshes.diamondRing0,
    Meshes.diamondRing1, Meshes.diamondRing2, Meshes.diamondRing3, List.getD_cons_zero,
    List.getD_cons_succ, winding, toRat_neg, ofRat_four_fifths, ofRat_eleven_twentieths,
    toRat_fin]
  norm_num

theorem cube_winding :
    ∀ l ∈ faces Meshes.cubeIdx, 0 < winding (triangleAt Meshes.cubePos l) := by
  rw [cube_faces]
  simp only [List.forall_mem_cons, List.not_mem_nil, triangleAt, Meshes.cubePos, Meshes.s,
    List.getD_cons_zero, List.getD_cons_succ, winding, toRat_neg, ofRat_two_fifths,
    toRat_fin]
  norm_num

theorem py_winding :
    ∀ l ∈ faces Meshes.pyIdx, winding (triangleAt Meshes.pyPos l) < 0 := by
  rw [py_faces]
  simp only [List.forall_mem_cons, List.not_mem_nil, triangleAt, Meshes.pyPos,
    List.getD_cons_zero, List.getD_cons_succ, winding, toRat_neg, ofRat_three_fifths,
    ofRat_one_half, ofRat_three_tenths, toRat_fin]
  norm_num

theorem tetra_winding :
    ∀ l ∈ faces Meshes.tetraIdx, winding (triangleAt Meshes.tetraPos l) < 0 := by
  rw [tetra_faces]
  simp only [Meshes.tetraPos, tetra_back_z]
  simp only [List.forall_mem_cons, List.not_mem_nil, triangleAt, Meshes.t,
    List.getD_cons_zero, List.getD_cons_succ, winding, toRat_neg, ofRat_three_fifths,
    ofRat_one_half, ofRat_three_tenths, toRat_fin]
  norm_num

theorem ico_winding :
    ∀ l ∈ faces Meshes.icoIdx, 0 < winding (triangleAt Meshes.icoPos l) := by
  rw [ico_faces]
  simp only [List.forall_mem_cons, List.not_mem_nil, triangleAt, Meshes.icoPos, b_eval,
    Meshes.a,
    List.getD_cons_zero, List.getD_cons_succ, winding, toRat_neg, ofRat_three_tenths,
    toRat_fin]
  norm_num

theorem diamond_nodup : Meshes.diamondVerts.Nodup := by
  apply List.Nodup.of_map Vec3.coords
  simp only [Meshes.diamondVerts, Meshes.diamondTop, Meshes.diamondBottom,
    Meshes.diamondRing0, Meshes.diamondRing1, Meshes.diamondRing2, Meshes.diamondRing3,
    List.map, Vec3.coords, toRat_neg, ofRat_four_fifths, ofRat_eleven_twentieths,
    toRat_fin, List.nodup_cons, List.mem_cons, List.mem_singleton, List.not_mem_nil,
    Prod.mk.injEq]
  norm_num

theorem cube_nodup : Meshes.cubePos.Nodup := by
  apply List.Nodup.of_map Vec3.coords
  simp only [Meshes.cubePos, Meshes.s, List.map, Vec3.coords, toRat_neg, ofRat_two_fifths,
    toRat_fin, List.nodup_cons, List.mem_cons, List.mem_singleton, List.not_mem_nil,
    Prod.mk.injEq]
  norm_num

theorem py_nodup : Meshes.pyPos.Nodup := by
  apply List.Nodup.of_map Vec3.coords
  simp only [Meshes.pyPos, List.map, Vec3.coords, toRat_neg, ofRat_three_fifths,
    ofRat_one_half, ofRat_three_tenths,
    toRat_fin, List.nodup_cons, List.mem_cons, List.mem_singleton, List.not_mem_nil,
    Prod.mk.injEq]
  norm_num

theorem tetra_nodup : Meshes.tetraPos.Nodup := by
  apply List.Nodup.of_map Vec3.coords
  simp only [Meshes.tetraPos, tetra_back_z]
  simp only [Meshes.t, List.map, Vec3.coords, toRat_neg,
    ofRat_three_fifths, ofRat_one_half, ofRat_three_tenths,
    toRat_fin, List.nodup_cons, List.mem_cons, List.mem_singleton, List.not_mem_nil,
    Prod.mk.injEq]
  norm_num

theorem ico_nodup : Meshes.icoPos.Nodup := by
  apply List.Nodup.of_map Vec3.coords
  simp only [Meshes.icoPos, b_eval, Meshes.a, List.map, Vec3.coords, toRat_neg,
    ofRat_three_tenths,
    toRat_fin, List.nodup_cons, List.mem_cons, List.mem_singleton, List.not_mem_nil,
    Prod.mk.injEq]
  norm_num

theorem diamond_labels : closedOriented Meshes.diamondFaces ∧ nondegenerate Meshes.diamondFaces ∧
    ∀ l ∈ Meshes.diamondFaces, l.1 < 6 ∧ l.2.1 < 6 ∧ l.2.2 < 6 := by
  unfold closedOriented nondegenerate
  decide

theorem cube_labels : closedOriented (faces Meshes.cubeIdx) ∧
    nondegenerate (faces Meshes.cubeIdx) ∧
    ∀ l ∈ faces Meshes.cubeIdx, l.1 < 8 ∧ l.2.1 < 8 ∧ l.2.2 < 8 := by
  rw [cube_faces]
  unfold closedOriented nondegenerate
  decide

theorem py_labels : closedOriented (faces Meshes.pyIdx) ∧
    nondegenerate (faces Meshes.pyIdx) ∧
    ∀ l ∈ faces Meshes.pyIdx, l.1 < 5 ∧ l.2.1 < 5 ∧ l.2.2 < 5 := by
  rw [py_faces]
  unfold closedOriented nondegenerate
  decide

theorem tetra_labels : closedOriented (faces Meshes.tetraIdx) ∧
    nondegenerate (faces Meshes.tetraIdx) ∧
    ∀ l ∈ faces Meshes.tetraIdx, l.1 < 4 ∧ l.2.1 < 4 ∧ l.2.2 < 4 := by
  rw [tetra_faces]
  unfold closedOriented nondegenerate
  decide

set_option maxRecDepth 4000 in
theorem ico_labels : closedOriented (faces Meshes.icoIdx) ∧
    nondegenerate (faces Meshes.icoIdx) ∧
    ∀ l ∈ faces Meshes.icoIdx, l.1 < 12 ∧ l.2.1 < 12 ∧ l.2.2 < 12 := by
  rw [ico_faces]
  unfold closedOriented nondegenerate
  decide

end Shipped

/-- C18. Each of the five shipped meshes is a closed, consistently oriented triangle surface:
with vertices identified by position, every directed edge of every triangle lies in exactly
one triangle, its reverse lies in exactly one triangle, and the three corners of every
triangle are pairwise distinct; no index triple is lost in forming the triangles. -/
theorem C18_closed_oriented_surfaces (sin : JsNum → JsNum) :
    ∀ m ∈ shippedMeshes sin,
      closedOriented (triangles m.positions m.indices) ∧
      nondegenerate (triangles m.positions m.indices) ∧
      (triangles m.positions m.indices).length = m.indices.length / 3 := by
  obtain ⟨⟨_, d2⟩, ⟨_, c2⟩, ⟨_, p2⟩, ⟨_, t2⟩, ⟨_, i2⟩⟩ := shipped_lengths
  intro m hm
  simp only [shippedMeshes, List.mem_cons, List.mem_singleton, List.not_mem_nil,
    or_false] at hm
  rcases hm with h | h | h | h | h <;> subst h
  · obtain ⟨hc, hn, hlt⟩ := diamond_labels
    obtain ⟨r1, r2⟩ := surface_of_labels Meshes.diamondVerts Meshes.diamondFaces
      diamond_nodup hlt hc hn
    refine ⟨?_, ?_, ?_⟩
    · show closedOriented (triangles Meshes.diamondPos Meshes.diamondIdx)
      rw [diamond_triangles]; exact r1
    · show nondegenerate (triangles Meshes.diamondPos Meshes.diamondIdx)
      rw [diamond_triangles]; exact r2
    · show (triangles Meshes.diamondPos Meshes.diamondIdx).length = Meshes.diamondIdx.length / 3
      rw [diamond_triangles, List.length_map, d2]; rfl
  · obtain ⟨hc, hn, hlt⟩ := cube_labels
    obtain ⟨r1, r2⟩ := surface_of_labels Meshes.cubePos (faces Meshes.cubeIdx)
      cube_nodup hlt hc hn
    refine ⟨?_, ?_, ?_⟩
    · show closedOriented (triangles Meshes.cubePos Meshes.cubeIdx)
      rw [cube_triangles]; exact r1
    · show nondegenerate (triangles Meshes.cubePos Meshes.cubeIdx)
      rw [cube_triangles]; exact r2
    · show (triangles Meshes.cubePos Meshes.cubeIdx).length = Meshes.cubeIdx.length / 3
      rw [cube_triangles, List.length_map, cube_faces, c2]; rfl
  · obtain ⟨hc, hn, hlt⟩ := py_labels
    obtain ⟨r1, r2⟩ := surface_of_labels Meshes.pyPos (faces Meshes.pyIdx)
      py_nodup hlt hc hn
    refine ⟨?_, ?_, ?_⟩
    · show closedOriented (triangles Meshes.pyPos Meshes.pyIdx)
      rw [py_triangles]; exact r1
    · show nondegenerate (triangles Meshes.pyPos Meshes.pyIdx)
      rw [py_triangles]; exact r2
    · show (triangles Meshes.pyPos Meshes.pyIdx).length = Meshes.pyIdx.length / 3
      rw [py_triangles, List.length_map, py_faces, p2]; rfl
  · obtain ⟨hc, hn, hlt⟩ := tetra_labels
    obtain ⟨r1, r2⟩ := surface_of_labels Meshes.tetraPos (faces Meshes.tetraIdx)
      tetra_nodup hlt hc hn
    refine ⟨?_, ?_, ?_⟩
    · show closedOriented (triangles Meshes.tetraPos Meshes.tetraIdx)
      rw [tetra_triangles]; exact r1
    · show nondegenerate (triangles Meshes.tetraPos Meshes.tetraIdx)
      rw [tetra_triangles]; exact r2
    · show (triangles Meshes.tetraPos Meshes.tetraIdx).length = Meshes.tetraIdx.length / 3
      rw [tetra_triangles, List.length_map, tetra_faces, t2]; rfl
  · obtain ⟨hc, hn, hlt⟩ := ico_labels
    obtain ⟨r1, r2⟩ := surface_of_labels Meshes.icoPos (faces Meshes.icoIdx)
      ico_nodup hlt hc hn
    refine ⟨?_, ?_, ?_⟩
    · show closedOriented (triangles Meshes.icoPos Meshes.icoIdx)
      rw [ico_triangles]; exact r1
    · show nondegenerate (triangles Meshes.icoPos Meshes.icoIdx)
      rw [ico_triangles]; exact r2
    · show (triangles Meshes.icoPos Meshes.icoIdx).length = Meshes.icoIdx.length / 3
      rw [ico_triangles, List.length_map, ico_faces, i2]; rfl

/-- The instance of C18 at the Cube, with the identity in place of `Math.sin`. -/
theorem C18_closed_oriented_surfaces_witness :
    closedOriented (triangles Meshes.cubePos Meshes.cubeIdx) ∧
      nondegenerate (triangles Meshes.cubePos Meshes.cubeIdx) :=
  ⟨(C18_closed_oriented_surfaces id ⟨"Cube", Meshes.cubePos, Meshes.cubeIdx, Meshes.cubeCol⟩
      (by simp [shippedMeshes])).1,
    (C18_closed_oriented_surfaces id ⟨"Cube", Meshes.cubePos, Meshes.cubeIdx, Meshes.cubeCol⟩
      (by simp [shippedMeshes])).2.1⟩

/-- C19, evaluated on the code: the shipped meshes do not share one winding. For every
triangle of the Cube and of the Icosphere the face normal `(b - a) x (c - a)` has a positive
dot product with `a + b + c` (counter-clockwise seen from outside), but for every triangle
of the Diamond, the Pyramid and the Tetrahedron that dot product is negative (clockwise seen
from outside, against the outward per-vertex normals); the first Diamond triangle is
`(diamondTop, diamondRing[0], diamondRing[1])`. -/
theorem C19_winding_signs :
    (∀ tr ∈ triangles Meshes.diamondPos Meshes.diamondIdx, winding tr < 0) ∧
      (∀ tr ∈ triangles Meshes.cubePos Meshes.cubeIdx, 0 < winding tr) ∧
      (∀ tr ∈ triangles Meshes.pyPos Meshes.pyIdx, winding tr < 0) ∧
      (∀ tr ∈ triangles Meshes.tetraPos Meshes.tetraIdx, winding tr < 0) ∧
      (∀ tr ∈ triangles Meshes.icoPos Meshes.icoIdx, 0 < winding tr) ∧
      (triangles Meshes.diamondPos Meshes.diamondIdx)[0]? =
        some (Meshes.diamondTop, Meshes.diamondRing0, Meshes.diamondRing1) ∧
      winding (Meshes.diamondTop, Meshes.diamondRing0, Meshes.diamondRing1) < 0 := by
  have hd : ∀ tr ∈ triangles Meshes.diamondPos Meshes.diamondIdx, winding tr < 0 := by
    intro tr htr
    rw [diamond_triangles] at htr
    obtain ⟨l, hl, rfl⟩ := List.mem_map.1 htr
    exact diamond_winding l hl
  have h0 : winding (triangleAt Meshes.diamondVerts (0, 1, 2)) < 0 :=
    diamond_winding (0, 1, 2) (by decide)
  refine ⟨hd, ?_, ?_, ?_, ?_, rfl, h0⟩
  · intro tr htr
    rw [cube_triangles] at htr
    obtain ⟨l, hl, rfl⟩ := List.mem_map.1 htr
    exact cube_winding l hl
  · intro tr htr
    rw [py_triangles] at htr
    obtain ⟨l, hl, rfl⟩ := List.mem_map.1 htr
    exact py_winding l hl
  · intro tr htr
    rw [tetra_triangles] at htr
    obtain ⟨l, hl, rfl⟩ := List.mem_map.1 htr
    exact tetra_winding l hl
  · intro tr htr
    rw [ico_triangles] at htr
    obtain ⟨l, hl, rfl⟩ := List.mem_map.1 htr
    exact ico_winding l hl

/-! ### Rounding to binary32 and reading floats back -/

section Rounding32

open JsNum

theorem roundMag_eq (prec : ℕ) (emin emax : ℤ) (m : ℚ) :
    roundMag prec emin emax m =
      if m = 0 then some 0
      else if (2 : ℚ) ^ (emax + 1) ≤ roundedMag prec emin m then none
      else some (roundedMag prec emin m) := rfl

theorem roundedMag_nonneg (prec : ℕ) (emin : ℤ) (m : ℚ) (hm : 0 ≤ m) :
    0 ≤ roundedMag prec emin m := by
  unfold roundedMag
  apply mul_nonneg _ (by positivity)
  have h0 : (0 : ℚ) ≤ m / (2 : ℚ) ^ ulpExp prec emin m := div_nonneg hm (by positivity)
  have := roundHalfEven_mono h0
  have e0 : roundHalfEven (0 : ℚ) = 0 := by
    have := roundHalfEven_intCast 0
    simpa using this
  rw [e0] at this
  exact_mod_cast this

/-- Rounding to binary32 is monotone on positive magnitudes. -/
theorem roundedMag32_mono (m1 m2 : ℚ) (h0 : 0 < m1) (h : m1 ≤ m2) :
    roundedMag 24 (-126) m1 ≤ roundedMag 24 (-126) m2 := by
  have h2 : 0 < m2 := lt_of_lt_of_le h0 h
  obtain ⟨a1, a2⟩ := log2_bounds h0
  obtain ⟨b1, b2⟩ := log2_bounds h2
  have hL : Int.log 2 m1 ≤ Int.log 2 m2 := Int.log_mono_right h0 h
  set L1 := Int.log 2 m1
  set L2 := Int.log 2 m2
  have hu1 : ulpExp 24 (-126) m1 = max L1 (-126) - 23 := by
    unfold ulpExp; norm_num
  have hu2 : ulpExp 24 (-126) m2 = max L2 (-126) - 23 := by
    unfold ulpExp; norm_num
  unfold roundedMag
  rw [hu1, hu2]
  set E1 := max L1 (-126) with hE1
  set E2 := max L2 (-126) with hE2
  have hE : E1 ≤ E2 := max_le_max hL le_rfl
  have p1 : (0 : ℚ) < (2 : ℚ) ^ (E1 - 23) := by positivity
  have p2 : (0 : ℚ) < (2 : ℚ) ^ (E2 - 23) := by positivity
  rcases eq_or_lt_of_le hE with heq | hlt
  · rw [← heq]
    apply mul_le_mul_of_nonneg_right _ (le_of_lt p1)
    have : m1 / (2 : ℚ) ^ (E1 - 23) ≤ m2 / (2 : ℚ) ^ (E1 - 23) :=
      div_le_div_of_nonneg_right h (le_of_lt p1)
    exact_mod_cast roundHalfEven_mono this
  · -- the rounded value of `m1` is at most `2 ^ (E1 + 1)`
    have hup : (roundHalfEven (m1 / (2 : ℚ) ^ (E1 - 23)) : ℚ) * (2 : ℚ) ^ (E1 - 23) ≤
        (2 : ℚ) ^ (E1 + 1) := by
      have hx : m1 / (2 : ℚ) ^ (E1 - 23) ≤ ((16777216 : ℤ) : ℚ) := by
        rw [div_le_iff₀ p1]
        have : ((16777216 : ℤ) : ℚ) * (2 : ℚ) ^ (E1 - 23) = (2 : ℚ) ^ (E1 + 1) := by
          have h24 : ((16777216 : ℤ) : ℚ) = (2 : ℚ) ^ (24 : ℤ) := by norm_num
          rw [h24, ← zpow_add₀ (by norm_num : (2 : ℚ) ≠ 0)]; congr 1; ring
        rw [this]
        calc m1 ≤ (2 : ℚ) ^ (L1 + 1) := le_of_lt a2
          _ ≤ (2 : ℚ) ^ (E1 + 1) := by
              apply zpow_le_zpow_right₀ (by norm_num)
              have : L1 ≤ E1 := le_max_left _ _
              omega
      have hk := roundHalfEven_mono hx
      rw [roundHalfEven_intCast] at hk
      have hkq : (roundHalfEven (m1 / (2 : ℚ) ^ (E1 - 23)) : ℚ) ≤ (2 : ℚ) ^ (24 : ℤ) := by
        have : (roundHalfEven (m1 / (2 : ℚ) ^ (E1 - 23)) : ℚ) ≤ ((16777216 : ℤ) : ℚ) := by
          exact_mod_cast hk
        calc _ ≤ ((16777216 : ℤ) : ℚ) := this
          _ = (2 : ℚ) ^ (24 : ℤ) := by norm_num
      calc (roundHalfEven (m1 / (2 : ℚ) ^ (E1 - 23)) : ℚ) * (2 : ℚ) ^ (E1 - 23)
          ≤ (2 : ℚ) ^ (24 : ℤ) * (2 : ℚ) ^ (E1 - 23) :=
            mul_le_mul_of_nonneg_right hkq (le_of_lt p1)
        _ = (2 : ℚ) ^ (E1 + 1) := by
            rw [← zpow_add₀ (by norm_num : (2 : ℚ) ≠ 0)]; congr 1; ring
    -- the rounded value of `m2` is at least `2 ^ E2`
    have hE2L : E2 = L2 := by
      have h126 : (-126 : ℤ) ≤ E1 := le_max_right _ _
      rw [hE2]
      apply max_eq_left
      by_contra hc
      push_neg at hc
      have : E2 = -126 := by rw [hE2]; exact max_eq_right (le_of_lt hc)
      omega
    have hlow : (2 : ℚ) ^ E2 ≤
        (roundHalfEven (m2 / (2 : ℚ) ^ (E2 - 23)) : ℚ) * (2 : ℚ) ^ (E2 - 23) := by
      have hx : ((8388608 : ℤ) : ℚ) ≤ m2 / (2 : ℚ) ^ (E2 - 23) := by
        rw [le_div_iff₀ p2]
        have : ((8388608 : ℤ) : ℚ) * (2 : ℚ) ^ (E2 - 23) = (2 : ℚ) ^ E2 := by
          have h23 : ((8388608 : ℤ) : ℚ) = (2 : ℚ) ^ (23 : ℤ) := by norm_num
          rw [h23, ← zpow_add₀ (by norm_num : (2 : ℚ) ≠ 0)]; congr 1; ring
        rw [this, hE2L]
        exact b1
      have hk := roundHalfEven_mono hx
      rw [roundHalfEven_intCast] at hk
      have hkq : (2 : ℚ) ^ (23 : ℤ) ≤ (roundHalfEven (m2 / (2 : ℚ) ^ (E2 - 23)) : ℚ) := by
        have : ((8388608 : ℤ) : ℚ) ≤ (roundHalfEven (m2 / (2 : ℚ) ^ (E2 - 23)) : ℚ) := by
          exact_mod_cast hk
        calc (2 : ℚ) ^ (23 : ℤ) = ((8388608 : ℤ) : ℚ) := by norm_num
          _ ≤ _ := this
      calc (2 : ℚ) ^ E2 = (2 : ℚ) ^ (23 : ℤ) * (2 : ℚ) ^ (E2 - 23) := by
            rw [← zpow_add₀ (by norm_num : (2 : ℚ) ≠ 0)]; congr 1; ring
        _ ≤ _ := mul_le_mul_of_nonneg_right hkq (le_of_lt p2)
    calc _ ≤ (2 : ℚ) ^ (E1 + 1) := hup
      _ ≤ (2 : ℚ) ^ E2 := by
          apply zpow_le_zpow_right₀ (by norm_num); omega
      _ ≤ _ := hlow

theorem roundedMag_zero (prec : ℕ) (emin : ℤ) : roundedMag prec emin 0 = 0 := by
  simp [roundedMag, roundHalfEven]

theorem rounded32_mono (q1 q2 : ℚ) (h : q1 ≤ q2) : rounded32 q1 ≤ rounded32 q2 := by
  unfold rounded32
  by_cases h1 : q1 < 0
  · by_cases h2 : q2 < 0
    · rw [if_pos h1, if_pos h2]
      have := roundedMag32_mono |q2| |q1| (abs_pos.2 (ne_of_lt h2))
        (by rw [abs_of_neg h1, abs_of_neg h2]; linarith)
      linarith
    · rw [if_pos h1, if_neg h2]
      have a1 := roundedMag_nonneg 24 (-126) |q1| (abs_nonneg _)
      have a2 := roundedMag_nonneg 24 (-126) |q2| (abs_nonneg _)
      linarith
  · have h2 : ¬ q2 < 0 := by push_neg at h1 ⊢; linarith
    rw [if_neg h1, if_neg h2]
    push_neg at h1 h2
    rcases eq_or_lt_of_le h1 with e | l
    · rw [← e, abs_zero, roundedMag_zero]
      exact roundedMag_nonneg 24 (-126) |q2| (abs_nonneg _)
    · exact roundedMag32_mono |q1| |q2| (abs_pos.2 (ne_of_gt l))
        (by rw [abs_of_pos l, abs_of_nonneg h2]; exact h)

/-- The three outcomes of `fround` on a nonzero finite number. -/
theorem fround_fin_eq (q : ℚ) (h0 : q ≠ 0) :
    fround (fin q) =
      if (340282366920938463463374607431768211456 : ℚ) ≤ roundedMag 24 (-126) |q| then
        infOf (decide (q < 0))
      else if roundedMag 24 (-126) |q| = 0 then zeroOf (decide (q < 0))
      else fin (if decide (q < 0) = true then -roundedMag 24 (-126) |q|
        else roundedMag 24 (-126) |q|) := by
  have hT : (2 : ℚ) ^ ((127 : ℤ) + 1) = 340282366920938463463374607431768211456 := by norm_num
  have hm : |q| ≠ 0 := abs_ne_zero.2 h0
  show roundTo 24 (-126) 127 (decide (q < 0)) |q| = _
  unfold roundTo
  rw [roundMag_eq, if_neg hm, hT]
  by_cases hov : (340282366920938463463374607431768211456 : ℚ) ≤ roundedMag 24 (-126) |q|
  · rw [if_pos hov, if_pos hov]
  · rw [if_neg hov, if_neg hov]

/-- What `fround` returns on a finite number, in terms of the signed rounded value. -/
theorem fround_spec (a : JsNum) (ha : a.isFinite = true) :
    ((340282366920938463463374607431768211456 : ℚ) ≤ rounded32 a.toRat ∧ fround a = posInf) ∨
    (rounded32 a.toRat ≤ -340282366920938463463374607431768211456 ∧ fround a = negInf) ∨
    ((fround a).isFinite = true ∧ (fround a).toRat = rounded32 a.toRat ∧
      -340282366920938463463374607431768211456 < rounded32 a.toRat ∧
      rounded32 a.toRat < 340282366920938463463374607431768211456) := by
  have hT : (2 : ℚ) ^ ((127 : ℤ) + 1) = 340282366920938463463374607431768211456 := by norm_num
  cases a with
  | nan => simp [JsNum.isFinite] at ha
  | posInf => simp [JsNum.isFinite] at ha
  | negInf => simp [JsNum.isFinite] at ha
  | negZero =>
    right; right
    have e : rounded32 (negZero).toRat = 0 := by
      show rounded32 0 = 0
      simp [rounded32, roundedMag_zero]
    rw [e]
    exact ⟨rfl, rfl, by norm_num, by norm_num⟩
  | fin q =>
    rw [toRat_fin]
    by_cases h0 : q = 0
    · subst h0
      right; right
      rw [fround_zero]
      have e : rounded32 0 = 0 := by simp [rounded32, roundedMag_zero]
      rw [e]
      exact ⟨rfl, rfl, by norm_num, by norm_num⟩
    · have hm : |q| ≠ 0 := abs_ne_zero.2 h0
      have hnn := roundedMag_nonneg 24 (-126) |q| (abs_nonneg _)
      have hf := fround_fin_eq q h0
      rw [hf]
      by_cases hov : (340282366920938463463374607431768211456 : ℚ) ≤ roundedMag 24 (-126) |q|
      · rw [if_pos hov]
        by_cases hq : q < 0
        · right; left
          simp only [rounded32, if_pos hq, hq, decide_True, infOf, if_true]
          exact ⟨by linarith, trivial⟩
        · left
          simp only [rounded32, if_neg hq, hq, decide_False, infOf]
          exact ⟨hov, by simp⟩
      · rw [if_neg hov]
        right; right
        push_neg at hov
        have hb : -340282366920938463463374607431768211456 < rounded32 q ∧
            rounded32 q < 340282366920938463463374607431768211456 := by
          unfold rounded32
          by_cases hq : q < 0
          · rw [if_pos hq]; constructor <;> linarith
          · rw [if_neg hq]; constructor <;> linarith
        refine ⟨?_, ?_, hb⟩
        · by_cases hr : roundedMag 24 (-126) |q| = 0
          · by_cases hq : q < 0
            · simp [hq, hr, zeroOf, JsNum.isFinite]
            · simp [hq, hr, zeroOf, JsNum.isFinite]
          · by_cases hq : q < 0
            · simp [hq, hr, JsNum.isFinite]
            · simp [hq, hr, JsNum.isFinite]
        · by_cases hr : roundedMag 24 (-126) |q| = 0
          · by_cases hq : q < 0
            · simp [rounded32, hq, hr, zeroOf, JsNum.toRat]
            · simp [rounded32, hq, hr, zeroOf, JsNum.toRat]
          · by_cases hq : q < 0
            · simp [rounded32, hq, hr, JsNum.toRat]
            · simp [rounded32, hq, hr, JsNum.toRat]

/-- Rounding to binary32 preserves `<=` between finite numbers. -/
theorem fround_le (a b : JsNum) (ha : a.isFinite = true) (hb : b.isFinite = true)
    (h : JsNum.le a b = true) : JsNum.le (fround a) (fround b) = true := by
  have hab := rounded32_mono _ _ ((JsNum.le_iff a b ha hb).1 h)
  rcases fround_spec a ha with ⟨a1, a2⟩ | ⟨a1, a2⟩ | ⟨a1, a2, a3, a4⟩ <;>
    rcases fround_spec b hb with ⟨b1, b2⟩ | ⟨b1, b2⟩ | ⟨b1, b2, b3, b4⟩
  · rw [a2, b2]; rfl
  · linarith
  · linarith
  · rw [a2, b2]; rfl
  · rw [a2, b2]; rfl
  · rw [a2]; revert b1; cases fround b <;> simp [JsNum.isFinite, JsNum.le, JsNum.lt]
  · rw [b2]; revert a1; cases fround a <;> simp [JsNum.isFinite, JsNum.le, JsNum.lt]
  · linarith
  · rw [JsNum.le_iff _ _ a1 b1, a2, b2]; exact hab

/-- A nonzero value rounded to binary32 is a natural multiple of the unit in the last place
of its own binade. -/
theorem roundedMag32_grid (m : ℚ) (hm : 0 < m) (hr : roundedMag 24 (-126) m ≠ 0) :
    ∃ N : ℕ, roundedMag 24 (-126) m =
      (N : ℚ) * (2 : ℚ) ^ (max (Int.log 2 (roundedMag 24 (-126) m)) (-126) - 23) := by
  have hnn := roundedMag_nonneg 24 (-126) m (le_of_lt hm)
  have hpos : 0 < roundedMag 24 (-126) m := lt_of_le_of_ne hnn (Ne.symm hr)
  obtain ⟨a1, a2⟩ := log2_bounds hm
  set L := Int.log 2 m
  have hu : ulpExp 24 (-126) m = max L (-126) - 23 := by
    unfold ulpExp; norm_num
  have hdef : roundedMag 24 (-126) m =
      (roundHalfEven (m / (2 : ℚ) ^ (max L (-126) - 23)) : ℚ) *
        (2 : ℚ) ^ (max L (-126) - 23) := by
    unfold roundedMag; rw [hu]
  set u := max L (-126) - 23 with hu2
  set n := roundHalfEven (m / (2 : ℚ) ^ u) with hn
  have pu : (0 : ℚ) < (2 : ℚ) ^ u := by positivity
  have hn0 : 0 < n := by
    have : (0 : ℚ) < (n : ℚ) * (2 : ℚ) ^ u := by rw [← hdef]; exact hpos
    have : (0 : ℚ) < (n : ℚ) := pos_of_mul_pos_left this (le_of_lt pu)
    exact_mod_cast this
  have hcast : ((n.toNat : ℕ) : ℚ) = (n : ℚ) := by
    have : ((n.toNat : ℤ)) = n := Int.toNat_of_nonneg (le_of_lt hn0)
    exact_mod_cast this
  by_cases hL : L < -126
  · have hu3 : u = -149 := by
      rw [hu2, max_eq_right (le_of_lt hL)]; norm_num
    have hx : m / (2 : ℚ) ^ u ≤ ((8388608 : ℤ) : ℚ) := by
      rw [div_le_iff₀ pu, hu3]
      have : ((8388608 : ℤ) : ℚ) * (2 : ℚ) ^ (-149 : ℤ) = (2 : ℚ) ^ (-126 : ℤ) := by
        have h23 : ((8388608 : ℤ) : ℚ) = (2 : ℚ) ^ (23 : ℤ) := by norm_num
        rw [h23, ← zpow_add₀ (by norm_num : (2 : ℚ) ≠ 0)]; norm_num
      rw [this]
      calc m ≤ (2 : ℚ) ^ (L + 1) := le_of_lt a2
        _ ≤ (2 : ℚ) ^ (-126 : ℤ) := zpow_le_zpow_right₀ (by norm_num) (by omega)
    have hk := roundHalfEven_mono hx
    rw [roundHalfEven_intCast] at hk
    have hkq : (n : ℚ) ≤ (2 : ℚ) ^ (23 : ℤ) := by
      have : (n : ℚ) ≤ ((8388608 : ℤ) : ℚ) := by exact_mod_cast hk
      calc (n : ℚ) ≤ ((8388608 : ℤ) : ℚ) := this
        _ = (2 : ℚ) ^ (23 : ℤ) := by norm_num
    have hle : roundedMag 24 (-126) m < (2 : ℚ) ^ ((-126 : ℤ) + 1) := by
      rw [hdef, hu3]
      calc (n : ℚ) * (2 : ℚ) ^ (-149 : ℤ) ≤ (2 : ℚ) ^ (23 : ℤ) * (2 : ℚ) ^ (-149 : ℤ) :=
            mul_le_mul_of_nonneg_right hkq (by positivity)
        _ = (2 : ℚ) ^ (-126 : ℤ) := by
            rw [← zpow_add₀ (by norm_num : (2 : ℚ) ≠ 0)]; norm_num
        _ < (2 : ℚ) ^ ((-126 : ℤ) + 1) := zpow_lt_zpow_right₀ (by norm_num) (by norm_num)
    have hlog : Int.log 2 (roundedMag 24 (-126) m) < -126 + 1 := by
      rw [← Int.lt_zpow_iff_log_lt (by norm_num) hpos]
      exact_mod_cast hle
    refine ⟨n.toNat, ?_⟩
    rw [max_eq_right (by omega), hcast]
    rw [hdef, hu3]; norm_num
  · push_neg at hL
    have hu3 : u = L - 23 := by rw [hu2, max_eq_left hL]
    have e24 : ((16777216 : ℤ) : ℚ) * (2 : ℚ) ^ (L - 23) = (2 : ℚ) ^ (L + 1) := by
      have h24 : ((16777216 : ℤ) : ℚ) = (2 : ℚ) ^ (24 : ℤ) := by norm_num
      rw [h24, ← zpow_add₀ (by norm_num : (2 : ℚ) ≠ 0)]; congr 1; ring
    have e23 : ((8388608 : ℤ) : ℚ) * (2 : ℚ) ^ (L - 23) = (2 : ℚ) ^ L := by
      have h23 : ((8388608 : ℤ) : ℚ) = (2 : ℚ) ^ (23 : ℤ) := by norm_num
      rw [h23, ← zpow_add₀ (by norm_num : (2 : ℚ) ≠ 0)]; congr 1; ring
    have hx : m / (2 : ℚ) ^ u ≤ ((16777216 : ℤ) : ℚ) := by
      rw [div_le_iff₀ pu, hu3, e24]; exact le_of_lt a2
    have hy : ((8388608 : ℤ) : ℚ) ≤ m / (2 : ℚ) ^ u := by
      rw [le_div_iff₀ pu, hu3, e23]; exact a1
    have hk := roundHalfEven_mono hx
    have hj := roundHalfEven_mono hy
    rw [roundHalfEven_intCast] at hk hj
    have hjq : ((8388608 : ℤ) : ℚ) ≤ (n : ℚ) := by exact_mod_cast hj
    have hlo : (2 : ℚ) ^ L ≤ roundedMag 24 (-126) m := by
      rw [hdef, hu3, ← e23]
      exact mul_le_mul_of_nonneg_right hjq (by positivity)
    rcases eq_or_lt_of_le hk with heq | hlt
    · have hval : roundedMag 24 (-126) m = (2 : ℚ) ^ (L + 1) := by
        rw [hdef, hu3, ← e24]
        congr 1
        exact_mod_cast heq
      have hlog : Int.log 2 (roundedMag 24 (-126) m) = L + 1 := by
        apply log2_eq hpos
        · rw [hval]
        · rw [hval]; exact zpow_lt_zpow_right₀ (by norm_num) (by omega)
      refine ⟨8388608, ?_⟩
      rw [hlog, max_eq_left (by omega), hval]
      have h23 : ((8388608 : ℕ) : ℚ) = (2 : ℚ) ^ (23 : ℤ) := by norm_num
      rw [h23, ← zpow_add₀ (by norm_num : (2 : ℚ) ≠ 0)]; congr 1; ring
    · have hlog : Int.log 2 (roundedMag 24 (-126) m) = L := by
        apply log2_eq hpos hlo
        rw [hdef, hu3, ← e24]
        apply mul_lt_mul_of_pos_right _ (by positivity)
        exact_mod_cast hlt
      refine ⟨n.toNat, ?_⟩
      rw [hlog, max_eq_left hL, hcast, hdef, hu3]

/-- The value of a bit pattern given by its sign, exponent and fraction fields. -/
theorem f32Value_fields (s e m : ℕ) (hs : s < 2) (he : e < 256) (hm : m < 8388608) :
    f32Value (s * 2147483648 + e * 8388608 + m) =
      if e = 255 then (if m = 0 then JsNum.infOf (decide (s = 1)) else JsNum.nan)
      else if e = 0 then
        (if m = 0 then JsNum.zeroOf (decide (s = 1))
         else JsNum.fin ((if decide (s = 1) = true then -1 else 1) * (m : ℚ)
            * (2 : ℚ) ^ (-149 : ℤ)))
      else JsNum.fin ((if decide (s = 1) = true then -1 else 1) * ((8388608 + m : ℕ) : ℚ)
        * (2 : ℚ) ^ ((e : ℤ) - 150)) := by
  have h1 : (s * 2147483648 + e * 8388608 + m) / 0x80000000 % 2 = s := by omega
  have h2 : (s * 2147483648 + e * 8388608 + m) / 0x800000 % 256 = e := by omega
  have h3 : (s * 2147483648 + e * 8388608 + m) % 0x800000 = m := by omega
  unfold f32Value
  simp only [h1, h2, h3]

/-- Encoding a binary32 value and decoding the bit pattern gives the value back. -/
theorem f32Value_f32BitsFin (r : ℚ) (hpos : 0 < r)
    (hlt : r < 340282366920938463463374607431768211456) (N : ℕ)
    (hN : r = (N : ℚ) * (2 : ℚ) ^ (max (Int.log 2 r) (-126) - 23)) (neg : Bool) :
    f32BitsFin (if neg = true then -r else r) < 4294967296 ∧
      f32Value (f32BitsFin (if neg = true then -r else r)) =
        JsNum.fin (if neg = true then -r else r) := by
  set q := if neg = true then -r else r with hq
  have habs : |q| = r := by
    rw [hq]; cases neg
    · simp [abs_of_pos hpos]
    · simp [abs_of_pos hpos]
  have hq0 : q ≠ 0 := by
    intro h; rw [h, abs_zero] at habs; linarith
  have hneg : (q < 0) ↔ neg = true := by
    rw [hq]; cases neg
    · simp; linarith
    · simp; linarith
  have hN0 : 0 < N := by
    rcases Nat.eq_zero_or_pos N with h | h
    · rw [h] at hN; simp at hN; linarith
    · exact h
  have hsign : (if q < 0 then (0x80000000 : ℕ) else 0) = (if neg = true then 1 else 0) * 2147483648 := by
    cases neg
    · have : ¬ q < 0 := by rw [hneg]; simp
      simp [this]
    · have : q < 0 := by rw [hneg]
      simp [this]
  have hs2 : (if neg = true then 1 else 0) < 2 := by cases neg <;> simp
  have hdec : decide ((if neg = true then 1 else 0) = 1) = neg := by cases neg <;> simp
  obtain ⟨b1, b2⟩ := log2_bounds hpos
  by_cases hL : Int.log 2 r < -126
  · rw [max_eq_right (le_of_lt hL)] at hN
    have hN' : r = (N : ℚ) * (2 : ℚ) ^ (-149 : ℤ) := by rw [hN]; norm_num
    have hfl : ⌊|q| * (2 : ℚ) ^ (149 : ℕ)⌋₊ = N := by
      rw [habs, hN']
      have : (N : ℚ) * (2 : ℚ) ^ (-149 : ℤ) * (2 : ℚ) ^ (149 : ℕ) = (N : ℚ) := by
        rw [mul_assoc]
        have : (2 : ℚ) ^ (-149 : ℤ) * (2 : ℚ) ^ (149 : ℕ) = 1 := by
          rw [← zpow_natCast, ← zpow_add₀ (by norm_num : (2 : ℚ) ≠ 0)]; norm_num
        rw [this, mul_one]
      rw [this, Nat.floor_natCast]
    have hNlt : N < 8388608 := by
      have h1 : r < (2 : ℚ) ^ (-126 : ℤ) := by
        have := (Int.lt_zpow_iff_log_lt (b := 2) (by norm_num) hpos (x := -126)).2 hL
        exact_mod_cast this
      rw [hN'] at h1
      have h2 : (N : ℚ) < (2 : ℚ) ^ (-126 : ℤ) / (2 : ℚ) ^ (-149 : ℤ) := by
        rw [lt_div_iff₀ (by positivity)]; exact h1
      have h3 : (2 : ℚ) ^ (-126 : ℤ) / (2 : ℚ) ^ (-149 : ℤ) = ((8388608 : ℕ) : ℚ) := by
        rw [← zpow_sub₀ (by norm_num : (2 : ℚ) ≠ 0)]; norm_num
      rw [h3] at h2
      exact_mod_cast h2
    have hbits : f32BitsFin q = (if neg = true then 1 else 0) * 2147483648 + 0 * 8388608 + N := by
      rw [f32BitsFin, if_neg hq0, habs, if_pos hL, hsign, ← habs, hfl]
      omega
    rw [hbits]
    refine ⟨by omega, ?_⟩
    rw [f32Value_fields _ 0 N hs2 (by norm_num) hNlt, if_neg (by norm_num), if_pos rfl,
      if_neg (by omega), hdec]
    congr 1
    rw [hq, hN']
    cases neg <;> simp
  · push_neg at hL
    rw [max_eq_left hL] at hN
    set L := Int.log 2 r with hLdef
    have pu : (0 : ℚ) < (2 : ℚ) ^ (L - 23) := by positivity
    have hfl : ⌊|q| / (2 : ℚ) ^ (L - 23)⌋₊ = N := by
      rw [habs]
      have : r / (2 : ℚ) ^ (L - 23) = (N : ℚ) := by
        rw [div_eq_iff (ne_of_gt pu)]; exact hN
      rw [this, Nat.floor_natCast]
    have hNlo : 8388608 ≤ N := by
      have h1 : (2 : ℚ) ^ L ≤ (N : ℚ) * (2 : ℚ) ^ (L - 23) := by rw [← hN]; exact b1
      have h2 : (2 : ℚ) ^ L / (2 : ℚ) ^ (L - 23) ≤ (N : ℚ) := by
        rw [div_le_iff₀ pu]; exact h1
      have h3 : (2 : ℚ) ^ L / (2 : ℚ) ^ (L - 23) = ((8388608 : ℕ) : ℚ) := by
        rw [← zpow_sub₀ (by norm_num : (2 : ℚ) ≠ 0)]
        have : L - (L - 23) = 23 := by ring
        rw [this]; norm_num
      rw [h3] at h2
      exact_mod_cast h2
    have hNhi : N < 16777216 := by
      have h1 : (N : ℚ) * (2 : ℚ) ^ (L - 23) < (2 : ℚ) ^ (L + 1) := by rw [← hN]; exact b2
      have h2 : (N : ℚ) < (2 : ℚ) ^ (L + 1) / (2 : ℚ) ^ (L - 23) := by
        rw [lt_div_iff₀ pu]; exact h1
      have h3 : (2 : ℚ) ^ (L + 1) / (2 : ℚ) ^ (L - 23) = ((16777216 : ℕ) : ℚ) := by
        rw [← zpow_sub₀ (by norm_num : (2 : ℚ) ≠ 0)]
        have : L + 1 - (L - 23) = 24 := by ring
        rw [this]; norm_num
      rw [h3] at h2
      exact_mod_cast h2
    have hLhi : L < 128 := by
      have : r < (2 : ℚ) ^ (128 : ℤ) := by
        calc r < 340282366920938463463374607431768211456 := hlt
          _ = (2 : ℚ) ^ (128 : ℤ) := by norm_num
      have := (Int.lt_zpow_iff_log_lt (b := 2) (by norm_num) hpos (x := 128)).1
        (by exact_mod_cast this)
      exact this
    have hbits : f32BitsFin q = (if neg = true then 1 else 0) * 2147483648
        + (L + 127).toNat * 8388608 + (N - 8388608) := by
      have hlogq : Int.log 2 |q| = L := by rw [habs]
      rw [f32BitsFin, if_neg hq0, hlogq, if_neg (not_lt.2 hL), hsign, hfl]
    rw [hbits]
    have he1 : (L + 127).toNat < 255 := by omega
    have he0 : (L + 127).toNat ≠ 0 := by omega
    refine ⟨by omega, ?_⟩
    rw [f32Value_fields _ _ _ hs2 (by omega) (by omega), if_neg (by omega), if_neg he0, hdec]
    congr 1
    have e0 : 8388608 + (N - 8388608) = N := by omega
    have e1 : ((8388608 + (N - 8388608) : ℕ) : ℚ) = (N : ℚ) := by rw [e0]
    have e2 : (((L + 127).toNat : ℤ)) - 150 = L - 23 := by
      rw [Int.toNat_of_nonneg (by omega)]; ring
    rw [e1, e2, hq, hN]
    cases neg <;> simp

/-- Every number rounded to binary32 has a 32-bit pattern that decodes to it. -/
theorem f32Value_f32Bits_fround (v : JsNum) :
    f32Bits (fround v) < 4294967296 ∧ f32Value (f32Bits (fround v)) = fround v := by
  cases v with
  | nan => exact ⟨by decide, by simp [fround, f32Bits, f32Value]⟩
  | posInf => exact ⟨by decide, by simp [fround, f32Bits, f32Value, infOf]⟩
  | negInf => exact ⟨by decide, by simp [fround, f32Bits, f32Value, infOf]⟩
  | negZero => exact ⟨by decide, by simp [fround, f32Bits, f32Value, zeroOf]⟩
  | fin q =>
    by_cases h0 : q = 0
    · subst h0
      rw [fround_zero]
      exact ⟨by simp [f32Bits, f32BitsFin], by simp [f32Bits, f32BitsFin, f32Value, zeroOf]⟩
    · rw [fround_fin_eq q h0]
      by_cases hov : (340282366920938463463374607431768211456 : ℚ) ≤ roundedMag 24 (-126) |q|
      · rw [if_pos hov]
        by_cases hq : q < 0
        · simp [hq, infOf, f32Bits, f32Value]
        · simp [hq, infOf, f32Bits, f32Value]
      · rw [if_neg hov]
        by_cases hr : roundedMag 24 (-126) |q| = 0
        · rw [if_pos hr]
          by_cases hq : q < 0
          · simp [hq, zeroOf, f32Bits, f32Value]
          · simp [hq, zeroOf, f32Bits, f32BitsFin, f32Value]
        · rw [if_neg hr]
          have hm : 0 < |q| := abs_pos.2 h0
          have hpos : 0 < roundedMag 24 (-126) |q| :=
            lt_of_le_of_ne (roundedMag_nonneg 24 (-126) |q| (le_of_lt hm)) (Ne.symm hr)
          obtain ⟨N, hN⟩ := roundedMag32_grid |q| hm hr
          exact f32Value_f32BitsFin _ hpos (not_le.1 hov) N hN (decide (q < 0))

/-- Reading back the four bytes stored for a number gives the number rounded to binary32. -/
theorem readFloatLE_f32LE (v : JsNum) (pre post : List ℕ) :
    readFloatLE (pre ++ f32LE v ++ post) pre.length = some (fround v) := by
  obtain ⟨hlt, hval⟩ := f32Value_f32Bits_fround v
  have e0 : (pre ++ f32LE v ++ post)[pre.length]? = some (f32Bits (fround v) % 256) := by
    rw [List.append_assoc, List.getElem?_append_right (le_refl _)]; simp [f32LE]
  have e1 : (pre ++ f32LE v ++ post)[pre.length + 1]? =
      some (f32Bits (fround v) / 0x100 % 256) := by
    rw [List.append_assoc, List.getElem?_append_right (by omega)]; simp [f32LE]
  have e2 : (pre ++ f32LE v ++ post)[pre.length + 2]? =
      some (f32Bits (fround v) / 0x10000 % 256) := by
    rw [List.append_assoc, List.getElem?_append_right (by omega)]; simp [f32LE]
  have e3 : (pre ++ f32LE v ++ post)[pre.length + 3]? =
      some (f32Bits (fround v) / 0x1000000 % 256) := by
    rw [List.append_assoc, List.getElem?_append_right (by omega)]; simp [f32LE]
  have hsum : f32Bits (fround v) % 256 + 0x100 * (f32Bits (fround v) / 0x100 % 256)
      + 0x10000 * (f32Bits (fround v) / 0x10000 % 256)
      + 0x1000000 * (f32Bits (fround v) / 0x1000000 % 256) = f32Bits (fround v) := by
    omega
  simp only [readFloatLE, e0, e1, e2, e3, Option.bind_eq_bind, Option.some_bind, Option.pure_def,
    hsum, hval]

/-- Reading a float at component `i` of vertex `k` in the packed positions gives that
component rounded to binary32. -/
theorem readFloatLE_packPositions (positions : List Vec3) (k : ℕ) (p : Vec3)
    (hp : positions[k]? = some p) (i : ℕ) (hi : i < 3) :
    readFloatLE (packPositions positions) (12 * k + 4 * i) = some (fround (p.comp i)) := by
  have hk : k < positions.length := (List.getElem?_eq_some_iff.1 hp).1
  have hsplit : positions = positions.take k ++ p :: positions.drop (k + 1) := by
    have hget : positions[k] = p := by
      have := List.getElem?_eq_getElem hk
      rw [hp] at this
      exact (Option.some.inj this).symm
    rw [← hget]
    exact (List.take_append_drop k positions).symm.trans
      (by rw [List.drop_eq_getElem_cons hk])
  have hlen : (packPositions (positions.take k)).length = 12 * k := by
    rw [packPositions_length, List.length_take, Nat.min_eq_left (le_of_lt hk)]
  have hpack : packPositions positions =
      packPositions (positions.take k) ++ (f32LE p.c0 ++ f32LE p.c1 ++ f32LE p.c2)
        ++ packPositions (positions.drop (k + 1)) := by
    conv_lhs => rw [hsplit]
    simp only [packPositions, List.flatMap_append, List.flatMap_cons, packVec3,
      List.append_assoc]
  rw [hpack]
  rcases i with _ | _ | _ | i
  · have := readFloatLE_f32LE p.c0 (packPositions (positions.take k))
      (f32LE p.c1 ++ f32LE p.c2 ++ packPositions (positions.drop (k + 1)))
    rw [hlen] at this
    simpa only [List.append_assoc, Nat.mul_zero, Nat.add_zero] using this
  · have := readFloatLE_f32LE p.c1 (packPositions (positions.take k) ++ f32LE p.c0)
      (f32LE p.c2 ++ packPositions (positions.drop (k + 1)))
    rw [List.length_append, hlen, f32LE_length] at this
    simpa only [List.append_assoc] using this
  · have := readFloatLE_f32LE p.c2
      (packPositions (positions.take k) ++ f32LE p.c0 ++ f32LE p.c1)
      (packPositions (positions.drop (k + 1)))
    rw [List.length_append, List.length_append, hlen, f32LE_length, f32LE_length] at this
    simpa only [List.append_assoc] using this
  · omega

theorem fround_four_fifths :
    fround (ofRat (4 / 5)) = fin (13421773 / 16777216) := by
  rw [ofRat_four_fifths]
  have h := roundMag_eval 24 (-126) 127 (3602879701896397 / 4503599627370496) (-1) 13421773
    (by norm_num) (by norm_num) (by norm_num) (by norm_num) (by norm_num) (by norm_num)
    (by norm_num)
  show roundTo 24 (-126) 127 (decide ((3602879701896397 / 4503599627370496 : ℚ) < 0))
    |(3602879701896397 / 4503599627370496 : ℚ)| = _
  rw [abs_of_pos (by norm_num)]
  unfold roundTo
  rw [h]
  norm_num

/-- Every Diamond vertex is finite, with a height of at most the double nearest `0.8`. -/
theorem diamondPos_heights : ∀ p ∈ Meshes.diamondPos, p.isFinite = true ∧
    (p.comp 1).toRat ≤ 3602879701896397 / 4503599627370496 := by
  intro p hp
  rw [diamondPos_eq] at hp
  simp only [Meshes.allFaces, Meshes.topFaces, Meshes.bottomFaces, List.cons_append,
    List.nil_append, List.flatMap_cons, List.flatMap_nil, List.mem_cons, List.mem_append,
    List.mem_singleton, List.not_mem_nil, or_false, List.append_nil] at hp
  have hv : p = Meshes.diamondTop ∨ p = Meshes.diamondBottom ∨ p = Meshes.diamondRing0 ∨
      p = Meshes.diamondRing1 ∨ p = Meshes.diamondRing2 ∨ p = Meshes.diamondRing3 := by
    tauto
  rcases hv with h | h | h | h | h | h <;> subst h
  all_goals
    simp only [Meshes.diamondTop, Meshes.diamondBottom, Meshes.diamondRing0,
      Meshes.diamondRing1, Meshes.diamondRing2, Meshes.diamondRing3, Vec3.isFinite, Vec3.comp,
      ofRat_four_fifths, ofRat_eleven_twentieths, JsNum.neg, toRat_fin, JsNum.isFinite]
    norm_num [JsNum.isFinite, JsNum.toRat]

theorem diamond_max_height :
    (bounds Meshes.diamondPos).hi.comp 1 = fin (3602879701896397 / 4503599627370496) := by
  have hne : Meshes.diamondPos ≠ [] := by
    intro h
    have := congrArg List.length h
    rw [shipped_lengths.1.1] at this
    simp at this
  obtain ⟨hall, -, ⟨p, hp, hpe⟩⟩ := bounds_spec Meshes.diamondPos hne
    (fun p hp => (diamondPos_heights p hp).1) 1
  have htop : Meshes.diamondTop ∈ Meshes.diamondPos := by
    rw [diamondPos_eq]
    simp [Meshes.allFaces, Meshes.topFaces]
  have h1 := (hall Meshes.diamondTop htop).2
  obtain ⟨hf, hle⟩ := diamondPos_heights p hp
  have hfin := Vec3.comp_isFinite p hf 1
  rw [← hpe] at h1 ⊢
  have htopv : Meshes.diamondTop.comp 1 = fin (3602879701896397 / 4503599627370496) := by
    show ofRat (4 / 5) = _
    exact ofRat_four_fifths
  rw [htopv] at h1
  rw [JsNum.le_iff (fin (3602879701896397 / 4503599627370496)) _ rfl hfin, toRat_fin] at h1
  have heq : (p.comp 1).toRat = 3602879701896397 / 4503599627370496 := le_antisymm hle h1
  revert hfin heq
  cases p.comp 1 with
  | fin q => intro _ h; rw [toRat_fin] at h; rw [h]
  | negZero => intro _ h; norm_num [JsNum.toRat] at h
  | nan => intro h; simp [JsNum.isFinite] at h
  | posInf => intro h; simp [JsNum.isFinite] at h
  | negInf => intro h; simp [JsNum.isFinite] at h

theorem diamond_gltf : gltf "Diamond" Meshes.diamondPos Meshes.diamondIdx Meshes.diamondCol =
    Except.ok (document "Diamond" Meshes.diamondPos Meshes.diamondIdx Meshes.diamondCol) :=
  gltf_ok _ _ _ _ (by rw [diamondIdx_eq]; decide)

theorem diamondPos_ne : Meshes.diamondPos ≠ [] := by
  intro h
  have := congrArg List.length h
  rw [shipped_lengths.1.1] at this
  simp at this

theorem diamond_stored_height :
    readFloatLE (packPositions Meshes.diamondPos) 4 = some (fin (13421773 / 16777216)) := by
  have h := readFloatLE_packPositions Meshes.diamondPos 0 Meshes.diamondTop rfl 1 (by norm_num)
  rw [← fround_four_fifths]
  exact h

end Rounding32

/-- C17 as stated fails on the shipped Diamond: `accessors[0].max[1]` is the double nearest
`0.8`, `3602879701896397 / 2^52`, but the value read back from the position segment at byte
offset 4 (component 1 of vertex 0) is the float nearest `0.8`, `13421773 / 2^24`, which is
larger. -/
theorem C17_counterexample :
    gltf "Diamond" Meshes.diamondPos Meshes.diamondIdx Meshes.diamondCol =
        Except.ok (document "Diamond" Meshes.diamondPos Meshes.diamondIdx Meshes.diamondCol) ∧
      Meshes.diamondPos ≠ [] ∧ (∀ p ∈ Meshes.diamondPos, p.isFinite = true) ∧
      ((document "Diamond" Meshes.diamondPos Meshes.diamondIdx Meshes.diamondCol).accessors[0]?).bind
          Accessor.max = some (bounds Meshes.diamondPos).hi.toList ∧
      (bounds Meshes.diamondPos).hi.comp 1 = JsNum.fin (3602879701896397 / 4503599627370496) ∧
      segment (document "Diamond" Meshes.diamondPos Meshes.diamondIdx Meshes.diamondCol) 0 =
        some (packPositions Meshes.diamondPos) ∧
      readFloatLE (packPositions Meshes.diamondPos) (12 * 0 + 4 * 1) =
        some (JsNum.fin (13421773 / 16777216)) ∧
      JsNum.le (JsNum.fin (13421773 / 16777216)) ((bounds Meshes.diamondPos).hi.comp 1)
        = false := by
  refine ⟨diamond_gltf, diamondPos_ne, fun p hp => (diamondPos_heights p hp).1, rfl,
    diamond_max_height, (document_segments _ _ _ _).1, diamond_stored_height, ?_⟩
  rw [diamond_max_height]
  simp only [JsNum.le, JsNum.lt, toRat_fin]
  norm_num

/-- C17 (amended). For every non-empty mesh of finite positions on which `createGltf`
produces a document, the value read back from the position segment at component `i` of
vertex `k` is the component rounded to 32-bit float, and it lies between the declared bounds
once these are rounded the same way: `fround(min[i]) <= stored <= fround(max[i])`. Hence
wherever `min[i]` or `max[i]` is itself a 32-bit float value, it bounds the stored data as
declared. -/
theorem C17_stored_within_rounded_bounds (name : String) (positions : List Vec3)
    (indices : List ℤ) (colors : List Vec4) (doc : Gltf)
    (h : gltf name positions indices colors = Except.ok doc)
    (hne : positions ≠ []) (hfin : ∀ p ∈ positions, p.isFinite = true) :
    ∃ acc lo hi seg, doc.accessors[0]? = some acc ∧ acc.min = some (Vec3.toList lo) ∧
      acc.max = some (Vec3.toList hi) ∧ segment doc 0 = some seg ∧
      ∀ (k : ℕ) (p : Vec3), positions[k]? = some p → ∀ i, i < 3 →
        readFloatLE seg (12 * k + 4 * i) = some (JsNum.fround (p.comp i)) ∧
        JsNum.le (JsNum.fround (lo.comp i)) (JsNum.fround (p.comp i)) = true ∧
        JsNum.le (JsNum.fround (p.comp i)) (JsNum.fround (hi.comp i)) = true ∧
        (JsNum.fround (lo.comp i) = lo.comp i →
          JsNum.le (lo.comp i) (JsNum.fround (p.comp i)) = true) ∧
        (JsNum.fround (hi.comp i) = hi.comp i →
          JsNum.le (JsNum.fround (p.comp i)) (hi.comp i) = true) := by
  obtain ⟨_, hdoc⟩ := gltf_inv name positions indices colors doc h
  subst hdoc
  refine ⟨_, (bounds positions).lo, (bounds positions).hi, packPositions positions,
    document_accessor0 name positions indices colors, rfl, rfl,
    (document_segments name positions indices colors).1, ?_⟩
  intro k p hp i hi
  have hmem : p ∈ positions := List.getElem?_mem hp
  obtain ⟨hall, ⟨pl, hpl, hle⟩, ⟨ph, hph, hhe⟩⟩ := bounds_spec positions hne hfin i
  have fp := Vec3.comp_isFinite p (hfin p hmem) i
  have fl : ((bounds positions).lo.comp i).isFinite = true := by
    rw [← hle]; exact Vec3.comp_isFinite pl (hfin pl hpl) i
  have fh : ((bounds positions).hi.comp i).isFinite = true := by
    rw [← hhe]; exact Vec3.comp_isFinite ph (hfin ph hph) i
  have r1 := fround_le _ _ fl fp (hall p hmem).1
  have r2 := fround_le _ _ fp fh (hall p hmem).2
  refine ⟨readFloatLE_packPositions positions k p hp i hi, r1, r2, ?_, ?_⟩
  · intro e; rw [e] at r1; exact r1
  · intro e; rw [e] at r2; exact r2

/-- The instance of C17 (amended) at the shipped Diamond. -/
theorem C17_stored_within_rounded_bounds_witness :
    gltf "Diamond" Meshes.diamondPos Meshes.diamondIdx Meshes.diamondCol =
        Except.ok (document "Diamond" Meshes.diamondPos Meshes.diamondIdx Meshes.diamondCol) ∧
      Meshes.diamondPos ≠ [] ∧ (∀ p ∈ Meshes.diamondPos, p.isFinite = true) ∧
      ∃ acc lo hi seg,
        (document "Diamond" Meshes.diamondPos Meshes.diamondIdx Meshes.diamondCol).accessors[0]?
          = some acc ∧ acc.min = some (Vec3.toList lo) ∧
        acc.max = some (Vec3.toList hi) ∧
        segment (document "Diamond" Meshes.diamondPos Meshes.diamondIdx Meshes.diamondCol) 0
          = some seg ∧
        ∀ (k : ℕ) (p : Vec3), Meshes.diamondPos[k]? = some p → ∀ i, i < 3 →
          readFloatLE seg (12 * k + 4 * i) = some (JsNum.fround (p.comp i)) ∧
          JsNum.le (JsNum.fround (lo.comp i)) (JsNum.fround (p.comp i)) = true ∧
          JsNum.le (JsNum.fround (p.comp i)) (JsNum.fround (hi.comp i)) = true ∧
          (JsNum.fround (lo.comp i) = lo.comp i →
            JsNum.le (lo.comp i) (JsNum.fround (p.comp i)) = true) ∧
          (JsNum.fround (hi.comp i) = hi.comp i →
            JsNum.le (JsNum.fround (p.comp i)) (hi.comp i) = true) :=
  ⟨diamond_gltf, diamondPos_ne, fun p hp => (diamondPos_heights p hp).1,
    C17_stored_within_rounded_bounds "Diamond" Meshes.diamondPos Meshes.diamondIdx
      Meshes.diamondCol _ diamond_gltf diamondPos_ne (fun p hp => (diamondPos_heights p hp).1)⟩

/-! ### Rounding error of the derived normal -/

section NormalError

open JsNum

/-- The error of rounding a magnitude to binary64: relative `2^-53` on normal values,
absolute `2^-1075` on subnormal ones. -/
theorem roundedMag64_err (m : ℚ) (hm : 0 ≤ m) :
    |roundedMag 53 (-1022) m - m| ≤ m / 9007199254740992 + (2 : ℚ) ^ (-1075 : ℤ) := by
  rcases eq_or_lt_of_le hm with h0 | hpos
  · rw [← h0, roundedMag_zero]
    simp only [sub_self, abs_zero, zero_div, zero_add]
    positivity
  · obtain ⟨a1, a2⟩ := log2_bounds hpos
    set L := Int.log 2 m
    have hu : ulpExp 53 (-1022) m = max L (-1022) - 52 := by
      unfold ulpExp; norm_num
    unfold roundedMag
    rw [hu]
    set u := max L (-1022) - 52 with hu2
    have pu : (0 : ℚ) < (2 : ℚ) ^ u := by positivity
    obtain ⟨s1, s2⟩ := roundHalfEven_spec (m / (2 : ℚ) ^ u)
    have hw : (2 : ℚ) ^ u / 2 ≤ m / 9007199254740992 + (2 : ℚ) ^ (-1075 : ℤ) := by
      have hd : (0 : ℚ) < (2 : ℚ) ^ (-1075 : ℤ) := by positivity
      by_cases hL : L < -1022
      · have hu3 : u = -1074 := by
          rw [hu2, max_eq_right (le_of_lt hL)]; norm_num
        have e : (2 : ℚ) ^ u / 2 = (2 : ℚ) ^ (-1075 : ℤ) := by
          rw [hu3, div_eq_iff (by norm_num)]
          have h2 : (2 : ℚ) ^ (-1075 : ℤ) * 2 = (2 : ℚ) ^ (-1075 : ℤ) * (2 : ℚ) ^ (1 : ℤ) := by
            rw [zpow_one]
          rw [h2, ← zpow_add₀ (by norm_num : (2 : ℚ) ≠ 0)]; norm_num
        rw [e]
        have : 0 ≤ m / 9007199254740992 := by positivity
        linarith
      · push_neg at hL
        have hu3 : u = L - 52 := by rw [hu2, max_eq_left hL]
        have e : (2 : ℚ) ^ u / 2 = (2 : ℚ) ^ L / 9007199254740992 := by
          rw [hu3, zpow_sub₀ (by norm_num : (2 : ℚ) ≠ 0)]
          have h52 : (2 : ℚ) ^ (52 : ℤ) = 4503599627370496 := by norm_num
          rw [h52]
          ring
        rw [e]
        have : (2 : ℚ) ^ L / 9007199254740992 ≤ m / 9007199254740992 :=
          div_le_div_of_nonneg_right a1 (by norm_num)
        linarith
    have hm2 : m / (2 : ℚ) ^ u * (2 : ℚ) ^ u = m := div_mul_cancel₀ _ (ne_of_gt pu)
    generalize (roundHalfEven (m / (2 : ℚ) ^ u) : ℚ) = n at s1 s2 ⊢
    generalize m / (2 : ℚ) ^ u = x at s1 s2 hm2
    generalize (2 : ℚ) ^ u = w at pu hw hm2 ⊢
    generalize (2 : ℚ) ^ (-1075 : ℤ) = d at hw ⊢
    have k1 : (n - 1 / 2) * w ≤ x * w := mul_le_mul_of_nonneg_right s1 (le_of_lt pu)
    have k2 : x * w ≤ (n + 1 / 2) * w := mul_le_mul_of_nonneg_right s2 (le_of_lt pu)
    rw [abs_le]
    constructor <;> nlinarith

/-- Rounding a non-negative magnitude to binary64 with sign `+`: either it overflows to
`Infinity`, or the result is a non-negative finite number within the rounding error. -/
theorem round64_pos_spec (m : ℚ) (hm : 0 ≤ m) :
    round64 false m = posInf ∨
      ∃ r, round64 false m = fin r ∧ 0 ≤ r ∧
        |r - m| ≤ m / 9007199254740992 + (2 : ℚ) ^ (-1075 : ℤ) := by
  rcases eq_or_lt_of_le hm with h0 | hpos
  · right
    refine ⟨0, ?_, le_rfl, ?_⟩
    · rw [← h0]; simp [round64, roundTo, roundMag, zeroOf]
    · rw [← h0]; simp only [sub_self, abs_zero, zero_div, zero_add]; positivity
  · have hnn := roundedMag_nonneg 53 (-1022) m hm
    have herr := roundedMag64_err m hm
    unfold round64 roundTo
    rw [roundMag_eq, if_neg (ne_of_gt hpos)]
    by_cases hov : (2 : ℚ) ^ ((1023 : ℤ) + 1) ≤ roundedMag 53 (-1022) m
    · left
      rw [if_pos hov]; rfl
    · right
      rw [if_neg hov]
      refine ⟨roundedMag 53 (-1022) m, ?_, hnn, herr⟩
      by_cases hr : roundedMag 53 (-1022) m = 0
      · simp [hr, zeroOf]
      · simp [hr]

/-- Rounding a magnitude of at most 2 to binary64 gives a finite number of the given sign
within the rounding error. -/
theorem round64_small_spec (neg : Bool) (m : ℚ) (hm : 0 ≤ m) (h2 : m ≤ 2) :
    (round64 neg m).isFinite = true ∧
      ∃ r, 0 ≤ r ∧ (round64 neg m).toRat = (if neg = true then -r else r) ∧
        |r - m| ≤ m / 9007199254740992 + (2 : ℚ) ^ (-1075 : ℤ) := by
  rcases eq_or_lt_of_le hm with h0 | hpos
  · rw [← h0]
    refine ⟨?_, 0, le_rfl, ?_, ?_⟩
    · cases neg <;> simp [round64, roundTo, roundMag, zeroOf, isFinite]
    · cases neg <;> simp [round64, roundTo, roundMag, zeroOf, toRat]
    · simp only [sub_self, abs_zero, zero_div, zero_add]; positivity
  · have hnn := roundedMag_nonneg 53 (-1022) m hm
    have herr := roundedMag64_err m hm
    have hd : (2 : ℚ) ^ (-1075 : ℤ) ≤ 1 := zpow_le_one_of_nonpos₀ (by norm_num) (by norm_num)
    have hbig : (3 : ℚ) < (2 : ℚ) ^ ((1023 : ℤ) + 1) := by
      calc (3 : ℚ) < (2 : ℚ) ^ (2 : ℤ) := by norm_num
        _ ≤ (2 : ℚ) ^ ((1023 : ℤ) + 1) := zpow_le_zpow_right₀ (by norm_num) (by norm_num)
    have hov : ¬ (2 : ℚ) ^ ((1023 : ℤ) + 1) ≤ roundedMag 53 (-1022) m := by
      rw [not_le]
      obtain ⟨-, e2⟩ := abs_le.1 herr
      have : m / 9007199254740992 ≤ m := by
        rw [div_le_iff₀ (by norm_num)]; linarith
      linarith
    unfold round64 roundTo
    rw [roundMag_eq, if_neg (ne_of_gt hpos), if_neg hov]
    refine ⟨?_, roundedMag 53 (-1022) m, hnn, ?_, herr⟩
    · by_cases hr : roundedMag 53 (-1022) m = 0
      · cases neg <;> simp [hr, zeroOf, isFinite]
      · cases neg <;> simp [hr, isFinite]
    · by_cases hr : roundedMag 53 (-1022) m = 0
      · cases neg <;> simp [hr, zeroOf, toRat]
      · cases neg <;> simp [hr, toRat]

/-- The square of a finite number as line 19 computes it: `Infinity` on overflow, else a
non-negative finite number within the rounding error of the exact square. -/
theorem mul_self_err (c : JsNum) (hc : c.isFinite = true) :
    JsNum.mul c c = posInf ∨
      ∃ a, JsNum.mul c c = fin a ∧ 0 ≤ a ∧
        |a - c.toRat ^ 2| ≤ c.toRat ^ 2 / 9007199254740992 + (2 : ℚ) ^ (-1075 : ℤ) := by
  have hn : c.isNaN = false := JsNum.isNaN_of_isFinite c hc
  have hmul : JsNum.mul c c = round64 false (|c.toRat| * |c.toRat|) := by
    simp [JsNum.mul, hn, hc]
  have hsq : |c.toRat| * |c.toRat| = c.toRat ^ 2 := by
    rw [← abs_mul_abs_self, sq]
    simp
  rw [hmul, hsq]
  exact round64_pos_spec _ (sq_nonneg _)

/-- The sum of two non-negative finite numbers: `Infinity` on overflow, else a non-negative
finite number within the rounding error of the exact sum. -/
theorem add_nonneg_err (a b : ℚ) (ha : 0 ≤ a) (hb : 0 ≤ b) :
    JsNum.add (fin a) (fin b) = posInf ∨
      ∃ r, JsNum.add (fin a) (fin b) = fin r ∧ 0 ≤ r ∧
        |r - (a + b)| ≤ (a + b) / 9007199254740992 + (2 : ℚ) ^ (-1075 : ℤ) := by
  have hab : 0 ≤ a + b := add_nonneg ha hb
  rcases eq_or_lt_of_le hab with h0 | hpos
  · right
    refine ⟨0, ?_, le_rfl, ?_⟩
    · simp [JsNum.add, isNaN, isFinite, toRat, ← h0, signBit, not_lt.2 ha, zeroOf]
    · rw [← h0]; simp only [sub_self, abs_zero, zero_div, zero_add]; positivity
  · have hadd : JsNum.add (fin a) (fin b) = round64 false (a + b) := by
      simp [JsNum.add, isNaN, isFinite, toRat, ne_of_gt hpos, not_lt.2 (le_of_lt hpos),
        abs_of_pos hpos]
    rw [hadd]
    exact round64_pos_spec _ hab

theorem add_posInf_fin (b : ℚ) : JsNum.add posInf (fin b) = posInf := by
  simp [JsNum.add, isNaN, isFinite]

theorem add_fin_posInf (a : ℚ) : JsNum.add (fin a) posInf = posInf := by
  simp [JsNum.add, isNaN, isFinite]

theorem add_posInf_posInf : JsNum.add posInf posInf = posInf := by
  simp [JsNum.add, isNaN, isFinite, signBit]

/-- The sum of squares under the square root of line 19: `Infinity` when a square or a sum
overflows, else a finite number within three roundings of the exact sum of squares. -/
theorem sumsq_err (p : Vec3) (hfin : p.isFinite = true) :
    JsNum.add (JsNum.add (JsNum.mul p.c0 p.c0) (JsNum.mul p.c1 p.c1))
        (JsNum.mul p.c2 p.c2) = posInf ∨
      ∃ s, JsNum.add (JsNum.add (JsNum.mul p.c0 p.c0) (JsNum.mul p.c1 p.c1))
          (JsNum.mul p.c2 p.c2) = fin s ∧
        (1 - 1 / 9007199254740992) ^ 3 * p.normSq - 6 * (2 : ℚ) ^ (-1075 : ℤ) ≤ s ∧
        s ≤ (1 + 1 / 9007199254740992) ^ 3 * p.normSq + 6 * (2 : ℚ) ^ (-1075 : ℤ) := by
  simp only [Vec3.isFinite, Bool.and_eq_true] at hfin
  obtain ⟨⟨f0, f1⟩, f2⟩ := hfin
  have hd : (0 : ℚ) ≤ (2 : ℚ) ^ (-1075 : ℤ) := by positivity
  rcases mul_self_err p.c0 f0 with e0 | ⟨a0, e0, n0, b0⟩
  · left
    rw [e0]
    rcases mul_self_err p.c1 f1 with e1 | ⟨a1, e1, -, -⟩
    · rw [e1, add_posInf_posInf]
      rcases mul_self_err p.c2 f2 with e2 | ⟨a2, e2, -, -⟩
      · rw [e2, add_posInf_posInf]
      · rw [e2, add_posInf_fin]
    · rw [e1, add_posInf_fin]
      rcases mul_self_err p.c2 f2 with e2 | ⟨a2, e2, -, -⟩
      · rw [e2, add_posInf_posInf]
      · rw [e2, add_posInf_fin]
  · rcases mul_self_err p.c1 f1 with e1 | ⟨a1, e1, n1, b1⟩
    · left
      rw [e0, e1, add_fin_posInf]
      rcases mul_self_err p.c2 f2 with e2 | ⟨a2, e2, -, -⟩
      · rw [e2, add_posInf_posInf]
      · rw [e2, add_posInf_fin]
    · rw [e0, e1]
      rcases add_nonneg_err a0 a1 n0 n1 with et | ⟨t, et, nt, bt⟩
      · left
        rw [et]
        rcases mul_self_err p.c2 f2 with e2 | ⟨a2, e2, -, -⟩
        · rw [e2, add_posInf_posInf]
        · rw [e2, add_posInf_fin]
      · rw [et]
        rcases mul_self_err p.c2 f2 with e2 | ⟨a2, e2, n2, b2⟩
        · left
          rw [e2, add_fin_posInf]
        · rw [e2]
          rcases add_nonneg_err t a2 nt n2 with es | ⟨s, es, ns, bs⟩
          · exact Or.inl es
          · right
            refine ⟨s, es, ?_, ?_⟩
            · unfold Vec3.normSq
              have x0 : 0 ≤ p.c0.toRat ^ 2 := sq_nonneg _
              have x1 : 0 ≤ p.c1.toRat ^ 2 := sq_nonneg _
              have x2 : 0 ≤ p.c2.toRat ^ 2 := sq_nonneg _
              generalize p.c0.toRat ^ 2 = x at b0 x0 ⊢
              generalize p.c1.toRat ^ 2 = y at b1 x1 ⊢
              generalize p.c2.toRat ^ 2 = z at b2 x2 ⊢
              generalize (2 : ℚ) ^ (-1075 : ℤ) = d at *
              obtain ⟨l0, -⟩ := abs_le.1 b0
              obtain ⟨l1, -⟩ := abs_le.1 b1
              obtain ⟨l2, -⟩ := abs_le.1 b2
              obtain ⟨lt, -⟩ := abs_le.1 bt
              obtain ⟨ls, -⟩ := abs_le.1 bs
              norm_num at l0 l1 l2 lt ls ⊢
              linarith
            · unfold Vec3.normSq
              have x0 : 0 ≤ p.c0.toRat ^ 2 := sq_nonneg _
              have x1 : 0 ≤ p.c1.toRat ^ 2 := sq_nonneg _
              have x2 : 0 ≤ p.c2.toRat ^ 2 := sq_nonneg _
              generalize p.c0.toRat ^ 2 = x at b0 x0 ⊢
              generalize p.c1.toRat ^ 2 = y at b1 x1 ⊢
              generalize p.c2.toRat ^ 2 = z at b2 x2 ⊢
              generalize (2 : ℚ) ^ (-1075 : ℤ) = d at *
              obtain ⟨-, u0⟩ := abs_le.1 b0
              obtain ⟨-, u1⟩ := abs_le.1 b1
              obtain ⟨-, u2⟩ := abs_le.1 b2
              obtain ⟨-, ut⟩ := abs_le.1 bt
              obtain ⟨-, us⟩ := abs_le.1 bs
              norm_num at u0 u1 u2 ut us ⊢
              linarith

theorem sqrtRound_spec (s : ℚ) (e : ℤ)
    (hr : (20282409603651670423947251286016 : ℚ) ≤ s / (2 : ℚ) ^ (2 * e)) :
    0 < (sqrtRound s e : ℚ) ∧
      (1 - 1 / 9007199254740992) ^ 2 * (sqrtRound s e : ℚ) ^ 2 ≤ s / (2 : ℚ) ^ (2 * e) ∧
      s / (2 : ℚ) ^ (2 * e) ≤ (1 + 1 / 9007199254740992) ^ 2 * (sqrtRound s e : ℚ) ^ 2 := by
  set r := s / (2 : ℚ) ^ (2 * e) with hrdef
  have hr0 : 0 ≤ r := le_trans (by norm_num) hr
  have hn1 : ((⌊r⌋₊ : ℕ) : ℚ) ≤ r := Nat.floor_le hr0
  have hn2 : r < ((⌊r⌋₊ : ℕ) : ℚ) + 1 := Nat.lt_floor_add_one r
  have hn3 : 20282409603651670423947251286016 ≤ ⌊r⌋₊ := by
    apply Nat.le_floor
    exact_mod_cast hr
  set n := ⌊r⌋₊ with hn
  have hf1 : Nat.sqrt n * Nat.sqrt n ≤ n := Nat.sqrt_le n
  have hf2 : n < (Nat.sqrt n + 1) * (Nat.sqrt n + 1) := Nat.lt_succ_sqrt n
  have hf3 : 4503599627370496 ≤ Nat.sqrt n := by
    rw [Nat.le_sqrt]
    exact le_trans (by norm_num) hn3
  set f := Nat.sqrt n with hf
  have q1 : (f : ℚ) * f ≤ r := by
    have : ((f * f : ℕ) : ℚ) ≤ (n : ℚ) := by exact_mod_cast hf1
    push_cast at this
    linarith
  have q2 : r < ((f : ℚ) + 1) * (f + 1) := by
    have : (n : ℚ) + 1 ≤ (((f + 1) * (f + 1) : ℕ) : ℚ) := by exact_mod_cast hf2
    push_cast at this
    linarith
  have q3 : (4503599627370496 : ℚ) ≤ f := by exact_mod_cast hf3
  have key : ∀ g : ℚ, 4503599627370496 ≤ g → (g - 1 / 2) ^ 2 ≤ r → r ≤ (g + 1 / 2) ^ 2 →
      (1 - 1 / 9007199254740992) ^ 2 * g ^ 2 ≤ r ∧
        r ≤ (1 + 1 / 9007199254740992) ^ 2 * g ^ 2 := by
    intro g hg h1 h2
    have a1 : 0 ≤ (1 - 1 / 9007199254740992) * g := by
      apply mul_nonneg (by norm_num); linarith
    have a2 : (1 - 1 / 9007199254740992) * g ≤ g - 1 / 2 := by linarith
    have a3 : g + 1 / 2 ≤ (1 + 1 / 9007199254740992) * g := by linarith
    have a4 : (0 : ℚ) ≤ g + 1 / 2 := by linarith
    constructor
    · calc (1 - 1 / 9007199254740992) ^ 2 * g ^ 2 = ((1 - 1 / 9007199254740992) * g) ^ 2 := by
            ring
        _ ≤ (g - 1 / 2) ^ 2 := pow_le_pow_left₀ a1 a2 2
        _ ≤ r := h1
    · calc r ≤ (g + 1 / 2) ^ 2 := h2
        _ ≤ ((1 + 1 / 9007199254740992) * g) ^ 2 := pow_le_pow_left₀ a4 a3 2
        _ = (1 + 1 / 9007199254740992) ^ 2 * g ^ 2 := by ring
  have hcase : (sqrtRound s e = f ∧ r ≤ (f : ℚ) * f + f + 1 / 4) ∨
      (sqrtRound s e = f + 1 ∧ (f : ℚ) * f + f + 1 / 4 ≤ r) := by
    unfold sqrtRound
    simp only []
    rw [← hrdef, ← hn, ← hf]
    split_ifs with c1 c2 c3
    · exact Or.inl ⟨rfl, le_of_lt c1⟩
    · exact Or.inr ⟨rfl, le_of_lt c2⟩
    · exact Or.inl ⟨rfl, not_lt.1 c2⟩
    · exact Or.inr ⟨rfl, not_lt.1 c1⟩
  rcases hcase with ⟨hg, hle⟩ | ⟨hg, hle⟩
  · rw [hg]
    refine ⟨by linarith, key f q3 ?_ ?_⟩
    · nlinarith
    · nlinarith
  · rw [hg]
    push_cast
    refine ⟨by linarith, key (f + 1) (by linarith) ?_ ?_⟩
    · nlinarith
    · nlinarith

/-- The square root of a positive number that is at least `2^-2044` is correct within one
rounding. -/
theorem sqrt_rel (s : ℚ) (hlo : (2 : ℚ) ^ (-2044 : ℤ) ≤ s) :
    ∃ l, JsNum.sqrt (fin s) = fin l ∧ 0 < l ∧
      (1 - 1 / 9007199254740992) ^ 2 * l ^ 2 ≤ s ∧
      s ≤ (1 + 1 / 9007199254740992) ^ 2 * l ^ 2 := by
  have hs : 0 < s := lt_of_lt_of_le (by positivity) hlo
  obtain ⟨hl1, hl2⟩ := log2_bounds hs
  have hL1 : -2044 ≤ Int.log 2 s := by
    rw [← Int.zpow_le_iff_le_log (by norm_num) hs]
    exact_mod_cast hlo
  set L := Int.log 2 s with hLdef
  have he : max (L / 2) (-1022) - 52 = L / 2 - 52 := by
    rw [max_eq_left (by omega)]
  set e := L / 2 - 52 with hedef
  have hpe : (0 : ℚ) < (2 : ℚ) ^ (2 * e) := by positivity
  have hpe1 : (0 : ℚ) < (2 : ℚ) ^ e := by positivity
  have hsplit : (2 : ℚ) ^ (2 * e) = (2 : ℚ) ^ e * (2 : ℚ) ^ e := by
    rw [← zpow_add₀ (by norm_num : (2 : ℚ) ≠ 0)]; congr 1; ring
  have hr : (20282409603651670423947251286016 : ℚ) ≤ s / (2 : ℚ) ^ (2 * e) := by
    rw [le_div_iff₀ hpe]
    have h104 : (20282409603651670423947251286016 : ℚ) = (2 : ℚ) ^ (104 : ℤ) := by norm_num
    rw [h104, ← zpow_add₀ (by norm_num : (2 : ℚ) ≠ 0)]
    calc (2 : ℚ) ^ (104 + 2 * e) ≤ (2 : ℚ) ^ L := by
          apply zpow_le_zpow_right₀ (by norm_num); omega
      _ ≤ s := hl1
  obtain ⟨g0, g1, g2⟩ := sqrtRound_spec s e hr
  refine ⟨(sqrtRound s e : ℚ) * (2 : ℚ) ^ e, ?_, by positivity, ?_, ?_⟩
  · rw [JsNum.sqrt, if_neg (not_lt.2 (le_of_lt hs)), if_neg (ne_of_gt hs)]
    simp only []
    rw [← hLdef, he]
  · have : s = s / (2 : ℚ) ^ (2 * e) * ((2 : ℚ) ^ e * (2 : ℚ) ^ e) := by
      rw [← hsplit]; field_simp
    calc (1 - 1 / 9007199254740992) ^ 2 * ((sqrtRound s e : ℚ) * (2 : ℚ) ^ e) ^ 2
        = ((1 - 1 / 9007199254740992) ^ 2 * (sqrtRound s e : ℚ) ^ 2)
            * ((2 : ℚ) ^ e * (2 : ℚ) ^ e) := by ring
      _ ≤ s / (2 : ℚ) ^ (2 * e) * ((2 : ℚ) ^ e * (2 : ℚ) ^ e) :=
          mul_le_mul_of_nonneg_right g1 (by positivity)
      _ = s := this.symm
  · have : s = s / (2 : ℚ) ^ (2 * e) * ((2 : ℚ) ^ e * (2 : ℚ) ^ e) := by
      rw [← hsplit]; field_simp
    calc s = s / (2 : ℚ) ^ (2 * e) * ((2 : ℚ) ^ e * (2 : ℚ) ^ e) := this
      _ ≤ ((1 + 1 / 9007199254740992) ^ 2 * (sqrtRound s e : ℚ) ^ 2)
            * ((2 : ℚ) ^ e * (2 : ℚ) ^ e) :=
          mul_le_mul_of_nonneg_right g2 (by positivity)
      _ = (1 + 1 / 9007199254740992) ^ 2 * ((sqrtRound s e : ℚ) * (2 : ℚ) ^ e) ^ 2 := by ring

/-- The length of line 19 for a finite position whose sum of squares is at least `2^-1056`
and does not overflow: a positive finite number whose square is the exact sum of squares
within a relative `6 / 2^19` and a few roundings. -/
theorem normLen_err (p : Vec3) (hfin : p.isFinite = true)
    (hlo : (2 : ℚ) ^ (-1056 : ℤ) ≤ p.normSq) (hlen : (normLen p).isFinite = true) :
    ∃ l, normLen p = fin l ∧ 0 < l ∧
      ((1 - 1 / 9007199254740992) ^ 3 - 6 / 524288) * p.normSq
        ≤ (1 + 1 / 9007199254740992) ^ 2 * l ^ 2 ∧
      (1 - 1 / 9007199254740992) ^ 2 * l ^ 2
        ≤ ((1 + 1 / 9007199254740992) ^ 3 + 6 / 524288) * p.normSq := by
  have hd : (2 : ℚ) ^ (-1075 : ℤ) = (2 : ℚ) ^ (-1056 : ℤ) / 524288 := by
    rw [eq_div_iff (by norm_num)]
    have h19 : (524288 : ℚ) = (2 : ℚ) ^ (19 : ℤ) := by norm_num
    rw [h19, ← zpow_add₀ (by norm_num : (2 : ℚ) ≠ 0)]; norm_num
  have hS0 : (0 : ℚ) < (2 : ℚ) ^ (-1056 : ℤ) := by positivity
  have hbig : (2 : ℚ) ^ (-2044 : ℤ) ≤ (2 : ℚ) ^ (-1056 : ℤ) / 2 := by
    rw [le_div_iff₀ (by norm_num)]
    have h1 : (2 : ℚ) ^ (-2044 : ℤ) * 2 = (2 : ℚ) ^ (-2044 : ℤ) * (2 : ℚ) ^ (1 : ℤ) := by
      rw [zpow_one]
    rw [h1, ← zpow_add₀ (by norm_num : (2 : ℚ) ≠ 0)]
    exact zpow_le_zpow_right₀ (by norm_num) (by norm_num)
  rcases sumsq_err p hfin with hinf | ⟨s, hs, sl, su⟩
  · exfalso
    have : normLen p = posInf := by
      unfold normLen
      simp only []
      rw [hinf]
      simp [JsNum.sqrt, truthy]
    rw [this] at hlen
    simp [isFinite] at hlen
  · rw [hd] at sl su
    generalize (2 : ℚ) ^ (-1056 : ℤ) = A at hlo hS0 hbig sl su
    generalize hB : (2 : ℚ) ^ (-2044 : ℤ) = B at hbig
    have sl2 : ((1 - 1 / 9007199254740992) ^ 3 - 6 / 524288) * p.normSq ≤ s := by
      norm_num at sl ⊢
      linarith
    have su2 : s ≤ ((1 + 1 / 9007199254740992) ^ 3 + 6 / 524288) * p.normSq := by
      norm_num at su ⊢
      linarith
    have hslo : B ≤ s := by
      norm_num at sl2
      linarith
    rw [← hB] at hslo
    obtain ⟨l, hl, lpos, ll, lu⟩ := sqrt_rel s hslo
    refine ⟨l, ?_, lpos, le_trans sl2 lu, le_trans ll su2⟩
    unfold normLen
    simp only []
    rw [hs, hl]
    simp [truthy, ne_of_gt lpos]

theorem isNaN_fin (q : ℚ) : (JsNum.fin q).isNaN = false := rfl

theorem isFinite_fin (q : ℚ) : (JsNum.fin q).isFinite = true := rfl

theorem isZero_fin (q : ℚ) : (JsNum.fin q).isZero = decide (q = 0) := rfl

theorem signBit_fin (q : ℚ) : (JsNum.fin q).signBit = decide (q < 0) := rfl

theorem signBit_toRat (c : JsNum) (hc : c.isFinite = true) :
    (c.signBit = true → c.toRat ≤ 0) ∧ (c.signBit = false → 0 ≤ c.toRat) := by
  cases c with
  | nan => simp [isFinite] at hc
  | posInf => simp [isFinite] at hc
  | negInf => simp [isFinite] at hc
  | negZero => simp [signBit, toRat]
  | fin q =>
    simp only [signBit, toRat, decide_eq_true_eq, decide_eq_false_iff_not, not_lt]
    exact ⟨le_of_lt, id⟩

/-- The quotient of a finite number by a positive length at least half its magnitude is
finite and within one rounding of the exact quotient. -/
theorem div_err (c : JsNum) (l : ℚ) (hc : c.isFinite = true) (hl : 0 < l)
    (hq : |c.toRat| ≤ 2 * l) :
    (JsNum.div c (fin l)).isFinite = true ∧
      |(JsNum.div c (fin l)).toRat - c.toRat / l| ≤
        |c.toRat / l| * (1 / 9007199254740992) + (2 : ℚ) ^ (-1075 : ℤ) := by
  have hn : c.isNaN = false := JsNum.isNaN_of_isFinite c hc
  have hdiv : JsNum.div c (fin l) = round64 c.signBit (|c.toRat| / l) := by
    simp [JsNum.div, hn, hc, isNaN_fin, isFinite_fin, isZero_fin, signBit_fin, toRat_fin,
      ne_of_gt hl, not_lt.2 (le_of_lt hl), abs_of_pos hl]
  have hm0 : 0 ≤ |c.toRat| / l := div_nonneg (abs_nonneg _) (le_of_lt hl)
  have hm2 : |c.toRat| / l ≤ 2 := by
    rw [div_le_iff₀ hl]; exact hq
  obtain ⟨hf, r, hr0, hval, herr⟩ := round64_small_spec c.signBit _ hm0 hm2
  obtain ⟨sn, sp⟩ := signBit_toRat c hc
  rw [hdiv]
  refine ⟨hf, ?_⟩
  rw [hval, abs_div, abs_of_pos hl]
  have e1 : |c.toRat| / l * (1 / 9007199254740992) = |c.toRat| / l / 9007199254740992 := by
    ring
  rw [e1]
  cases hs : c.signBit
  · have h0 := sp hs
    simp only [Bool.false_eq_true, if_false]
    rw [abs_of_nonneg h0] at herr ⊢
    exact herr
  · have h0 := sn hs
    simp only [if_true]
    have e2 : c.toRat / l = -(|c.toRat| / l) := by
      rw [abs_of_nonpos h0]; ring
    rw [e2]
    have e3 : -r - -(|c.toRat| / l) = -(r - |c.toRat| / l) := by ring
    rw [e3, abs_neg]
    exact herr

/-- A square changes little when its root moves by a relative `v` plus a small `d`. -/
theorem sq_near (x y d v : ℚ) (hx : |x| ≤ 2) (hd0 : 0 ≤ d) (hd : d ≤ 1 / 1073741824)
    (hv0 : 0 ≤ v) (hv : v ≤ 1 / 16777216) (he : |y - x| ≤ |x| * v + d) :
    (1 - v) ^ 2 * x ^ 2 - 4 * d ≤ y ^ 2 ∧ y ^ 2 ≤ (1 + v) ^ 2 * x ^ 2 + 5 * d := by
  have h1 : |y| ≤ |x| + |y - x| := by
    have := abs_add x (y - x)
    rwa [add_sub_cancel] at this
  have h2 : |x| ≤ |y| + |y - x| := by
    have := abs_add y (x - y)
    rw [add_sub_cancel, abs_sub_comm x y] at this
    exact this
  rw [← sq_abs x, ← sq_abs y]
  have ha : 0 ≤ |x| := abs_nonneg x
  have hb : 0 ≤ |y| := abs_nonneg y
  generalize |x| = a at *
  generalize |y| = b at *
  generalize |y - x| = e at *
  have hw0 : 0 ≤ a * (1 - v) := mul_nonneg ha (by linarith)
  have hw2 : a * (1 - v) ≤ 2 := by
    have : a * (1 - v) ≤ a * 1 := mul_le_mul_of_nonneg_left (by linarith) ha
    linarith
  have hW0 : 0 ≤ a * (1 + v) := mul_nonneg ha (by linarith)
  have hW2 : a * (1 + v) ≤ 17 / 8 := by
    have : a * (1 + v) ≤ 2 * (1 + v) := mul_le_mul_of_nonneg_right hx (by linarith)
    linarith
  have u1 : b ≤ a * (1 + v) + d := by linarith
  have u2 : a * (1 - v) - d ≤ b := by linarith
  have e1 : (1 - v) ^ 2 * a ^ 2 = (a * (1 - v)) ^ 2 := by ring
  have e2 : (1 + v) ^ 2 * a ^ 2 = (a * (1 + v)) ^ 2 := by ring
  rw [e1, e2]
  generalize a * (1 - v) = w at hw0 hw2 u2 ⊢
  generalize a * (1 + v) = W at hW0 hW2 u1 ⊢
  have hd2 : d ^ 2 ≤ d / 1073741824 := by nlinarith
  constructor
  · by_cases hc : 0 ≤ w - d
    · have : (w - d) ^ 2 ≤ b ^ 2 := pow_le_pow_left₀ hc u2 2
      have hwd : w * d ≤ 2 * d := mul_le_mul_of_nonneg_right hw2 hd0
      nlinarith
    · push_neg at hc
      have : w ^ 2 ≤ d ^ 2 := pow_le_pow_left₀ hw0 (by linarith) 2
      have hb2 : 0 ≤ b ^ 2 := by positivity
      linarith
  · have h0 : 0 ≤ W + d := by linarith
    have : b ^ 2 ≤ (W + d) ^ 2 := pow_le_pow_left₀ hb u1 2
    have hWd : W * d ≤ 17 / 8 * d := mul_le_mul_of_nonneg_right hW2 hd0
    nlinarith

/-- For a finite position whose sum of squares is at least `2^-1056` and does not overflow,
the derived normal is finite and its magnitude is within `1/170000` of 1. -/
theorem normalOf_near_unit (p : Vec3) (hfin : p.isFinite = true)
    (hlo : (2 : ℚ) ^ (-1056 : ℤ) ≤ p.normSq) (hlen : (normLen p).isFinite = true) :
    (normalOf p).isFinite = true ∧ (1 - 1 / 170000) ^ 2 ≤ (normalOf p).normSq ∧
      (normalOf p).normSq ≤ (1 + 1 / 170000) ^ 2 := by
  obtain ⟨l, hl, lpos, b1, b2⟩ := normLen_err p hfin hlo hlen
  have hf := hfin
  simp only [Vec3.isFinite, Bool.and_eq_true] at hf
  obtain ⟨⟨f0, f1⟩, f2⟩ := hf
  have hS : p.normSq = p.c0.toRat ^ 2 + p.c1.toRat ^ 2 + p.c2.toRat ^ 2 := rfl
  have hSpos : 0 < p.normSq := lt_of_lt_of_le (by positivity) hlo
  have q0 : 0 ≤ p.c0.toRat ^ 2 := sq_nonneg _
  have q1 : 0 ≤ p.c1.toRat ^ 2 := sq_nonneg _
  have q2 : 0 ≤ p.c2.toRat ^ 2 := sq_nonneg _
  have hM : 0 < l ^ 2 := by positivity
  have hsmall : ∀ x : ℚ, x ^ 2 ≤ p.normSq → |x| ≤ 2 * l := by
    intro x hx
    apply abs_le_of_sq_le_sq _ (by linarith)
    have e : (2 * l) ^ 2 = 4 * l ^ 2 := by ring
    rw [e]
    norm_num at b1
    nlinarith
  have s0 := hsmall _ (by rw [hS]; linarith : p.c0.toRat ^ 2 ≤ p.normSq)
  have s1 := hsmall _ (by rw [hS]; linarith : p.c1.toRat ^ 2 ≤ p.normSq)
  have s2 := hsmall _ (by rw [hS]; linarith : p.c2.toRat ^ 2 ≤ p.normSq)
  obtain ⟨g0, e0⟩ := div_err p.c0 l f0 lpos s0
  obtain ⟨g1, e1⟩ := div_err p.c1 l f1 lpos s1
  obtain ⟨g2, e2⟩ := div_err p.c2 l f2 lpos s2
  have hd0 : (0 : ℚ) ≤ (2 : ℚ) ^ (-1075 : ℤ) := by positivity
  have hd : (2 : ℚ) ^ (-1075 : ℤ) ≤ 1 / 1073741824 := by
    have : (2 : ℚ) ^ (-1075 : ℤ) ≤ (2 : ℚ) ^ (-30 : ℤ) :=
      zpow_le_zpow_right₀ (by norm_num) (by norm_num)
    have e : (2 : ℚ) ^ (-30 : ℤ) = 1 / 1073741824 := by norm_num
    rwa [e] at this
  have hq : ∀ x : ℚ, |x| ≤ 2 * l → |x / l| ≤ 2 := by
    intro x hx
    rw [abs_div, abs_of_pos lpos, div_le_iff₀ lpos]
    exact hx
  obtain ⟨l0, u0⟩ := sq_near _ _ _ _ (hq _ s0) hd0 hd (by norm_num) (by norm_num) e0
  obtain ⟨l1, u1⟩ := sq_near _ _ _ _ (hq _ s1) hd0 hd (by norm_num) (by norm_num) e1
  obtain ⟨l2, u2⟩ := sq_near _ _ _ _ (hq _ s2) hd0 hd (by norm_num) (by norm_num) e2
  have hN : (normalOf p).normSq = (JsNum.div p.c0 (fin l)).toRat ^ 2
      + (JsNum.div p.c1 (fin l)).toRat ^ 2 + (JsNum.div p.c2 (fin l)).toRat ^ 2 := by
    simp only [normalOf, Vec3.normSq, hl]
  have hQ : ((p.c0.toRat / l) ^ 2 + (p.c1.toRat / l) ^ 2 + (p.c2.toRat / l) ^ 2) * l ^ 2
      = p.normSq := by
    rw [hS]; field_simp
  refine ⟨by simp only [normalOf, Vec3.isFinite, hl, g0, g1, g2, Bool.and_self], ?_, ?_⟩
  · rw [hN]
    generalize (JsNum.div p.c0 (fin l)).toRat ^ 2 = n0 at l0
    generalize (JsNum.div p.c1 (fin l)).toRat ^ 2 = n1 at l1
    generalize (JsNum.div p.c2 (fin l)).toRat ^ 2 = n2 at l2
    generalize (p.c0.toRat / l) ^ 2 = y0 at l0 hQ
    generalize (p.c1.toRat / l) ^ 2 = y1 at l1 hQ
    generalize (p.c2.toRat / l) ^ 2 = y2 at l2 hQ
    generalize (2 : ℚ) ^ (-1075 : ℤ) = d at hd0 hd l0 l1 l2
    rw [← hQ] at b2
    have key : (1 - 1 / 9007199254740992) ^ 2 * l ^ 2 ≤
        ((1 + 1 / 9007199254740992) ^ 3 + 6 / 524288) * (y0 + y1 + y2) * l ^ 2 := by
      rw [mul_assoc]; exact b2
    have key2 := le_of_mul_le_mul_right key hM
    norm_num at key2 l0 l1 l2 hd ⊢
    linarith
  · rw [hN]
    generalize (JsNum.div p.c0 (fin l)).toRat ^ 2 = n0 at u0
    generalize (JsNum.div p.c1 (fin l)).toRat ^ 2 = n1 at u1
    generalize (JsNum.div p.c2 (fin l)).toRat ^ 2 = n2 at u2
    generalize (p.c0.toRat / l) ^ 2 = y0 at u0 hQ
    generalize (p.c1.toRat / l) ^ 2 = y1 at u1 hQ
    generalize (p.c2.toRat / l) ^ 2 = y2 at u2 hQ
    generalize (2 : ℚ) ^ (-1075 : ℤ) = d at hd0 hd u0 u1 u2
    rw [← hQ] at b1
    have key : ((1 - 1 / 9007199254740992) ^ 3 - 6 / 524288) * (y0 + y1 + y2) * l ^ 2 ≤
        (1 + 1 / 9007199254740992) ^ 2 * l ^ 2 := by
      rw [mul_assoc]; exact b1
    have key2 := le_of_mul_le_mul_right key hM
    norm_num at key2 u0 u1 u2 hd ⊢
    linarith

end NormalError

/-! ### The stored normal, the unit axes and the extremes -/

section NormalValues

open JsNum

/-- The error of rounding a magnitude to binary32: relative `2^-24` on normal values,
absolute `2^-150` on subnormal ones. -/
theorem roundedMag32_err (m : ℚ) (hm : 0 ≤ m) :
    |roundedMag 24 (-126) m - m| ≤ m / 16777216 + (2 : ℚ) ^ (-150 : ℤ) := by
  rcases eq_or_lt_of_le hm with h0 | hpos
  · rw [← h0, roundedMag_zero]
    simp only [sub_self, abs_zero, zero_div, zero_add]
    positivity
  · obtain ⟨a1, a2⟩ := log2_bounds hpos
    set L := Int.log 2 m
    have hu : ulpExp 24 (-126) m = max L (-126) - 23 := by
      unfold ulpExp; norm_num
    unfold roundedMag
    rw [hu]
    set u := max L (-126) - 23 with hu2
    have pu : (0 : ℚ) < (2 : ℚ) ^ u := by positivity
    obtain ⟨s1, s2⟩ := roundHalfEven_spec (m / (2 : ℚ) ^ u)
    have hw : (2 : ℚ) ^ u / 2 ≤ m / 16777216 + (2 : ℚ) ^ (-150 : ℤ) := by
      have hd : (0 : ℚ) < (2 : ℚ) ^ (-150 : ℤ) := by positivity
      by_cases hL : L < -126
      · have hu3 : u = -149 := by
          rw [hu2, max_eq_right (le_of_lt hL)]; norm_num
        have e : (2 : ℚ) ^ u / 2 = (2 : ℚ) ^ (-150 : ℤ) := by
          rw [hu3, div_eq_iff (by norm_num)]
          have h2 : (2 : ℚ) ^ (-150 : ℤ) * 2 = (2 : ℚ) ^ (-150 : ℤ) * (2 : ℚ) ^ (1 : ℤ) := by
            norm_num
          rw [h2, ← zpow_add₀ (by norm_num : (2 : ℚ) ≠ 0)]; norm_num
        rw [e]
        have : 0 ≤ m / 16777216 := by positivity
        linarith
      · push_neg at hL
        have hu3 : u = L - 23 := by rw [hu2, max_eq_left hL]
        have e : (2 : ℚ) ^ u / 2 = (2 : ℚ) ^ L / 16777216 := by
          rw [hu3, zpow_sub₀ (by norm_num : (2 : ℚ) ≠ 0)]
          norm_num
          ring
        rw [e]
        have : (2 : ℚ) ^ L / 16777216 ≤ m / 16777216 :=
          div_le_div_of_nonneg_right a1 (by norm_num)
        linarith
    have hm2 : m / (2 : ℚ) ^ u * (2 : ℚ) ^ u = m := div_mul_cancel₀ _ (ne_of_gt pu)
    generalize (roundHalfEven (m / (2 : ℚ) ^ u) : ℚ) = n at s1 s2 ⊢
    generalize m / (2 : ℚ) ^ u = x at s1 s2 hm2
    generalize (2 : ℚ) ^ u = w at pu hw hm2 ⊢
    generalize (2 : ℚ) ^ (-150 : ℤ) = d at hw ⊢
    have k1 : (n - 1 / 2) * w ≤ x * w := mul_le_mul_of_nonneg_right s1 (le_of_lt pu)
    have k2 : x * w ≤ (n + 1 / 2) * w := mul_le_mul_of_nonneg_right s2 (le_of_lt pu)
    rw [abs_le]
    constructor <;> nlinarith

theorem rounded32_err (q : ℚ) :
    |rounded32 q - q| ≤ |q| / 16777216 + (2 : ℚ) ^ (-150 : ℤ) := by
  have h := roundedMag32_err |q| (abs_nonneg q)
  unfold rounded32
  by_cases hq : q < 0
  · rw [if_pos hq]
    rw [abs_of_neg hq] at h ⊢
    have : -roundedMag 24 (-126) (-q) - q = -(roundedMag 24 (-126) (-q) - -q) := by ring
    rw [this, abs_neg]
    exact h
  · rw [if_neg hq]
    push_neg at hq
    rw [abs_of_nonneg hq] at h ⊢
    exact h

/-- The error of `fround` on a finite number of magnitude at most 2. -/
theorem fround_err (a : JsNum) (ha : a.isFinite = true) (hb : |a.toRat| ≤ 2) :
    (fround a).isFinite = true ∧
      |(fround a).toRat - a.toRat| ≤ |a.toRat| / 16777216 + (2 : ℚ) ^ (-150 : ℤ) := by
  have herr := rounded32_err a.toRat
  have hd : (2 : ℚ) ^ (-150 : ℤ) ≤ 1 := zpow_le_one_of_nonpos₀ (by norm_num) (by norm_num)
  obtain ⟨e1, e2⟩ := abs_le.1 herr
  obtain ⟨b1, b2⟩ := abs_le.1 hb
  have hq : |a.toRat| / 16777216 ≤ 1 := by
    rw [div_le_iff₀ (by norm_num)]; linarith
  rcases fround_spec a ha with ⟨c1, _⟩ | ⟨c1, _⟩ | ⟨c1, c2, _, _⟩
  · exfalso; linarith
  · exfalso; linarith
  · exact ⟨c1, by rw [c2]; exact herr⟩

theorem Vec3.fround_comp (p : Vec3) (i : ℕ) (hi : i < 3) :
    (Vec3.fround p).comp i = JsNum.fround (p.comp i) := by
  rcases i with _ | _ | _ | i
  · rfl
  · rfl
  · rfl
  · omega

/-- A finite vector of magnitude within `1/170000` of 1 is stored in float32 as a finite
vector of magnitude within `1e-5` of 1. -/
theorem fround_unit (n : Vec3) (hfin : n.isFinite = true)
    (h1 : (1 - 1 / 170000) ^ 2 ≤ n.normSq)
    (h2 : n.normSq ≤ (1 + 1 / 170000) ^ 2) :
    (Vec3.fround n).isFinite = true ∧ (1 - 1 / 100000) ^ 2 ≤ (Vec3.fround n).normSq ∧
      (Vec3.fround n).normSq ≤ (1 + 1 / 100000) ^ 2 := by
  have hf := hfin
  simp only [Vec3.isFinite, Bool.and_eq_true] at hf
  obtain ⟨⟨f0, f1⟩, f2⟩ := hf
  have hS : n.normSq = n.c0.toRat ^ 2 + n.c1.toRat ^ 2 + n.c2.toRat ^ 2 := rfl
  have hS2 : (Vec3.fround n).normSq = (fround n.c0).toRat ^ 2 + (fround n.c1).toRat ^ 2
      + (fround n.c2).toRat ^ 2 := rfl
  have hd0 : (0 : ℚ) ≤ (2 : ℚ) ^ (-150 : ℤ) := by positivity
  have hd : (2 : ℚ) ^ (-150 : ℤ) ≤ 1 / 1073741824 := by
    have : (2 : ℚ) ^ (-150 : ℤ) ≤ (2 : ℚ) ^ (-30 : ℤ) :=
      zpow_le_zpow_right₀ (by norm_num) (by norm_num)
    have e : (2 : ℚ) ^ (-30 : ℤ) = 1 / 1073741824 := by norm_num
    rwa [e] at this
  have q0 : 0 ≤ n.c0.toRat ^ 2 := by positivity
  have q1 : 0 ≤ n.c1.toRat ^ 2 := by positivity
  have q2 : 0 ≤ n.c2.toRat ^ 2 := by positivity
  have hsmall : ∀ x : ℚ, x ^ 2 ≤ n.normSq → |x| ≤ 2 := by
    intro x hx
    apply abs_le_of_sq_le_sq _ (by norm_num)
    have : n.normSq ≤ 2 ^ 2 := le_trans h2 (by norm_num)
    linarith
  have hfe : ∀ a : JsNum, a.isFinite = true → |a.toRat| ≤ 2 →
      (fround a).isFinite = true ∧
        |(fround a).toRat - a.toRat| ≤ |a.toRat| * (1 / 16777216) + (2 : ℚ) ^ (-150 : ℤ) := by
    intro a ha hb
    obtain ⟨c1, c2⟩ := fround_err a ha hb
    refine ⟨c1, ?_⟩
    have e : |a.toRat| * (1 / 16777216) = |a.toRat| / 16777216 := by ring
    rw [e]; exact c2
  obtain ⟨g0, e0⟩ := hfe n.c0 f0 (hsmall _ (by rw [hS]; linarith))
  obtain ⟨g1, e1⟩ := hfe n.c1 f1 (hsmall _ (by rw [hS]; linarith))
  obtain ⟨g2, e2⟩ := hfe n.c2 f2 (hsmall _ (by rw [hS]; linarith))
  obtain ⟨l0, u0⟩ := sq_near _ _ _ _ (hsmall _ (by rw [hS]; linarith)) hd0 hd (by norm_num)
    (by norm_num) e0
  obtain ⟨l1, u1⟩ := sq_near _ _ _ _ (hsmall _ (by rw [hS]; linarith)) hd0 hd (by norm_num)
    (by norm_num) e1
  obtain ⟨l2, u2⟩ := sq_near _ _ _ _ (hsmall _ (by rw [hS]; linarith)) hd0 hd (by norm_num)
    (by norm_num) e2
  refine ⟨by simp only [Vec3.fround, Vec3.isFinite, g0, g1, g2, Bool.and_self], ?_, ?_⟩
  · rw [hS2]
    rw [hS] at h1
    generalize (2 : ℚ) ^ (-150 : ℤ) = d at *
    norm_num at h1 l0 l1 l2 hd ⊢
    linarith
  · rw [hS2]
    rw [hS] at h2
    generalize (2 : ℚ) ^ (-150 : ℤ) = d at *
    norm_num at h2 u0 u1 u2 hd ⊢
    linarith

theorem packNormals_eq (positions : List Vec3) :
    packNormals positions = packPositions (positions.map normalOf) := by
  simp only [packNormals, packPositions, List.flatMap_def, List.map_map]
  rfl

/-- Reading a float at component `i` of vertex `k` in the packed normals gives that
component of the derived normal, rounded to binary32. -/
theorem readFloatLE_packNormals (positions : List Vec3) (k : ℕ) (p : Vec3)
    (hp : positions[k]? = some p) (i : ℕ) (hi : i < 3) :
    readFloatLE (packNormals positions) (12 * k + 4 * i) =
      some ((Vec3.fround (normalOf p)).comp i) := by
  rw [packNormals_eq, Vec3.fround_comp _ i hi]
  apply readFloatLE_packPositions _ k (normalOf p) _ i hi
  rw [List.getElem?_map, hp]
  rfl

theorem round64_one : round64 false 1 = fin 1 := by
  rw [round64_eval false 1 0 4503599627370496 (by norm_num) (by norm_num) (by norm_num)
    (by norm_num) (by norm_num) (by norm_num) (by norm_num) (by norm_num)]
  norm_num

theorem mul_one_one : JsNum.mul (fin 1) (fin 1) = fin 1 := by
  have h : JsNum.mul (fin 1) (fin 1) = round64 false (|(1 : ℚ)| * |(1 : ℚ)|) := by
    simp [JsNum.mul, isNaN, isFinite, signBit, toRat]
  rw [h, abs_one, mul_one, round64_one]

theorem add_one_zero : JsNum.add (fin 1) (fin 0) = fin 1 := by
  have h : JsNum.add (fin 1) (fin 0) = round64 false 1 := by
    simp [JsNum.add, isNaN, isFinite, toRat, (by norm_num : ¬ ((1 : ℚ) < 0))]
  rw [h, round64_one]

theorem add_zero_one : JsNum.add (fin 0) (fin 1) = fin 1 := by
  have h : JsNum.add (fin 0) (fin 1) = round64 false 1 := by
    simp [JsNum.add, isNaN, isFinite, toRat, (by norm_num : ¬ ((1 : ℚ) < 0))]
  rw [h, round64_one]

theorem add_zero_zero : JsNum.add (fin 0) (fin 0) = fin 0 := by
  simp [JsNum.add, isNaN, isFinite, toRat, signBit, zeroOf]

theorem mul_zero_zero : JsNum.mul (fin 0) (fin 0) = fin 0 :=
  mul_self_of_isZero _ (by simp [isZero])

theorem sqrt_one_scaled :
    ⌊((1 : ℚ) / (2 : ℚ) ^ (2 * (-52 : ℤ)))⌋₊ = 20282409603651670423947251286016 := by
  have h : ((1 : ℚ) / (2 : ℚ) ^ (2 * (-52 : ℤ))) =
      ((20282409603651670423947251286016 : ℕ) : ℚ) := by norm_num
  rw [h, Nat.floor_natCast]

theorem sqrt_one_floor :
    Nat.sqrt 20282409603651670423947251286016 = 4503599627370496 := by
  symm
  rw [Nat.eq_sqrt]
  constructor <;> norm_num

theorem sqrtRound_one : sqrtRound 1 (-52) = 4503599627370496 := by
  unfold sqrtRound
  simp only []
  rw [sqrt_one_scaled, sqrt_one_floor]
  norm_num

theorem sqrt_one : JsNum.sqrt (fin 1) = fin 1 := by
  have hlog : Int.log 2 (1 : ℚ) = 0 := Int.log_one_right 2
  rw [JsNum.sqrt, if_neg (by norm_num), if_neg (by norm_num), hlog]
  simp only []
  have he : max ((0 : ℤ) / 2) (-1022) - 52 = -52 := by norm_num
  rw [he, sqrtRound_one]
  norm_num

theorem div_one_one : JsNum.div (fin 1) (fin 1) = fin 1 := by
  have h : JsNum.div (fin 1) (fin 1) = round64 false (|(1 : ℚ)| / |(1 : ℚ)|) := by
    simp [JsNum.div, isNaN, isFinite, signBit, toRat, isZero]
  rw [h, abs_one, div_one, round64_one]

theorem div_zero_one : JsNum.div (fin 0) (fin 1) = fin 0 :=
  div_one_of_isZero _ (by simp [isZero])

/-- The three unit axes of the scenario are their own normals. -/
theorem normalOf_unitTriangle : ∀ p ∈ unitTriangle, normLen p = fin 1 ∧ normalOf p = p := by
  intro p hp
  simp only [unitTriangle, List.mem_cons, List.mem_singleton, List.not_mem_nil, or_false] at hp
  rcases hp with h | h | h <;> subst h
  · have hl : normLen ⟨fin 1, fin 0, fin 0⟩ = fin 1 := by
      simp [normLen, mul_one_one, mul_zero_zero, add_one_zero, sqrt_one, truthy]
    exact ⟨hl, by simp [normalOf, hl, div_one_one, div_zero_one]⟩
  · have hl : normLen ⟨fin 0, fin 1, fin 0⟩ = fin 1 := by
      simp [normLen, mul_one_one, mul_zero_zero, add_one_zero, add_zero_one, sqrt_one, truthy]
    exact ⟨hl, by simp [normalOf, hl, div_one_one, div_zero_one]⟩
  · have hl : normLen ⟨fin 0, fin 0, fin 1⟩ = fin 1 := by
      simp [normLen, mul_one_one, mul_zero_zero, add_zero_zero, add_zero_one, sqrt_one, truthy]
    exact ⟨hl, by simp [normalOf, hl, div_one_one, div_zero_one]⟩

/-- A positive magnitude of at most `2^-1076` rounds to `+0` in binary64. -/
theorem round64_underflow (m : ℚ) (hm : 0 < m) (hs : m ≤ (2 : ℚ) ^ (-1076 : ℤ)) :
    round64 false m = fin 0 := by
  have hlt : m < (2 : ℚ) ^ (-1075 : ℤ) :=
    lt_of_le_of_lt hs (zpow_lt_zpow_right₀ (by norm_num) (by norm_num))
  have hlog : Int.log 2 m < -1075 := by
    rw [← Int.lt_zpow_iff_log_lt (by norm_num) hm]
    exact_mod_cast hlt
  have hu : ulpExp 53 (-1022) m = -1074 := by
    unfold ulpExp
    rw [max_eq_right (by omega)]
    norm_num
  have hq : m / (2 : ℚ) ^ (-1074 : ℤ) ≤ 1 / 4 := by
    rw [div_le_iff₀ (by positivity)]
    have : (1 / 4 : ℚ) * (2 : ℚ) ^ (-1074 : ℤ) = (2 : ℚ) ^ (-1076 : ℤ) := by
      have h4 : (1 / 4 : ℚ) = (2 : ℚ) ^ (-2 : ℤ) := by norm_num
      rw [h4, ← zpow_add₀ (by norm_num : (2 : ℚ) ≠ 0)]; norm_num
    rw [this]; exact hs
  have hq0 : 0 < m / (2 : ℚ) ^ (-1074 : ℤ) := div_pos hm (by positivity)
  have hr : roundHalfEven (m / (2 : ℚ) ^ (-1074 : ℤ)) = 0 := by
    apply roundHalfEven_eq_of_lt
    · push_cast; linarith
    · push_cast; linarith
  have hmag : roundMag 53 (-1022) 1023 m = some 0 := by
    unfold roundMag
    rw [if_neg (ne_of_gt hm)]
    simp only [hu, hr]
    have : ¬ ((2 : ℚ) ^ ((1023 : ℤ) + 1) ≤ ((0 : ℤ) : ℚ) * (2 : ℚ) ^ (-1074 : ℤ)) := by
      rw [Int.cast_zero, zero_mul]; push_neg; positivity
    rw [if_neg this, Int.cast_zero, zero_mul]
  unfold round64 roundTo
  rw [hmag]
  rfl

/-- A power of two in the normal range of binary64 rounds to itself. -/
theorem round64_two_zpow (E : ℤ) (h1 : -1022 ≤ E) (h2 : E ≤ 1023) :
    round64 false ((2 : ℚ) ^ E) = fin ((2 : ℚ) ^ E) := by
  have e52 : ((4503599627370496 : ℤ) : ℚ) * (2 : ℚ) ^ (E - 52) = (2 : ℚ) ^ E := by
    have h52 : ((4503599627370496 : ℤ) : ℚ) = (2 : ℚ) ^ (52 : ℤ) := by norm_num
    rw [h52, ← zpow_add₀ (by norm_num : (2 : ℚ) ≠ 0)]; congr 1; ring
  have ediv : (2 : ℚ) ^ E / (2 : ℚ) ^ (E - 52) = ((4503599627370496 : ℤ) : ℚ) := by
    rw [div_eq_iff (by positivity), e52]
  rw [round64_eval false ((2 : ℚ) ^ E) E 4503599627370496 (by positivity) le_rfl
    (zpow_lt_zpow_right₀ (by norm_num) (by omega)) h1
    (by rw [ediv]; norm_num) (by rw [ediv]; norm_num)
    (by rw [e52]; exact zpow_lt_zpow_right₀ (by norm_num) (by omega)) (by norm_num)]
  simp only [Bool.false_eq_true, if_false]
  rw [e52]

theorem mul_self_pos (x : ℚ) (hx : 0 < x) :
    JsNum.mul (fin x) (fin x) = round64 false (x * x) := by
  simp [JsNum.mul, isNaN, isFinite, signBit, toRat, abs_of_pos hx]

theorem div_one_pos (x : ℚ) (hx : 0 < x) :
    JsNum.div (fin x) (fin 1) = round64 false x := by
  simp [JsNum.div, isNaN, isFinite, signBit, toRat, isZero, abs_of_pos hx,
    not_lt.2 (le_of_lt hx), (by norm_num : ¬ ((1 : ℚ) < 0))]

theorem normalOf_small (E : ℤ) (h1 : -1022 ≤ E) (h2 : E ≤ -538) :
    normLen ⟨fin ((2 : ℚ) ^ E), fin 0, fin 0⟩ = fin 1 ∧
      normalOf ⟨fin ((2 : ℚ) ^ E), fin 0, fin 0⟩ = ⟨fin ((2 : ℚ) ^ E), fin 0, fin 0⟩ := by
  have hp : (0 : ℚ) < (2 : ℚ) ^ E := by positivity
  have hsq : (2 : ℚ) ^ E * (2 : ℚ) ^ E ≤ (2 : ℚ) ^ (-1076 : ℤ) := by
    rw [← zpow_add₀ (by norm_num : (2 : ℚ) ≠ 0)]
    exact zpow_le_zpow_right₀ (by norm_num) (by omega)
  have hmul : JsNum.mul (fin ((2 : ℚ) ^ E)) (fin ((2 : ℚ) ^ E)) = fin 0 := by
    rw [mul_self_pos _ hp, round64_underflow _ (mul_pos hp hp) hsq]
  have hdiv : JsNum.div (fin ((2 : ℚ) ^ E)) (fin 1) = fin ((2 : ℚ) ^ E) := by
    rw [div_one_pos _ hp, round64_two_zpow E h1 (by omega)]
  generalize (2 : ℚ) ^ E = x at hmul hdiv
  have hs0 : JsNum.sqrt (fin 0) = fin 0 := by simp [JsNum.sqrt]
  have hl : normLen ⟨fin x, fin 0, fin 0⟩ = fin 1 := by
    simp only [normLen, hmul, mul_zero_zero, add_zero_zero, hs0]
    simp [truthy]
  exact ⟨hl, by simp only [normalOf, hl, hdiv, div_zero_one]⟩

theorem small_normSq (E : ℤ) (h2 : E ≤ -1) :
    (⟨fin ((2 : ℚ) ^ E), fin 0, fin 0⟩ : Vec3).normSq ≠ 0 ∧
      (⟨fin ((2 : ℚ) ^ E), fin 0, fin 0⟩ : Vec3).normSq < (1 - 1 / 100000) ^ 2 := by
  have hp : (0 : ℚ) < (2 : ℚ) ^ E := by positivity
  have hle : (2 : ℚ) ^ E ≤ (2 : ℚ) ^ (-1 : ℤ) :=
    zpow_le_zpow_right₀ (by norm_num) h2
  have h2 : (2 : ℚ) ^ (-1 : ℤ) = 1 / 2 := by norm_num
  rw [h2] at hle
  generalize (2 : ℚ) ^ E = x at hp hle
  have e : (⟨fin x, fin 0, fin 0⟩ : Vec3).normSq = x ^ 2 := by
    simp [Vec3.normSq, toRat]
  rw [e]
  constructor
  · positivity
  · nlinarith

/-- A magnitude of at least `2^1024` overflows to `Infinity` in binary64. -/
theorem round64_overflow (m : ℚ) (h : (2 : ℚ) ^ (1024 : ℤ) ≤ m) : round64 false m = posInf := by
  have hm : 0 < m := lt_of_lt_of_le (by positivity) h
  obtain ⟨a1, a2⟩ := log2_bounds hm
  have hL : 1024 ≤ Int.log 2 m := by
    rw [← Int.zpow_le_iff_le_log (by norm_num) hm]
    exact_mod_cast h
  have hu : ulpExp 53 (-1022) m = Int.log 2 m - 52 := by
    unfold ulpExp
    rw [max_eq_left (by omega)]
    norm_num
  generalize Int.log 2 m = L at a1 a2 hL hu
  have pu : (0 : ℚ) < (2 : ℚ) ^ (L - 52) := by positivity
  have e52 : ((4503599627370496 : ℤ) : ℚ) * (2 : ℚ) ^ (L - 52) = (2 : ℚ) ^ L := by
    have h52 : ((4503599627370496 : ℤ) : ℚ) = (2 : ℚ) ^ (52 : ℤ) := by norm_num
    rw [h52, ← zpow_add₀ (by norm_num : (2 : ℚ) ≠ 0)]; congr 1; ring
  have hx : ((4503599627370496 : ℤ) : ℚ) ≤ m / (2 : ℚ) ^ (L - 52) := by
    rw [le_div_iff₀ pu, e52]; exact a1
  have hk := roundHalfEven_mono hx
  rw [roundHalfEven_intCast] at hk
  have hkq : ((4503599627370496 : ℤ) : ℚ) ≤ (roundHalfEven (m / (2 : ℚ) ^ (L - 52)) : ℚ) := by
    exact_mod_cast hk
  have hbig : (2 : ℚ) ^ ((1023 : ℤ) + 1) ≤
      (roundHalfEven (m / (2 : ℚ) ^ (L - 52)) : ℚ) * (2 : ℚ) ^ (L - 52) := by
    calc (2 : ℚ) ^ ((1023 : ℤ) + 1) ≤ (2 : ℚ) ^ L :=
          zpow_le_zpow_right₀ (by norm_num) (by omega)
      _ = ((4503599627370496 : ℤ) : ℚ) * (2 : ℚ) ^ (L - 52) := e52.symm
      _ ≤ _ := mul_le_mul_of_nonneg_right hkq (le_of_lt pu)
  have hmag : roundMag 53 (-1022) 1023 m = none := by
    unfold roundMag
    rw [if_neg (ne_of_gt hm)]
    simp only [hu]
    rw [if_pos hbig]
  unfold round64 roundTo
  rw [hmag]
  rfl

/-- A position `(2^E, 0, 0)` whose square overflows gets the zero vector as its normal. -/
theorem normalOf_large (E : ℤ) (h1 : 512 ≤ E) :
    normLen ⟨fin ((2 : ℚ) ^ E), fin 0, fin 0⟩ = posInf ∧
      normalOf ⟨fin ((2 : ℚ) ^ E), fin 0, fin 0⟩ = ⟨fin 0, fin 0, fin 0⟩ := by
  have hp : (0 : ℚ) < (2 : ℚ) ^ E := by positivity
  have hsq : (2 : ℚ) ^ (1024 : ℤ) ≤ (2 : ℚ) ^ E * (2 : ℚ) ^ E := by
    rw [← zpow_add₀ (by norm_num : (2 : ℚ) ≠ 0)]
    exact zpow_le_zpow_right₀ (by norm_num) (by omega)
  have hmul : JsNum.mul (fin ((2 : ℚ) ^ E)) (fin ((2 : ℚ) ^ E)) = posInf := by
    rw [mul_self_pos _ hp, round64_overflow _ hsq]
  generalize (2 : ℚ) ^ E = x at hmul hp
  have hadd : JsNum.add posInf (fin 0) = posInf := by
    simp [JsNum.add, isNaN, isFinite]
  have hl : normLen ⟨fin x, fin 0, fin 0⟩ = posInf := by
    simp only [normLen, hmul, mul_zero_zero, hadd, JsNum.sqrt]
    simp [truthy]
  have hd : JsNum.div (fin x) posInf = fin 0 := by
    simp [JsNum.div, isNaN, isFinite, signBit, zeroOf, not_lt.2 (le_of_lt hp)]
  have hd0 : JsNum.div (fin 0) posInf = fin 0 := by
    simp [JsNum.div, isNaN, isFinite, signBit, zeroOf]
  exact ⟨hl, by simp only [normalOf, hl, hd, hd0]⟩

theorem fround_unitTriangle : ∀ p ∈ unitTriangle, Vec3.fround p = p := by
  intro p hp
  simp only [unitTriangle, List.mem_cons, List.mem_singleton, List.not_mem_nil, or_false] at hp
  rcases hp with h | h | h <;> subst h <;> simp only [Vec3.fround, fround_one, fround_zero]

/-- A positive magnitude `c * 2^-1074` below the normal range rounds to the nearest multiple
of `2^-1074`. -/
theorem round64_subnormal (c : ℚ) (k : ℤ) (hc : 0 < c) (hc2 : c < 4503599627370496)
    (hk1 : (k : ℚ) - 1 / 2 < c) (hk2 : c < (k : ℚ) + 1 / 2) (hk : 0 < k) :
    round64 false (c * (2 : ℚ) ^ (-1074 : ℤ)) = fin ((k : ℚ) * (2 : ℚ) ^ (-1074 : ℤ)) := by
  have pw : (0 : ℚ) < (2 : ℚ) ^ (-1074 : ℤ) := by positivity
  have hm : 0 < c * (2 : ℚ) ^ (-1074 : ℤ) := mul_pos hc pw
  have e52 : (4503599627370496 : ℚ) * (2 : ℚ) ^ (-1074 : ℤ) = (2 : ℚ) ^ (-1022 : ℤ) := by
    have h52 : (4503599627370496 : ℚ) = (2 : ℚ) ^ (52 : ℤ) := by norm_num
    rw [h52, ← zpow_add₀ (by norm_num : (2 : ℚ) ≠ 0)]; norm_num
  have hlt : c * (2 : ℚ) ^ (-1074 : ℤ) < (2 : ℚ) ^ (-1022 : ℤ) := by
    rw [← e52]; exact mul_lt_mul_of_pos_right hc2 pw
  have hlog : Int.log 2 (c * (2 : ℚ) ^ (-1074 : ℤ)) < -1022 := by
    rw [← Int.lt_zpow_iff_log_lt (by norm_num) hm]
    exact_mod_cast hlt
  have hu : ulpExp 53 (-1022) (c * (2 : ℚ) ^ (-1074 : ℤ)) = -1074 := by
    unfold ulpExp
    rw [max_eq_right (le_of_lt hlog)]
    norm_num
  have hq : c * (2 : ℚ) ^ (-1074 : ℤ) / (2 : ℚ) ^ (-1074 : ℤ) = c :=
    mul_div_cancel_right₀ c (ne_of_gt pw)
  have hr : roundHalfEven c = k := roundHalfEven_eq_of_lt c k hk1 hk2
  have hkq : (0 : ℚ) < (k : ℚ) := by exact_mod_cast hk
  have hk52 : (k : ℚ) ≤ 4503599627370496 := by
    have h1 : (k : ℚ) < 4503599627370496 + 1 := by linarith
    have h2 : k < 4503599627370496 + 1 := by exact_mod_cast h1
    have h3 : k ≤ 4503599627370496 := by omega
    exact_mod_cast h3
  have hov : ¬ ((2 : ℚ) ^ ((1023 : ℤ) + 1) ≤ (k : ℚ) * (2 : ℚ) ^ (-1074 : ℤ)) := by
    rw [not_le]
    calc (k : ℚ) * (2 : ℚ) ^ (-1074 : ℤ) ≤ 4503599627370496 * (2 : ℚ) ^ (-1074 : ℤ) :=
          mul_le_mul_of_nonneg_right hk52 (le_of_lt pw)
      _ = (2 : ℚ) ^ (-1022 : ℤ) := e52
      _ < (2 : ℚ) ^ ((1023 : ℤ) + 1) := zpow_lt_zpow_right₀ (by norm_num) (by norm_num)
  have hmag : roundMag 53 (-1022) 1023 (c * (2 : ℚ) ^ (-1074 : ℤ)) =
      some ((k : ℚ) * (2 : ℚ) ^ (-1074 : ℤ)) := by
    unfold roundMag
    rw [if_neg (ne_of_gt hm)]
    simp only [hu, hq, hr]
    rw [if_neg hov]
  have hne : (k : ℚ) * (2 : ℚ) ^ (-1074 : ℤ) ≠ 0 := ne_of_gt (mul_pos hkq pw)
  unfold round64 roundTo
  rw [hmag]
  simp only [if_neg hne, Bool.false_eq_true, if_false]

theorem add_pos_zero (a : ℚ) (ha : 0 < a) : JsNum.add (fin a) (fin 0) = round64 false a := by
  simp [JsNum.add, isNaN, isFinite, toRat, ne_of_gt ha, not_lt.2 (le_of_lt ha),
    abs_of_pos ha]

theorem div_pos_pos (x l : ℚ) (hx : 0 < x) (hl : 0 < l) :
    JsNum.div (fin x) (fin l) = round64 false (x / l) := by
  simp [JsNum.div, isNaN, isFinite, signBit, toRat, isZero, abs_of_pos hx, abs_of_pos hl,
    ne_of_gt hl, not_lt.2 (le_of_lt hx), not_lt.2 (le_of_lt hl)]

theorem div_zero_pos (l : ℚ) (hl : 0 < l) : JsNum.div (fin 0) (fin l) = fin 0 := by
  simp [JsNum.div, isNaN, isFinite, signBit, toRat, isZero, ne_of_gt hl,
    not_lt.2 (le_of_lt hl), round64, roundTo, roundMag, zeroOf]

theorem sqrtRound_of_ratio (q : ℚ) (e : ℤ)
    (h : q / (2 : ℚ) ^ (2 * e) = 20282409603651670423947251286016) :
    sqrtRound q e = 4503599627370496 := by
  have hfl : ⌊(20282409603651670423947251286016 : ℚ)⌋₊ = 20282409603651670423947251286016 := by
    have hc : (20282409603651670423947251286016 : ℚ) =
        ((20282409603651670423947251286016 : ℕ) : ℚ) := by norm_num
    rw [hc, Nat.floor_natCast]
  unfold sqrtRound
  simp only []
  rw [h, hfl, sqrt_one_floor]
  norm_num

/-- The square root of the least positive double `2^-1074` is `2^-537`. -/
theorem sqrt_least : JsNum.sqrt (fin ((2 : ℚ) ^ (-1074 : ℤ))) = fin ((2 : ℚ) ^ (-537 : ℤ)) := by
  have hp : (0 : ℚ) < (2 : ℚ) ^ (-1074 : ℤ) := by positivity
  have hlog : Int.log 2 ((2 : ℚ) ^ (-1074 : ℤ)) = -1074 :=
    log2_eq hp le_rfl (zpow_lt_zpow_right₀ (by norm_num) (by norm_num))
  have he : max ((-1074 : ℤ) / 2) (-1022) - 52 = -589 := by norm_num
  have hratio : (2 : ℚ) ^ (-1074 : ℤ) / (2 : ℚ) ^ (2 * (-589 : ℤ)) =
      20282409603651670423947251286016 := by
    rw [← zpow_sub₀ (by norm_num : (2 : ℚ) ≠ 0)]; norm_num
  rw [JsNum.sqrt, if_neg (not_lt.2 (le_of_lt hp)), if_neg (ne_of_gt hp), hlog]
  simp only []
  rw [he, sqrtRound_of_ratio _ _ hratio]
  congr 1
  have h52 : ((4503599627370496 : ℕ) : ℚ) = (2 : ℚ) ^ (52 : ℤ) := by norm_num
  rw [h52, ← zpow_add₀ (by norm_num : (2 : ℚ) ≠ 0)]; norm_num

theorem round64_three_quarters : round64 false (3 / 4) = fin (3 / 4) := by
  rw [round64_eval false (3 / 4) (-1) 6755399441055744 (by norm_num) (by norm_num)
    (by norm_num) (by norm_num) (by norm_num) (by norm_num) (by norm_num) (by norm_num)]
  norm_num

/-- The position `(3 * 2^-539, 0, 0)`: its square rounds to the least positive double, the
length is `2^-537` and the derived normal is `(3/4, 0, 0)`. -/
theorem normalOf_subnormal :
    normLen ⟨fin (3 * (2 : ℚ) ^ (-539 : ℤ)), fin 0, fin 0⟩ = fin ((2 : ℚ) ^ (-537 : ℤ)) ∧
      normalOf ⟨fin (3 * (2 : ℚ) ^ (-539 : ℤ)), fin 0, fin 0⟩ = ⟨fin (3 / 4), fin 0, fin 0⟩ := by
  have hx : (0 : ℚ) < 3 * (2 : ℚ) ^ (-539 : ℤ) := by positivity
  have hl : (0 : ℚ) < (2 : ℚ) ^ (-537 : ℤ) := by positivity
  have hleast : (0 : ℚ) < (2 : ℚ) ^ (-1074 : ℤ) := by positivity
  have hsq : 3 * (2 : ℚ) ^ (-539 : ℤ) * (3 * (2 : ℚ) ^ (-539 : ℤ)) =
      9 / 16 * (2 : ℚ) ^ (-1074 : ℤ) := by
    have h16 : (9 / 16 : ℚ) = 9 * (2 : ℚ) ^ (-4 : ℤ) := by norm_num
    have e1 : (2 : ℚ) ^ (-539 : ℤ) * (2 : ℚ) ^ (-539 : ℤ) = (2 : ℚ) ^ (-1078 : ℤ) := by
      rw [← zpow_add₀ (by norm_num : (2 : ℚ) ≠ 0)]; norm_num
    have e2 : (2 : ℚ) ^ (-4 : ℤ) * (2 : ℚ) ^ (-1074 : ℤ) = (2 : ℚ) ^ (-1078 : ℤ) := by
      rw [← zpow_add₀ (by norm_num : (2 : ℚ) ≠ 0)]; norm_num
    calc 3 * (2 : ℚ) ^ (-539 : ℤ) * (3 * (2 : ℚ) ^ (-539 : ℤ))
        = 9 * ((2 : ℚ) ^ (-539 : ℤ) * (2 : ℚ) ^ (-539 : ℤ)) := by ring
      _ = 9 * ((2 : ℚ) ^ (-4 : ℤ) * (2 : ℚ) ^ (-1074 : ℤ)) := by rw [e1, e2]
      _ = 9 / 16 * (2 : ℚ) ^ (-1074 : ℤ) := by rw [h16]; ring
  have hone : ((1 : ℤ) : ℚ) * (2 : ℚ) ^ (-1074 : ℤ) = (2 : ℚ) ^ (-1074 : ℤ) := by
    rw [Int.cast_one, one_mul]
  have hmul : JsNum.mul (fin (3 * (2 : ℚ) ^ (-539 : ℤ))) (fin (3 * (2 : ℚ) ^ (-539 : ℤ))) =
      fin ((2 : ℚ) ^ (-1074 : ℤ)) := by
    rw [mul_self_pos _ hx, hsq, round64_subnormal (9 / 16) 1 (by norm_num) (by norm_num)
      (by norm_num) (by norm_num) (by norm_num), hone]
  have hadd : JsNum.add (fin ((2 : ℚ) ^ (-1074 : ℤ))) (fin 0) = fin ((2 : ℚ) ^ (-1074 : ℤ)) := by
    rw [add_pos_zero _ hleast]
    have h := round64_subnormal 1 1 (by norm_num) (by norm_num) (by norm_num) (by norm_num)
      (by norm_num)
    rw [one_mul, hone] at h
    exact h
  have hdiv : JsNum.div (fin (3 * (2 : ℚ) ^ (-539 : ℤ))) (fin ((2 : ℚ) ^ (-537 : ℤ))) =
      fin (3 / 4) := by
    have hquot : 3 * (2 : ℚ) ^ (-539 : ℤ) / (2 : ℚ) ^ (-537 : ℤ) = 3 / 4 := by
      rw [mul_div_assoc, ← zpow_sub₀ (by norm_num : (2 : ℚ) ≠ 0)]; norm_num
    rw [div_pos_pos _ _ hx hl, hquot, round64_three_quarters]
  have hd0 := div_zero_pos _ hl
  have hs := sqrt_least
  generalize (3 : ℚ) * (2 : ℚ) ^ (-539 : ℤ) = x at hmul hdiv
  generalize (2 : ℚ) ^ (-1074 : ℤ) = a at hmul hadd hs
  generalize (2 : ℚ) ^ (-537 : ℤ) = l at hs hdiv hd0 hl
  have hlen : normLen ⟨fin x, fin 0, fin 0⟩ = fin l := by
    simp only [normLen, hmul, mul_zero_zero, hadd, hs]
    simp [truthy, ne_of_gt hl]
  exact ⟨hlen, by simp only [normalOf, hlen, hdiv, hd0]⟩

theorem subnormal_normSq :
    (⟨fin (3 * (2 : ℚ) ^ (-539 : ℤ)), fin 0, fin 0⟩ : Vec3).normSq ≠ 0 ∧
      (⟨fin (3 / 4), fin 0, fin 0⟩ : Vec3).normSq < (1 - 1 / 100000) ^ 2 := by
  constructor
  · have hx : (0 : ℚ) < 3 * (2 : ℚ) ^ (-539 : ℤ) := by positivity
    have e : (⟨fin (3 * (2 : ℚ) ^ (-539 : ℤ)), fin 0, fin 0⟩ : Vec3).normSq =
        (3 * (2 : ℚ) ^ (-539 : ℤ)) ^ 2 := by
      simp only [Vec3.normSq, toRat_fin]; ring
    rw [e]
    exact ne_of_gt (by positivity)
  · simp only [Vec3.normSq, toRat_fin]
    norm_num

/-- The position `(1, 2^E, 0)` with `2^E` so small that its square underflows: the length is
1 and the derived normal is the position itself. -/
theorem normalOf_mixed (E : ℤ) (h1 : -1022 ≤ E) (h2 : E ≤ -538) :
    normLen ⟨fin 1, fin ((2 : ℚ) ^ E), fin 0⟩ = fin 1 ∧
      normalOf ⟨fin 1, fin ((2 : ℚ) ^ E), fin 0⟩ = ⟨fin 1, fin ((2 : ℚ) ^ E), fin 0⟩ := by
  have hp : (0 : ℚ) < (2 : ℚ) ^ E := by positivity
  have hsq : (2 : ℚ) ^ E * (2 : ℚ) ^ E ≤ (2 : ℚ) ^ (-1076 : ℤ) := by
    rw [← zpow_add₀ (by norm_num : (2 : ℚ) ≠ 0)]
    exact zpow_le_zpow_right₀ (by norm_num) (by omega)
  have hmul : JsNum.mul (fin ((2 : ℚ) ^ E)) (fin ((2 : ℚ) ^ E)) = fin 0 := by
    rw [mul_self_pos _ hp, round64_underflow _ (mul_pos hp hp) hsq]
  have hdiv : JsNum.div (fin ((2 : ℚ) ^ E)) (fin 1) = fin ((2 : ℚ) ^ E) := by
    rw [div_one_pos _ hp, round64_two_zpow E h1 (by omega)]
  generalize (2 : ℚ) ^ E = x at hmul hdiv
  have hl : normLen ⟨fin 1, fin x, fin 0⟩ = fin 1 := by
    simp only [normLen, hmul, mul_one_one, mul_zero_zero, add_one_zero, sqrt_one]
    simp [truthy]
  exact ⟨hl, by simp only [normalOf, hl, hdiv, div_one_one, div_zero_one]⟩

theorem mixed_normSq (E : ℤ) :
    (2 : ℚ) ^ (-1056 : ℤ) ≤ (⟨fin 1, fin ((2 : ℚ) ^ E), fin 0⟩ : Vec3).normSq := by
  have h1 : (2 : ℚ) ^ (-1056 : ℤ) ≤ 1 := zpow_le_one_of_nonpos₀ (by norm_num) (by norm_num)
  have e : (⟨fin 1, fin ((2 : ℚ) ^ E), fin 0⟩ : Vec3).normSq = 1 + ((2 : ℚ) ^ E) ^ 2 := by
    simp only [Vec3.normSq, toRat_fin]; ring
  rw [e]
  have : 0 ≤ ((2 : ℚ) ^ E) ^ 2 := sq_nonneg _
  linarith

end NormalValues

/-- C11 as stated fails where the sum of squares underflows or overflows. The position
`(2^-600, 0, 0)` has nonzero magnitude, but its square underflows to 0, the length guard
yields 1 and the derived normal is the position itself, of magnitude `2^-600`. The position
`(3 * 2^-539, 0, 0)` has a square that rounds to the least positive double `2^-1074`, the
length is `2^-537` (not zero, so the guard does not apply) and the derived normal is
`(3/4, 0, 0)`, of magnitude `3/4`. The position `(2^600, 0, 0)` has a square that overflows,
the length is `Infinity` and the derived normal is `(0, 0, 0)`. The first document is
produced and holds its normal in the normal segment. -/
theorem C11_counterexample :
    gltf "Tiny" [⟨JsNum.fin ((2 : ℚ) ^ (-600 : ℤ)), JsNum.fin 0, JsNum.fin 0⟩] [0, 0, 0] [] =
        Except.ok (document "Tiny"
          [⟨JsNum.fin ((2 : ℚ) ^ (-600 : ℤ)), JsNum.fin 0, JsNum.fin 0⟩] [0, 0, 0] []) ∧
      (⟨JsNum.fin ((2 : ℚ) ^ (-600 : ℤ)), JsNum.fin 0, JsNum.fin 0⟩ : Vec3).normSq ≠ 0 ∧
      normLen ⟨JsNum.fin ((2 : ℚ) ^ (-600 : ℤ)), JsNum.fin 0, JsNum.fin 0⟩ = JsNum.fin 1 ∧
      normalOf ⟨JsNum.fin ((2 : ℚ) ^ (-600 : ℤ)), JsNum.fin 0, JsNum.fin 0⟩ =
        ⟨JsNum.fin ((2 : ℚ) ^ (-600 : ℤ)), JsNum.fin 0, JsNum.fin 0⟩ ∧
      (normalOf ⟨JsNum.fin ((2 : ℚ) ^ (-600 : ℤ)), JsNum.fin 0, JsNum.fin 0⟩).normSq
        < (1 - 1 / 100000) ^ 2 ∧
      vertexSlot (packNormals [⟨JsNum.fin ((2 : ℚ) ^ (-600 : ℤ)), JsNum.fin 0, JsNum.fin 0⟩]) 0
        = packVec3 (normalOf ⟨JsNum.fin ((2 : ℚ) ^ (-600 : ℤ)), JsNum.fin 0, JsNum.fin 0⟩) ∧
      segment (document "Tiny"
          [⟨JsNum.fin ((2 : ℚ) ^ (-600 : ℤ)), JsNum.fin 0, JsNum.fin 0⟩] [0, 0, 0] []) 1 =
        some (packNormals [⟨JsNum.fin ((2 : ℚ) ^ (-600 : ℤ)), JsNum.fin 0, JsNum.fin 0⟩]) ∧
      (⟨JsNum.fin (3 * (2 : ℚ) ^ (-539 : ℤ)), JsNum.fin 0, JsNum.fin 0⟩ : Vec3).normSq ≠ 0 ∧
      normLen ⟨JsNum.fin (3 * (2 : ℚ) ^ (-539 : ℤ)), JsNum.fin 0, JsNum.fin 0⟩ =
        JsNum.fin ((2 : ℚ) ^ (-537 : ℤ)) ∧
      normalOf ⟨JsNum.fin (3 * (2 : ℚ) ^ (-539 : ℤ)), JsNum.fin 0, JsNum.fin 0⟩ =
        ⟨JsNum.fin (3 / 4), JsNum.fin 0, JsNum.fin 0⟩ ∧
      (normalOf ⟨JsNum.fin (3 * (2 : ℚ) ^ (-539 : ℤ)), JsNum.fin 0, JsNum.fin 0⟩).normSq
        < (1 - 1 / 100000) ^ 2 ∧
      (⟨JsNum.fin ((2 : ℚ) ^ (600 : ℤ)), JsNum.fin 0, JsNum.fin 0⟩ : Vec3).isFinite = true ∧
      normLen ⟨JsNum.fin ((2 : ℚ) ^ (600 : ℤ)), JsNum.fin 0, JsNum.fin 0⟩ = JsNum.posInf ∧
      normalOf ⟨JsNum.fin ((2 : ℚ) ^ (600 : ℤ)), JsNum.fin 0, JsNum.fin 0⟩ =
        ⟨JsNum.fin 0, JsNum.fin 0, JsNum.fin 0⟩ := by
  obtain ⟨t1, t2⟩ := normalOf_small (-600) (by norm_num) (by norm_num)
  obtain ⟨s1, s2⟩ := small_normSq (-600) (by norm_num)
  obtain ⟨b1, b2⟩ := normalOf_large 600 (by norm_num)
  obtain ⟨m1, m2⟩ := normalOf_subnormal
  obtain ⟨q1, q2⟩ := subnormal_normSq
  refine ⟨gltf_ok _ _ _ _ (by decide), s1, t1, t2, ?_,
    vertexSlot_packNormals _ 0 _ rfl, (document_segments _ _ _ _).2.1, q1, m1, m2, ?_,
    rfl, b1, b2⟩
  · rw [t2]
    exact s2
  · rw [m2]
    exact q2

/-- C11 (amended). For every vertex whose position is finite and whose sum of squares
neither underflows nor overflows (the exact sum `x*x + y*y + z*z` is at least `2^-1056` and
the length computed at line 19 is finite), the normal `createGltf` derives is finite and has
magnitude 1 within tolerance `1e-5`, both as computed in double precision and as read back
from the normal segment in 32-bit float; the normal segment holds its twelve bytes at that
vertex. The positions `(1,0,0)`, `(0,1,0)` and `(0,0,1)` are their own normals, also as
stored. -/
theorem C11_unit_normals (name : String) (positions : List Vec3) (indices : List ℤ)
    (colors : List Vec4) (doc : Gltf) (k : ℕ) (p : Vec3)
    (h : gltf name positions indices colors = Except.ok doc)
    (hp : positions[k]? = some p) (hfin : p.isFinite = true)
    (hlo : (2 : ℚ) ^ (-1056 : ℤ) ≤ p.normSq) (hlen : (normLen p).isFinite = true) :
    ((normalOf p).isFinite = true ∧ (1 - 1 / 100000) ^ 2 ≤ (normalOf p).normSq ∧
      (normalOf p).normSq ≤ (1 + 1 / 100000) ^ 2) ∧
    (∃ nb, segment doc 1 = some nb ∧ vertexSlot nb k = packVec3 (normalOf p) ∧
      (∀ i, i < 3 →
        readFloatLE nb (12 * k + 4 * i) = some ((Vec3.fround (normalOf p)).comp i)) ∧
      (Vec3.fround (normalOf p)).isFinite = true ∧
      (1 - 1 / 100000) ^ 2 ≤ (Vec3.fround (normalOf p)).normSq ∧
      (Vec3.fround (normalOf p)).normSq ≤ (1 + 1 / 100000) ^ 2) ∧
    (p ∈ unitTriangle → normalOf p = p ∧ Vec3.fround (normalOf p) = p) := by
  obtain ⟨_, hdoc⟩ := gltf_inv name positions indices colors doc h
  subst hdoc
  obtain ⟨n1, n2, n3⟩ := normalOf_near_unit p hfin hlo hlen
  refine ⟨⟨n1, le_trans (by norm_num) n2, le_trans n3 (by norm_num)⟩,
    ⟨packNormals positions, (document_segments name positions indices colors).2.1,
      vertexSlot_packNormals positions k p hp,
      fun i hi => readFloatLE_packNormals positions k p hp i hi,
      fround_unit (normalOf p) n1 n2 n3⟩, ?_⟩
  intro hmem
  have e := (normalOf_unitTriangle p hmem).2
  rw [e]
  exact ⟨rfl, fround_unitTriangle p hmem⟩

/-- The instance of C11 (amended) at the position `(1, 2^-600, 0)`, whose second square
underflows while the sum of squares does not. -/
theorem C11_unit_normals_witness :
    gltf "Mixed" [⟨JsNum.fin 1, JsNum.fin ((2 : ℚ) ^ (-600 : ℤ)), JsNum.fin 0⟩] [0, 0, 0] [] =
        Except.ok (document "Mixed"
          [⟨JsNum.fin 1, JsNum.fin ((2 : ℚ) ^ (-600 : ℤ)), JsNum.fin 0⟩] [0, 0, 0] []) ∧
      ([⟨JsNum.fin 1, JsNum.fin ((2 : ℚ) ^ (-600 : ℤ)), JsNum.fin 0⟩] : List Vec3)[0]? =
        some ⟨JsNum.fin 1, JsNum.fin ((2 : ℚ) ^ (-600 : ℤ)), JsNum.fin 0⟩ ∧
      (⟨JsNum.fin 1, JsNum.fin ((2 : ℚ) ^ (-600 : ℤ)), JsNum.fin 0⟩ : Vec3).isFinite = true ∧
      (2 : ℚ) ^ (-1056 : ℤ) ≤
        (⟨JsNum.fin 1, JsNum.fin ((2 : ℚ) ^ (-600 : ℤ)), JsNum.fin 0⟩ : Vec3).normSq ∧
      (normLen ⟨JsNum.fin 1, JsNum.fin ((2 : ℚ) ^ (-600 : ℤ)), JsNum.fin 0⟩).isFinite = true ∧
      ((normalOf ⟨JsNum.fin 1, JsNum.fin ((2 : ℚ) ^ (-600 : ℤ)), JsNum.fin 0⟩).isFinite = true ∧
        (1 - 1 / 100000) ^ 2 ≤
          (normalOf ⟨JsNum.fin 1, JsNum.fin ((2 : ℚ) ^ (-600 : ℤ)), JsNum.fin 0⟩).normSq ∧
        (normalOf ⟨JsNum.fin 1, JsNum.fin ((2 : ℚ) ^ (-600 : ℤ)), JsNum.fin 0⟩).normSq
          ≤ (1 + 1 / 100000) ^ 2) :=
  ⟨gltf_ok _ _ _ _ (by decide), rfl, rfl, mixed_normSq (-600),
    by rw [(normalOf_mixed (-600) (by norm_num) (by norm_num)).1]; rfl,
    (C11_unit_normals "Mixed" [⟨JsNum.fin 1, JsNum.fin ((2 : ℚ) ^ (-600 : ℤ)), JsNum.fin 0⟩]
      [0, 0, 0] [] _ 0 ⟨JsNum.fin 1, JsNum.fin ((2 : ℚ) ^ (-600 : ℤ)), JsNum.fin 0⟩
      (gltf_ok _ _ _ _ (by decide)) rfl rfl (mixed_normSq (-600))
      (by rw [(normalOf_mixed (-600) (by norm_num) (by norm_num)).1]; rfl)).1⟩

end Aetherion
